import Mathlib

/-!
# OPD token system: allocation engine

A shallow embedding of `src/config/config.js`, `src/models/Token.js`,
`src/models/Slot.js`, `src/models/TokenModel.js`, `src/models/SlotModel.js`,
`src/database/db.js`, `src/services/slotService.js` and
`src/services/tokenService.js`.

Modelling conventions.

* The Mongo collections are lists of documents in natural (insertion) order.
  `findByIdAndUpdate(id, data, { upsert: true })` overwrites the listed fields of
  the document with that `_id`, or appends a new document.  Mongoose does not
  run schema validators on updates, so an update never fails.
* An object read from the store is the plain object `doc.toObject()` that
  `db._convertDocToToken` / `db._convertDocToSlot` return: it has the paths of
  the schema and the methods these two functions attach, nothing else.  A token
  read from the store therefore has no property `priorityScore` or `position`
  and none of the methods of the class `Token`; calling one of them throws a
  `TypeError`.
* Every `async` call is awaited in program order; the un-awaited
  `slot.incrementCount()` / `slot.decrementCount()` of `updateSlotCapacity`
  mutate the in-memory object synchronously and write the same count that the
  following `db.saveSlot` writes.  The un-awaited `token.updateStatus(status)` of
  `updateTokenStatus` starts a write of its own; which of it and the following
  `db.saveToken` reaches the store last is an input of the operation.
* A sequence of calls of the service is a list of `Call` values run from left
  to right; a call that throws leaves the store it had reached.
* `Date.now()` and `uuidv4()` are inputs of the operations that read them.
* A priority score is kept twice.  The field `priorityScore` and
  `calculatePriorityScore` hold the exact value of `base + Date.now() / 10^9`, as
  the integer `score * 10^9`; `doubleScore` is the double the code computes
  (each operation rounded to 53 significant bits, to nearest, ties to even).
  The two order any two scores alike whenever the exact scores differ, for
  instants below `8 * 10^12` ms and base values up to 8000 (`doubleScore_order`);
  when the exact scores are equal the doubles may differ by rounding
  (`doubles_blur_equal_scores`).
* `new Date(slot.date)` reads the date-only string as midnight UTC, and
  `setHours` / `setMinutes` work in the local time of the server.  An estimate is
  kept as that string together with the minutes set from local midnight;
  `EstTime.localDay` gives its calendar day for an offset of the server from UTC.
* An operation returns its outcome (`Except String _`, the message of the thrown
  error) together with the store it leaves behind, also when it throws.
-/

namespace OPD

/-! ## config.js -/

/-- The table `config.priority`, with the values `parseInt(env) || default`. -/
structure PriorityConfig where
  EMERGENCY : Int
  PAID : Int
  FOLLOWUP : Int
  ONLINE : Int
  WALKIN : Int
deriving DecidableEq, Repr

/-- The default configuration: no environment variable is set. -/
def defaultPriority : PriorityConfig :=
  { EMERGENCY := 1000, PAID := 500, FOLLOWUP := 300, ONLINE := 200, WALKIN := 100 }

/-- Own keys of `config.priority`: the value of `config.priority[type]`. -/
def PriorityConfig.lookup (c : PriorityConfig) (type : String) : Option Int :=
  if type = "EMERGENCY" then some c.EMERGENCY
  else if type = "PAID" then some c.PAID
  else if type = "FOLLOWUP" then some c.FOLLOWUP
  else if type = "ONLINE" then some c.ONLINE
  else if type = "WALKIN" then some c.WALKIN
  else none

/-- Property names every object inherits from `Object.prototype`: for these
`config.priority[type]` is a function or an object, not `undefined`. -/
def objectPrototypeKeys : List String :=
  ["constructor", "toString", "toLocaleString", "valueOf", "hasOwnProperty",
   "isPrototypeOf", "propertyIsEnumerable", "__proto__", "__defineGetter__",
   "__defineSetter__", "__lookupGetter__", "__lookupSetter__"]

/-! ## Slot.js, SlotModel.js -/

/-- A slot document, and the object `db._convertDocToSlot` builds from it. -/
structure Slot where
  id : String
  doctorId : String
  date : String
  startTime : String
  endTime : String
  maxCapacity : Int
  currentCount : Int
  isDelayed : Bool
  delayMinutes : Int
  status : String
deriving DecidableEq, Repr

/-- Embeds `availableCapacity`: `maxCapacity - currentCount`. -/
def Slot.availableCapacity (s : Slot) : Int := s.maxCapacity - s.currentCount

/-- Embeds `isFull`: `currentCount >= maxCapacity`. -/
def Slot.isFull (s : Slot) : Bool := decide (s.currentCount ≥ s.maxCapacity)

/-- Embeds `incrementCount`: `currentCount++`. -/
def Slot.incrementCount (s : Slot) : Slot := { s with currentCount := s.currentCount + 1 }

/-- Embeds `decrementCount`: `if (currentCount > 0) currentCount--`. -/
def Slot.decrementCount (s : Slot) : Slot :=
  if s.currentCount > 0 then { s with currentCount := s.currentCount - 1 } else s

/-! ## Token.js, TokenModel.js -/

/-- A point in time as `_calculateEstimatedTime` builds it: the `Date` that
`new Date(date)` gives for the date-only string `date` (midnight UTC of that
day), after `setHours` / `setMinutes` have set `minutes` minutes from the local
midnight of the local calendar day that instant falls on. -/
structure EstTime where
  date : String
  minutes : Int
deriving DecidableEq, Repr

/-- The calendar day of an estimate on a server whose local time is `tzOffset`
minutes ahead of UTC (negative west of Greenwich), counted in days after
`date`: midnight UTC of `date` is still the evening before in a zone behind UTC,
`setHours` stays on that local day, and minutes beyond the day carry over. -/
def EstTime.localDay (e : EstTime) (tzOffset : Int) : Int :=
  (if tzOffset < 0 then -1 else 0) + e.minutes / 1440

/-- The local time of day of an estimate, in minutes after midnight. -/
def EstTime.localMinute (e : EstTime) : Int := e.minutes % 1440

/-- A token object in memory.  `hasMethods` is true for an instance of the
class `Token` (it carries `markCancelled`, `markNoShow`, `relocate`, ...) and
false for the plain object `db._convertDocToToken` returns.  `priorityScore`
is `none` when the property is not a number, `position` and `tokenNumber` are
`none` when the property is `null` or `undefined`; `priority` and
`queuePosition` are the properties `db.saveToken` reads. -/
structure Token where
  id : String
  slotId : String
  patientId : String
  patientName : String
  phoneNumber : Option String
  type : String
  tokenNumber : Option String
  priorityScore : Option Int
  status : String
  bookedAt : Option Nat
  estimatedTime : Option EstTime
  position : Option Nat
  isRelocated : Bool
  originalSlotId : Option String
  priority : Option Int
  queuePosition : Option Int
  hasMethods : Bool
deriving DecidableEq, Repr

/-- A token document: the paths of `tokenSchema` that `db.saveToken` writes
(`checkInTime`, `completedTime` and the timestamps are read by no service). -/
structure TokenDoc where
  _id : String
  tokenNumber : Option String
  patientId : String
  patientName : String
  slotId : String
  type : String
  priority : Option Int
  queuePosition : Option Int
  estimatedTime : Option EstTime
  status : String
deriving DecidableEq, Repr

/-- Embeds `Token.calculatePriorityScore(type)` at clock reading `now` (milliseconds),
scaled by `10^9`: `(config.priority[type] || config.priority.WALKIN) + now / 10^9`.
For an inherited property name the sum is a string, not a number. -/
def calculatePriorityScore (cfg : PriorityConfig) (type : String) (now : Nat) : Option Int :=
  match cfg.lookup type with
  | some v => some ((if v ≠ 0 then v else cfg.WALKIN) * 1000000000 + now)
  | none =>
    if type ∈ objectPrototypeKeys then none
    else some (cfg.WALKIN * 1000000000 + now)

/-- The constructor `new Token(slotId, patientId, patientName, type, phoneNumber)`,
with `id` the fresh uuid and `now` the clock reading. -/
def Token.new (cfg : PriorityConfig) (id : String) (now : Nat)
    (slotId patientId patientName type : String) (phoneNumber : Option String) : Token :=
  { id := id, slotId := slotId, patientId := patientId, patientName := patientName,
    phoneNumber := phoneNumber, type := type, tokenNumber := none,
    priorityScore := calculatePriorityScore cfg type now,
    status := "SCHEDULED", bookedAt := some now, estimatedTime := none,
    position := none, isRelocated := false, originalSlotId := none,
    priority := none, queuePosition := none, hasMethods := true }

/-- Embeds `token.markCancelled()`: a `TypeError` on an object without the method. -/
def Token.markCancelled (t : Token) : Except String Token :=
  if t.hasMethods then .ok { t with status := "CANCELLED" }
  else .error "TypeError: token.markCancelled is not a function"

/-- Embeds `token.markNoShow()`: a `TypeError` on an object without the method. -/
def Token.markNoShow (t : Token) : Except String Token :=
  if t.hasMethods then .ok { t with status := "NO_SHOW" }
  else .error "TypeError: token.markNoShow is not a function"

/-- Embeds `token.relocate(newSlotId)`: a `TypeError` on an object without the method. -/
def Token.relocate (t : Token) (newSlotId : String) : Except String Token :=
  if t.hasMethods then
    .ok { t with
      originalSlotId := (match t.originalSlotId with
        | some o => if o ≠ "" then some o else some t.slotId
        | none => some t.slotId),
      slotId := newSlotId, isRelocated := true }
  else .error "TypeError: token.relocate is not a function"

/-! ## db.js -/

deriving instance DecidableEq for Except

/-- The store: the two collections and the in-memory waitlist map. -/
structure Db where
  slots : List Slot
  tokens : List TokenDoc
  waitlist : List (String × List Token)
deriving DecidableEq, Repr

/-- Embeds `db.getSlot(id)`. -/
def Db.getSlot (db : Db) (id : String) : Option Slot :=
  db.slots.find? (fun s => s.id = id)

/-- Embeds `db.saveSlot(slot)`: upsert by `_id`. -/
def Db.saveSlot (db : Db) (slot : Slot) : Db :=
  if db.slots.any (fun s => s.id = slot.id) then
    { db with slots := db.slots.map (fun s => if s.id = slot.id then slot else s) }
  else { db with slots := db.slots ++ [slot] }

/-- Embeds `db.getSlotsByDoctor(doctorId)`. -/
def Db.getSlotsByDoctor (db : Db) (doctorId : String) : List Slot :=
  db.slots.filter (fun s => s.doctorId = doctorId)

/-- The object `tokenData` that `db.saveToken` builds from a token. -/
def tokenData (t : Token) : TokenDoc :=
  { _id := t.id, tokenNumber := t.tokenNumber, patientId := t.patientId,
    patientName := t.patientName, slotId := t.slotId, type := t.type,
    priority := t.priority, queuePosition := t.queuePosition,
    estimatedTime := t.estimatedTime, status := t.status }

/-- An update of a stored document: a field that is `undefined` in the update
leaves the stored field as it is.  Here `none` stands for `undefined`; the
service saves no token with a `null` display number, and an invalid estimate,
which mongoose would write as a string, arises only from a start time that the
validators reject. -/
def TokenDoc.update (old upd : TokenDoc) : TokenDoc :=
  { upd with
    tokenNumber := upd.tokenNumber <|> old.tokenNumber,
    priority := upd.priority <|> old.priority,
    queuePosition := upd.queuePosition <|> old.queuePosition,
    estimatedTime := upd.estimatedTime <|> old.estimatedTime }

/-- Embeds `db.saveToken(token)`: upsert of `tokenData` by `_id`. -/
def Db.saveToken (db : Db) (t : Token) : Db :=
  if db.tokens.any (fun d => d._id = t.id) then
    { db with tokens :=
        db.tokens.map (fun d => if d._id = t.id then d.update (tokenData t) else d) }
  else { db with tokens := db.tokens ++ [tokenData t] }

/-- Embeds `db._convertDocToToken(doc)`: the plain object with the schema paths (and
the two methods `updateStatus`, `updateQueuePosition`); it has no property
`priorityScore` or `position` and none of the methods of the class `Token`. -/
def _convertDocToToken (d : TokenDoc) : Token :=
  { id := d._id, slotId := d.slotId, patientId := d.patientId,
    patientName := d.patientName, phoneNumber := none, type := d.type,
    tokenNumber := d.tokenNumber, priorityScore := none, status := d.status,
    bookedAt := none, estimatedTime := d.estimatedTime, position := none,
    isRelocated := false, originalSlotId := none, priority := d.priority,
    queuePosition := d.queuePosition, hasMethods := false }

/-- Embeds `db.getToken(id)`. -/
def Db.getToken (db : Db) (id : String) : Option Token :=
  (db.tokens.find? (fun d => d._id = id)).map _convertDocToToken

/-- Embeds `db.getTokensBySlot(slotId)`. -/
def Db.getTokensBySlot (db : Db) (slotId : String) : List Token :=
  (db.tokens.filter (fun d => d.slotId = slotId)).map _convertDocToToken

/-- Embeds `db.getWaitlist(slotId)`: `this.waitlist.get(slotId) || []`. -/
def Db.getWaitlist (db : Db) (slotId : String) : List Token :=
  match db.waitlist.find? (fun e => e.1 = slotId) with
  | some e => e.2
  | none => []

/-- Embeds `db.addToWaitlist(slotId, token)`. -/
def Db.addToWaitlist (db : Db) (slotId : String) (t : Token) : Db :=
  if db.waitlist.any (fun e => e.1 = slotId) then
    { db with waitlist :=
        db.waitlist.map (fun e => if e.1 = slotId then (e.1, e.2 ++ [t]) else e) }
  else { db with waitlist := db.waitlist ++ [(slotId, [t])] }

/-- Embeds `list.splice(list.findIndex(t => t.id === tokenId), 1)`. -/
def removeFirstById (tokenId : String) : List Token → List Token
  | [] => []
  | t :: ts => if t.id = tokenId then ts else t :: removeFirstById tokenId ts

/-- Embeds `db.removeFromWaitlist(slotId, tokenId)`. -/
def Db.removeFromWaitlist (db : Db) (slotId tokenId : String) : Db :=
  { db with waitlist :=
      db.waitlist.map (fun e => if e.1 = slotId then (e.1, removeFirstById tokenId e.2) else e) }

/-! ## Array.prototype.sort -/

/-- Embeds `array.sort(compare)` for a comparator given by `after x y`, which says
`compare(x, y) > 0`: a stable sort, here by insertion from the right.  Every
stable sort returns this list when `compare` is a consistent ordering; a
comparison that yields `NaN` counts as `0`. -/
def insertStable {α : Type} (after : α → α → Bool) (x : α) : List α → List α
  | [] => [x]
  | y :: ys => if after x y then y :: insertStable after x ys else x :: y :: ys

/-- The stable sort built on `insertStable`. -/
def sortStable {α : Type} (after : α → α → Bool) : List α → List α
  | [] => []
  | x :: xs => insertStable after x (sortStable after xs)

/-- The number `b - a` is positive: both are numbers and `b > a`. -/
def scoreGt (b a : Option Int) : Bool :=
  match b, a with
  | some y, some x => decide (y > x)
  | _, _ => false

/-- The comparator `(a, b) => b.priorityScore - a.priorityScore` is positive. -/
def byScoreDesc (a b : Token) : Bool := scoreGt b.priorityScore a.priorityScore

/-- Lexicographic order of two character lists by character code. -/
def codesLt : List Char → List Char → Bool
  | _, [] => false
  | [], _ :: _ => true
  | a :: as, b :: bs =>
    if a.toNat < b.toNat then true
    else if b.toNat < a.toNat then false
    else codesLt as bs

/-- The JavaScript comparison `a < b` of two strings (the characters of dates
and times are ASCII, where code unit and character code agree). -/
def jsStringLt (a b : String) : Bool := codesLt a.data b.data

/-! ## slotService.js -/

namespace slotService

/-- Embeds `getSlot(slotId)`: throws when the slot is not stored. -/
def getSlot (db : Db) (slotId : String) : Except String Slot :=
  match db.getSlot slotId with
  | some slot => .ok slot
  | none => .error "Slot not found"

/-- Embeds `updateSlotCapacity(slotId, increment)`. -/
def updateSlotCapacity (db : Db) (slotId : String) (increment : Bool) :
    Except String Slot × Db :=
  match getSlot db slotId with
  | .error e => (.error e, db)
  | .ok slot =>
    let slot := if increment then slot.incrementCount else slot.decrementCount
    (.ok slot, db.saveSlot slot)

/-- The comparator of `getNextAvailableSlot` is positive: by date, then by
start time (`localeCompare`, taken as the order of the code units). -/
def bySlotTime (a b : Slot) : Bool :=
  if a.date ≠ b.date then jsStringLt b.date a.date else jsStringLt b.startTime a.startTime

/-- Embeds `getNextAvailableSlot(doctorId, afterDate, afterTime)`; `none` is `null`. -/
def getNextAvailableSlot (db : Db) (doctorId afterDate afterTime : String) : Option Slot :=
  let availableSlots := (db.getSlotsByDoctor doctorId).filter (fun slot =>
    if slot.isFull || slot.status ≠ "ACTIVE" then false
    else if jsStringLt afterDate slot.date then true
    else if slot.date = afterDate ∧ jsStringLt afterTime slot.startTime then true
    else false)
  (sortStable bySlotTime availableSlots).head?

end slotService

/-! ## tokenService.js -/

namespace tokenService

/-- Embeds `String(n).padStart(3, '0')`. -/
def padStart3 (n : Nat) : String :=
  let s := toString n
  String.mk (List.replicate (3 - s.length) '0') ++ s

/-- The display number of rank `n`: the template `T` followed by the padded rank. -/
def tokenNumberOf (n : Nat) : String := "T" ++ padStart3 n

/-- One step of the ranking loops: `token.position = index + 1` and
`token.tokenNumber` the display number of `index + 1`. -/
def setRank (index : Nat) (token : Token) : Token :=
  { token with position := some (index + 1), tokenNumber := some (tokenNumberOf (index + 1)) }

/-- The `forEach((token, index) => ...)` of `_assignTokenNumber`, started at
`index`; the flag of an entry marks the object `newToken`. -/
def assignFrom (index : Nat) : List (Bool × Token) → List (Bool × Token)
  | [] => []
  | e :: es => (e.1, setRank index e.2) :: assignFrom (index + 1) es

/-- The list `_assignTokenNumber(newToken, slotId)` ranks, after the ranking:
the stored tokens of the slot that are neither CANCELLED nor NO_SHOW, then
`newToken`, sorted by descending score and numbered from 1. -/
def rankedWith (db : Db) (newToken : Token) (slotId : String) : List (Bool × Token) :=
  let existingTokens := (db.getTokensBySlot slotId).filter
    (fun t => t.status ≠ "CANCELLED" ∧ t.status ≠ "NO_SHOW")
  let existingTokens := existingTokens.map (fun t => (false, t)) ++ [(true, newToken)]
  let existingTokens := sortStable (fun a b => byScoreDesc a.2 b.2) existingTokens
  assignFrom 0 existingTokens

/-- Embeds `_assignTokenNumber(newToken, slotId)`: the state of the object `newToken`
afterwards.  The other ranked objects are the copies `db.getTokensBySlot`
made; nothing is written to the store. -/
def _assignTokenNumber (db : Db) (newToken : Token) (slotId : String) : Token :=
  match (rankedWith db newToken slotId).find? (fun e => e.1) with
  | some e => e.2
  | none => newToken

/-- Digits of a decimal numeral, most significant first. -/
def digitsValue : List Char → Option Nat
  | [] => some 0
  | cs => cs.foldl (fun acc c =>
      match acc with
      | some n => if c.isDigit then some (n * 10 + (c.toNat - 48)) else none
      | none => none) (some 0)

/-- Embeds `s.split(':')` on the characters of `s`. -/
def splitColon : List Char → List (List Char)
  | [] => [[]]
  | c :: cs =>
    match splitColon cs with
    | [] => [[]]
    | p :: ps => if c = ':' then [] :: p :: ps else (c :: p) :: ps

/-- Embeds `const [hours, minutes] = slot.startTime.split(':').map(Number)`, for parts
that are decimal digits (`Number('')` is `0`); `none` when a part is missing or
is not a string of decimal digits.  `Number` reads a few more spellings, such
as `' 9'` or `'1e1'`; the validator of start times admits none of them. -/
def parseStartTime (startTime : String) : Option (Nat × Nat) :=
  match splitColon startTime.data with
  | h :: m :: _ =>
    match digitsValue h, digitsValue m with
    | some hours, some minutes => some (hours, minutes)
    | _, _ => none
  | _ => none

/-- Embeds `_calculateEstimatedTime(token)`: the token with its estimate set; the
average consultation time is 10 minutes.  The estimate is an invalid date
(`none`) when the start time does not parse or `token.position` is
`undefined`, as on a plain object; the `null` position of an unranked object
of the class counts as 0, ten minutes before the start. -/
def _calculateEstimatedTime (db : Db) (token : Token) : Except String Token :=
  match slotService.getSlot db token.slotId with
  | .error e => .error e
  | .ok slot =>
    let estimatedDate : Option EstTime :=
      match parseStartTime slot.startTime, token.position with
      | some (hours, minutes), some position =>
        let estimatedMinutes : Int := ((position : Int) - 1) * 10
        let base : Int := (hours : Int) * 60 + (minutes : Int) + estimatedMinutes
        some { date := slot.date,
               minutes := if slot.isDelayed then base + slot.delayMinutes else base }
      | some (hours, minutes), none =>
        if token.hasMethods then
          let estimatedMinutes : Int := (0 - 1) * 10
          let base : Int := (hours : Int) * 60 + (minutes : Int) + estimatedMinutes
          some { date := slot.date,
                 minutes := if slot.isDelayed then base + slot.delayMinutes else base }
        else none
      | _, _ => none
    .ok { token with estimatedTime := estimatedDate }

/-- Embeds `allocateToken(slotId, patientId, patientName, type, phoneNumber)`, with
`newId` the uuid of the new token and `now` the clock reading. -/
def allocateToken (cfg : PriorityConfig) (db : Db) (newId : String) (now : Nat)
    (slotId patientId patientName type : String) (phoneNumber : Option String) :
    Except String Token × Db :=
  match slotService.getSlot db slotId with
  | .error e => (.error e, db)
  | .ok slot =>
    if slot.isFull then (.error "Slot is full. Token cannot be allocated.", db)
    else
      let token := Token.new cfg newId now slotId patientId patientName type phoneNumber
      let token := _assignTokenNumber db token slotId
      match slotService.updateSlotCapacity db slotId true with
      | (.error e, db1) => (.error e, db1)
      | (.ok _, db1) =>
        match _calculateEstimatedTime db1 token with
        | .error e => (.error e, db1)
        | .ok token => (.ok token, db1.saveToken token)

/-- The `for (const token of tokens)` loop of `_reorderSlotTokens`, from list
index `index` on (`tokens.indexOf(token)` is the index of the object); `done`
holds the objects of the array the loop has already ranked and saved. -/
def reorderLoop (db : Db) (index : Nat) (done : List Token) :
    List Token → Except String (List Token) × Db
  | [] => (.ok done, db)
  | token :: rest =>
    match _calculateEstimatedTime db (setRank index token) with
    | .error e => (.error e, db)
    | .ok token => reorderLoop (db.saveToken token) (index + 1) (done ++ [token]) rest

/-- The sorted list of `_reorderSlotTokens(slotId)`: the stored SCHEDULED and
WAITING tokens of the slot by descending score. -/
def reorderList (db : Db) (slotId : String) : List Token :=
  sortStable byScoreDesc ((db.getTokensBySlot slotId).filter
    (fun t => t.status = "SCHEDULED" ∨ t.status = "WAITING"))

/-- Embeds `_reorderSlotTokens(slotId)`; the outcome carries the array `tokens` as the
loop leaves it (the function itself returns nothing). -/
def _reorderSlotTokens (db : Db) (slotId : String) : Except String (List Token) × Db :=
  reorderLoop db 0 [] (reorderList db slotId)

/-- Embeds `insertEmergencyToken(slotId, patientName, phoneNumber)`; `nowId` is the
clock reading that names the patient. -/
def insertEmergencyToken (cfg : PriorityConfig) (db : Db) (newId : String) (nowId now : Nat)
    (slotId patientName : String) (phoneNumber : Option String) :
    Except String Token × Db :=
  let patientId := "EMERGENCY-" ++ toString nowId
  match slotService.getSlot db slotId with
  | .error e => (.error e, db)
  | .ok slot =>
    let db1 := if slot.isFull then db.saveSlot { slot with maxCapacity := slot.maxCapacity + 1 }
      else db
    match allocateToken cfg db1 newId now slotId patientId patientName "EMERGENCY" phoneNumber with
    | (.error e, db2) => (.error e, db2)
    | (.ok token, db2) =>
      match _reorderSlotTokens db2 slotId with
      | (.error e, db3) => (.error e, db3)
      | (.ok _, db3) => (.ok token, db3)

/-- The in-memory effect of mutating `waitlist[0]`: the array of the map holds
the same object. -/
def setWaitlistHead (db : Db) (slotId : String) (token : Token) : Db :=
  { db with waitlist :=
      db.waitlist.map (fun e => if e.1 = slotId then (e.1, token :: e.2.tail) else e) }

/-- Embeds `_promoteFromWaitlist(slotId)`. -/
def _promoteFromWaitlist (db : Db) (slotId : String) : Except String Unit × Db :=
  let waitlist := db.getWaitlist slotId
  match slotService.getSlot db slotId with
  | .error e => (.error e, db)
  | .ok slot =>
    match waitlist with
    | [] => (.ok (), db)
    | promotedToken :: _ =>
      if slot.isFull then (.ok (), db)
      else
        let promotedToken := { promotedToken with status := "SCHEDULED" }
        let promotedToken := _assignTokenNumber db promotedToken slotId
        match _calculateEstimatedTime db promotedToken with
        | .error e => (.error e, setWaitlistHead db slotId promotedToken)
        | .ok promotedToken =>
          let db1 := (setWaitlistHead db slotId promotedToken).saveToken promotedToken
          match slotService.updateSlotCapacity db1 slotId true with
          | (.error e, db2) => (.error e, db2)
          | (.ok _, db2) => (.ok (), db2.removeFromWaitlist slotId promotedToken.id)

/-- The steps of `cancelToken` and `markNoShow` after the token is saved:
release the unit of capacity, re-rank, promote. -/
def releaseAndRerank (db : Db) (token : Token) : Except String Token × Db :=
  match slotService.updateSlotCapacity db token.slotId false with
  | (.error e, db1) => (.error e, db1)
  | (.ok _, db1) =>
    match _reorderSlotTokens db1 token.slotId with
    | (.error e, db2) => (.error e, db2)
    | (.ok _, db2) =>
      match _promoteFromWaitlist db2 token.slotId with
      | (.error e, db3) => (.error e, db3)
      | (.ok _, db3) => (.ok token, db3)

/-- Embeds `cancelToken(tokenId, reason)`; the returned `reason` is the argument. -/
def cancelToken (db : Db) (tokenId : String) : Except String Token × Db :=
  match db.getToken tokenId with
  | none => (.error "Token not found", db)
  | some token =>
    if token.status = "CANCELLED" then (.error "Token already cancelled", db)
    else if token.status = "COMPLETED" then (.error "Cannot cancel completed token", db)
    else
      match token.markCancelled with
      | .error e => (.error e, db)
      | .ok token => releaseAndRerank (db.saveToken token) token

/-- Embeds `markNoShow(tokenId)`. -/
def markNoShow (db : Db) (tokenId : String) : Except String Token × Db :=
  match db.getToken tokenId with
  | none => (.error "Token not found", db)
  | some token =>
    match token.markNoShow with
    | .error e => (.error e, db)
    | .ok token => releaseAndRerank (db.saveToken token) token

/-- Embeds `tokens.slice(start)` for an integer `start`. -/
def sliceFrom (tokens : List Token) (start : Int) : List Token :=
  if 0 ≤ start then tokens.drop start.toNat
  else tokens.drop (tokens.length - (-start).toNat)

/-- The `for (const token of tokensToMove)` loop of `reallocateTokens`; `acc`
is `reallocatedTokens`. -/
def reallocateLoop (db : Db) (slotId nextSlotId : String) (acc : List Token) :
    List Token → Except String (List Token) × Db
  | [] => (.ok acc, db)
  | token :: rest =>
    match token.relocate nextSlotId with
    | .error e => (.error e, db)
    | .ok token =>
      let token := _assignTokenNumber db token nextSlotId
      match _calculateEstimatedTime db token with
      | .error e => (.error e, db)
      | .ok token =>
        let db1 := db.saveToken token
        match slotService.updateSlotCapacity db1 slotId false with
        | (.error e, db2) => (.error e, db2)
        | (.ok _, db2) =>
          match slotService.updateSlotCapacity db2 nextSlotId true with
          | (.error e, db3) => (.error e, db3)
          | (.ok _, db3) => reallocateLoop db3 slotId nextSlotId (acc ++ [token]) rest

/-- Embeds `reallocateTokens(slotId, reason)`: the list `reallocated` of the result
(the doctor the function fetches is used nowhere). -/
def reallocateTokens (db : Db) (slotId : String) : Except String (List Token) × Db :=
  let tokens := (db.getTokensBySlot slotId).filter (fun t => t.status = "SCHEDULED")
  if tokens.length = 0 then (.ok [], db)
  else
    match slotService.getSlot db slotId with
    | .error e => (.error e, db)
    | .ok slot =>
      match slotService.getNextAvailableSlot db slot.doctorId slot.date slot.startTime with
      | none => (.error "No available slots for reallocation", db)
      | some nextSlot =>
        let tokensToMove := sliceFrom tokens nextSlot.availableCapacity
        reallocateLoop db slotId nextSlot.id [] tokensToMove

end tokenService

/-! ## Predicates of the specification -/

/-- The capacity invariant of one slot: `0 ≤ currentCount ≤ maxCapacity`. -/
def Slot.withinCapacity (s : Slot) : Prop := 0 ≤ s.currentCount ∧ s.currentCount ≤ s.maxCapacity

/-- The capacity invariant of the store: every stored slot is within capacity. -/
def Db.capacityOk (db : Db) : Prop := ∀ s ∈ db.slots, s.withinCapacity

/-- Token `a` is ranked ahead of token `b`: both have a position and the
position of `a` is the smaller one. -/
def rankedBefore (a b : Token) : Prop :=
  ∃ pa pb, a.position = some pa ∧ b.position = some pb ∧ pa < pb

/-! ## Sample stores -/

/-- A slot of doctor `d1` at 09:00 with room for two tokens. -/
def sampleSlot : Slot :=
  { id := "s1", doctorId := "d1", date := "2024-01-15", startTime := "09:00",
    endTime := "09:10", maxCapacity := 2, currentCount := 0, isDelayed := false,
    delayMinutes := 0, status := "ACTIVE" }

/-- The store holding only `sampleSlot`. -/
def sampleEmpty : Db := { slots := [sampleSlot], tokens := [], waitlist := [] }

/-- Walk-in A booked into `sampleEmpty`. -/
def sampleOne : Db :=
  (tokenService.allocateToken defaultPriority sampleEmpty "a" 1000 "s1" "pA" "A" "WALKIN" none).2

/-- Walk-in B booked after A: the slot is full. -/
def sampleFull : Db :=
  (tokenService.allocateToken defaultPriority sampleOne "b" 2000 "s1" "pB" "B" "WALKIN" none).2

/-- A slot of capacity three holding the walk-ins A, B and C. -/
def sampleThree : Db :=
  let db : Db := { slots := [{ sampleSlot with maxCapacity := 3 }], tokens := [], waitlist := [] }
  let db := (tokenService.allocateToken defaultPriority db "a" 1000 "s1" "pA" "A" "WALKIN" none).2
  let db := (tokenService.allocateToken defaultPriority db "b" 2000 "s1" "pB" "B" "WALKIN" none).2
  (tokenService.allocateToken defaultPriority db "c" 3000 "s1" "pC" "C" "WALKIN" none).2

/-- A store whose slot counts three tokens against a capacity of two. -/
def sampleOverfull : Db :=
  { slots := [{ sampleSlot with currentCount := 3 }], tokens := [], waitlist := [] }

/-- A later slot of the same doctor, at 09:10, counting `count` tokens against a
capacity of two. -/
def laterSlot (count : Int) : Slot :=
  { sampleSlot with id := "s2", startTime := "09:10", endTime := "09:20",
                    currentCount := count }

/-- The case of the specification: three SCHEDULED tokens in slot `s1`, one
free unit of capacity in the later slot `s2`. -/
def sampleSpecCase : Db :=
  { sampleThree with slots := sampleThree.slots ++ [laterSlot 1] }

/-- One SCHEDULED token in slot `s1`, two free units in the later slot `s2`. -/
def sampleRoomy : Db :=
  { sampleOne with slots := sampleOne.slots ++ [laterSlot 0] }

instance (s : Slot) : Decidable s.withinCapacity := by
  unfold Slot.withinCapacity; infer_instance

instance (db : Db) : Decidable db.capacityOk := by
  unfold Db.capacityOk; infer_instance

/-! ## Further parts of the sources -/

/-- The local `baseScore` of `Token.calculatePriorityScore`:
`config.priority[type] || config.priority.WALKIN`; `none` when that value is
not a number (an inherited property name). -/
def baseScore (cfg : PriorityConfig) (type : String) : Option Int :=
  match cfg.lookup type with
  | some v => some (if v ≠ 0 then v else cfg.WALKIN)
  | none => if type ∈ objectPrototypeKeys then none else some cfg.WALKIN

/-- Rounding to the nearest integer, ties to the even one. -/
def roundHalfEven (x : ℚ) : Int :=
  if x - ⌊x⌋ < 1 / 2 then ⌊x⌋
  else if 1 / 2 < x - ⌊x⌋ then ⌊x⌋ + 1
  else if ⌊x⌋ % 2 = 0 then ⌊x⌋ else ⌊x⌋ + 1

/-- The IEEE-754 double nearest to `q` (53 significant bits, ties to even), for
a `q` in the range of the normal numbers: the value of a JavaScript operation
whose exact result is `q`. -/
def toDouble (q : ℚ) : ℚ :=
  (roundHalfEven (q / (2 : ℚ) ^ (Int.log 2 |q| - 52)) : ℚ) * (2 : ℚ) ^ (Int.log 2 |q| - 52)

/-- Embeds `Token.calculatePriorityScore(type)` in the arithmetic of the code:
`timeFactor = Date.now() / 1000000000` and `baseScore + timeFactor`, each a
double. -/
def doubleScore (cfg : PriorityConfig) (type : String) (now : Nat) : Option ℚ :=
  match baseScore cfg type with
  | some b => some (toDouble ((b : ℚ) + toDouble ((now : ℚ) / 1000000000)))
  | none => none

/-- The number `b - a` is positive, for scores as the code computes them. -/
def doubleGt (b a : Option ℚ) : Bool :=
  match b, a with
  | some y, some x => decide (y > x)
  | _, _ => false

/-- The values of `config.tokenTypes`: the types the service gives its tokens. -/
def tokenTypes : List String := ["ONLINE", "WALKIN", "PRIORITY", "FOLLOWUP", "EMERGENCY"]

/-- The statements of `markNoShow(tokenId)` after the lookup, on the object
`token`. -/
def tokenService.markNoShowOn (db : Db) (token : Token) : Except String Token × Db :=
  match token.markNoShow with
  | .error e => (.error e, db)
  | .ok token => tokenService.releaseAndRerank (db.saveToken token) token

/-- The tokens B and C of `sampleThree` as objects of the class `Token`, ranked
second and third. -/
def sampleMovers : List Token :=
  [tokenService.setRank 1 (Token.new defaultPriority "b" 2000 "s1" "pB" "B" "WALKIN" none),
   tokenService.setRank 2 (Token.new defaultPriority "c" 3000 "s1" "pC" "C" "WALKIN" none)]

/-- The array `existingTokens` of `_assignTokenNumber` before `newToken` is
pushed: the stored tokens of the slot that are neither CANCELLED nor NO_SHOW. -/
def tokenService.existingTokens (db : Db) (slotId : String) : List Token :=
  (db.getTokensBySlot slotId).filter (fun t => t.status ≠ "CANCELLED" ∧ t.status ≠ "NO_SHOW")

/-- A store in which walk-in A (number `T001`) is CANCELLED and follow-up B still
carries number `T002` and the estimate 09:10; the slot counts one token
against a capacity of three. -/
def sampleGap : Db :=
  { slots := [{ sampleSlot with maxCapacity := 3, currentCount := 1 }],
    tokens :=
      [{ _id := "a", tokenNumber := some "T001", patientId := "pA", patientName := "A",
         slotId := "s1", type := "WALKIN", priority := none, queuePosition := none,
         estimatedTime := some { date := "2024-01-15", minutes := 540 },
         status := "CANCELLED" },
       { _id := "b", tokenNumber := some "T002", patientId := "pB", patientName := "B",
         slotId := "s1", type := "FOLLOWUP", priority := none, queuePosition := none,
         estimatedTime := some { date := "2024-01-15", minutes := 550 },
         status := "SCHEDULED" }],
    waitlist := [] }

/-- The token A of `sampleGap` as an object of the class `Token`: it has the
methods of the class. -/
def sampleCancelledObject : Token :=
  { tokenService.setRank 0 (Token.new defaultPriority "a" 1000 "s1" "pA" "A" "WALKIN" none) with
    status := "CANCELLED" }

/-- The slot `sampleSlot` flagged delayed by 15 minutes, with no token. -/
def sampleDelayed : Db :=
  { slots := [{ sampleSlot with isDelayed := true, delayMinutes := 15, status := "DELAYED" }],
    tokens := [], waitlist := [] }

/-- A token object at position 3 in slot `s1`. -/
def sampleThird : Token :=
  tokenService.setRank 2 (Token.new defaultPriority "c" 3000 "s1" "pC" "C" "WALKIN" none)

/-! ## Parts of the sources and predicates for the last claims -/

/-- A sequence of `token.relocate(newSlotId)` calls on one token object, one call
per destination of the list. -/
def relocateAll (t : Token) : List String → Except String Token
  | [] => .ok t
  | d :: ds =>
    match t.relocate d with
    | .error e => .error e
    | .ok t1 => relocateAll t1 ds

/-- The pair `(date, startTime)` of slot `a` is lexicographically smaller than
that of slot `b`. -/
def slotBefore (a b : Slot) : Bool :=
  jsStringLt a.date b.date || (decide (a.date = b.date) && jsStringLt a.startTime b.startTime)

/-- A slot that `getNextAvailableSlot(doctorId, afterDate, afterTime)` may
return: of that doctor, ACTIVE, not full, and strictly later than
`(afterDate, afterTime)`. -/
def nextSlotCandidate (doctorId afterDate afterTime : String) (s : Slot) : Prop :=
  s.doctorId = doctorId ∧ s.status = "ACTIVE" ∧ s.currentCount < s.maxCapacity
    ∧ (jsStringLt afterDate s.date = true
        ∨ (s.date = afterDate ∧ jsStringLt afterTime s.startTime = true))

/-- A store in which follow-up A is COMPLETED under number `T001` and no other
token is in the slot. -/
def sampleCompleted : Db :=
  { slots := [{ sampleSlot with maxCapacity := 3, currentCount := 1 }],
    tokens :=
      [{ _id := "a", tokenNumber := some "T001", patientId := "pA", patientName := "A",
         slotId := "s1", type := "FOLLOWUP", priority := none, queuePosition := none,
         estimatedTime := some (EstTime.mk "2024-01-15" 540), status := "COMPLETED" }],
    waitlist := [] }

/-- The store `sampleOne` with two tokens waiting for slot `s1`: emergency X, put
on the waitlist first, then walk-in Y. -/
def sampleWaiting : Db :=
  { sampleOne with
    waitlist := [("s1",
      [{ Token.new defaultPriority "x" 5000 "s1" "pX" "X" "EMERGENCY" none with
          status := "WAITING" },
       { Token.new defaultPriority "y" 6000 "s1" "pY" "Y" "WALKIN" none with
          status := "WAITING" }])] }

/-- The rank a ranking gives a token: its id with its position and its display
number. -/
def rankOf (t : Token) : String × Option Nat × Option String :=
  (t.id, t.position, t.tokenNumber)

/-- The object one pass of the loop of `_reorderSlotTokens` leaves at list index
`index`: ranked, with its estimate. -/
def rerankStep (db : Db) (index : Nat) (token : Token) : Token :=
  match tokenService._calculateEstimatedTime db (tokenService.setRank index token) with
  | .ok t => t
  | .error _ => tokenService.setRank index token

/-- The array of `_reorderSlotTokens` after its loop, from list index `index` on. -/
def rerankFrom (db : Db) (index : Nat) : List Token → List Token
  | [] => []
  | t :: ts => rerankStep db index t :: rerankFrom db (index + 1) ts

/-- The stored document after the ranked objects are saved: updated from the
ranked object with its id, if there is one. -/
def applyRanked (ranked : List Token) (d : TokenDoc) : TokenDoc :=
  match ranked.find? (fun t => t.id = d._id) with
  | some t => d.update (tokenData t)
  | none => d

/-- The documents `_reorderSlotTokens(slotId)` ranks: those of the slot that are
SCHEDULED or WAITING. -/
def rankedDoc (slotId : String) (d : TokenDoc) : Bool :=
  decide (d.slotId = slotId) && (decide (d.status = "SCHEDULED") || decide (d.status = "WAITING"))

/-- Embeds `token.markStarted()`: a `TypeError` on an object without the method. -/
def Token.markStarted (t : Token) : Except String Token :=
  if t.hasMethods then .ok { t with status := "IN_PROGRESS" }
  else .error "TypeError: token.markStarted is not a function"

/-- Embeds `token.markCompleted()`: a `TypeError` on an object without the method. -/
def Token.markCompleted (t : Token) : Except String Token :=
  if t.hasMethods then .ok { t with status := "COMPLETED" }
  else .error "TypeError: token.markCompleted is not a function"

/-- The write of the method `updateStatus` that `_convertDocToToken` puts on a
plain object: `TokenModel.findByIdAndUpdate(obj.id, { status })`.  The object
itself keeps its status. -/
def Db.updateStatus (db : Db) (id status : String) : Db :=
  { db with tokens := db.tokens.map (fun d =>
      if d._id = id then { d with status := status } else d) }

/-- Embeds `updateTokenStatus(tokenId, status)`.  In the default branch the promise
of `token.updateStatus(status)` is not awaited, so its write and the write of
`db.saveToken(token)` reach the store in either order: `statusWriteLast` says
that the status write comes second. -/
def tokenService.updateTokenStatus (db : Db) (tokenId status : String)
    (statusWriteLast : Bool) : Except String Token × Db :=
  match db.getToken tokenId with
  | none => (.error "Token not found", db)
  | some token =>
    if status = "IN_PROGRESS" then
      match token.markStarted with
      | .error e => (.error e, db)
      | .ok token => (.ok token, db.saveToken token)
    else if status = "COMPLETED" then
      match token.markCompleted with
      | .error e => (.error e, db)
      | .ok token => (.ok token, db.saveToken token)
    else if status = "CANCELLED" then tokenService.cancelToken db tokenId
    else if status = "NO_SHOW" then tokenService.markNoShow db tokenId
    else if token.hasMethods then
      (.ok { token with status := status }, db.saveToken { token with status := status })
    else if statusWriteLast then (.ok token, (db.saveToken token).updateStatus token.id status)
    else (.ok token, (db.updateStatus token.id status).saveToken token)

/-- One call of the service, with the values the environment supplies: the uuid
of a new token, the clock readings, the order of the two writes of a status
update. -/
inductive Call where
  | allocateToken (newId : String) (now : Nat) (slotId patientId patientName type : String)
      (phoneNumber : Option String)
  | insertEmergencyToken (newId : String) (nowId now : Nat) (slotId patientName : String)
      (phoneNumber : Option String)
  | cancelToken (tokenId : String)
  | markNoShow (tokenId : String)
  | updateTokenStatus (tokenId status : String) (statusWriteLast : Bool)

/-- The store a call leaves, whether it returns or throws. -/
def Call.run (cfg : PriorityConfig) (db : Db) : Call → Db
  | .allocateToken newId now slotId patientId patientName type phoneNumber =>
    (tokenService.allocateToken cfg db newId now slotId patientId patientName type phoneNumber).2
  | .insertEmergencyToken newId nowId now slotId patientName phoneNumber =>
    (tokenService.insertEmergencyToken cfg db newId nowId now slotId patientName phoneNumber).2
  | .cancelToken tokenId => (tokenService.cancelToken db tokenId).2
  | .markNoShow tokenId => (tokenService.markNoShow db tokenId).2
  | .updateTokenStatus tokenId status statusWriteLast =>
    (tokenService.updateTokenStatus db tokenId status statusWriteLast).2

/-- The uuid a call gives its new token is the id of no stored token. -/
def Call.freshId (db : Db) : Call → Bool
  | .allocateToken newId _ _ _ _ _ _ => db.tokens.all (fun d => d._id ≠ newId)
  | .insertEmergencyToken newId _ _ _ _ _ => db.tokens.all (fun d => d._id ≠ newId)
  | _ => true

/-- The store after a sequence of calls. -/
def runCalls (cfg : PriorityConfig) (db : Db) : List Call → Db
  | [] => db
  | c :: cs => runCalls cfg (c.run cfg db) cs

/-- Every uuid of the sequence is fresh at its call. -/
def freshIds (cfg : PriorityConfig) (db : Db) : List Call → Bool
  | [] => true
  | c :: cs => c.freshId db && freshIds cfg (c.run cfg db) cs

/-- The number of stored tokens of a slot whose status is neither CANCELLED nor
NO_SHOW. -/
def Db.liveCount (db : Db) (slotId : String) : Nat :=
  (db.tokens.filter (fun d =>
    d.slotId = slotId ∧ d.status ≠ "CANCELLED" ∧ d.status ≠ "NO_SHOW")).length

/-- Every slot counts its live tokens. -/
def Db.occupancyOk (db : Db) : Prop :=
  ∀ s ∈ db.slots, s.currentCount = (db.liveCount s.id : Int)

/-- The state of a store no call of the service leaves: the ids of the stored
tokens are distinct, no stored token is CANCELLED or NO_SHOW, and every slot
counts its live tokens. -/
def Db.steady (db : Db) : Prop :=
  (db.tokens.map (fun d => d._id)).Nodup
    ∧ (∀ d ∈ db.tokens, d.status ≠ "CANCELLED" ∧ d.status ≠ "NO_SHOW")
    ∧ db.occupancyOk

/-- A sequence of calls on `sampleEmpty`: A and B are booked, A is marked as a
no-show, cancelled and marked as a no-show again, B is set to WAITING, and an
emergency is inserted. -/
def sampleCalls : List Call :=
  [.allocateToken "a" 1000 "s1" "pA" "A" "WALKIN" none,
   .allocateToken "b" 2000 "s1" "pB" "B" "WALKIN" none,
   .markNoShow "a", .cancelToken "a", .markNoShow "a",
   .updateTokenStatus "b" "WAITING" true,
   .insertEmergencyToken "d" 4000 4000 "s1" "D" none]

/-! # Theorems -/

/-! ## The store -/

theorem getSlot_mem {db : Db} {id : String} {s : Slot} (h : db.getSlot id = some s) :
    s ∈ db.slots ∧ s.id = id := by
  unfold Db.getSlot at h
  exact ⟨List.mem_of_find?_eq_some h, by simpa using List.find?_some h⟩

theorem saveSlot_mem {db : Db} {slot s : Slot} (h : s ∈ (db.saveSlot slot).slots) :
    s = slot ∨ s ∈ db.slots := by
  unfold Db.saveSlot at h
  split at h
  · simp only [List.mem_map] at h
    obtain ⟨x, hx, rfl⟩ := h
    by_cases hid : x.id = slot.id
    · left; simp [hid]
    · right; simpa [hid] using hx
  · simp only [List.mem_append, List.mem_singleton] at h
    tauto

theorem saveSlot_capacityOk {db : Db} {slot : Slot} (h : db.capacityOk)
    (hs : slot.withinCapacity) : (db.saveSlot slot).capacityOk := by
  intro s hmem
  rcases saveSlot_mem hmem with rfl | h'
  · exact hs
  · exact h s h'

theorem find_map_replace (slot : Slot) (l : List Slot)
    (h : l.any (fun s => s.id = slot.id) = true) :
    (l.map (fun s => if s.id = slot.id then slot else s)).find? (fun s => s.id = slot.id)
      = some slot := by
  induction l with
  | nil => simp at h
  | cons x xs ih =>
    by_cases hx : x.id = slot.id
    · simp [hx]
    · have h' : xs.any (fun s => s.id = slot.id) = true := by
        simpa [hx] using h
      simp [hx, ih h']

theorem find_append_new (slot : Slot) (l : List Slot)
    (h : ¬ l.any (fun s => s.id = slot.id) = true) :
    (l ++ [slot]).find? (fun s => s.id = slot.id) = some slot := by
  induction l with
  | nil => simp
  | cons x xs ih =>
    have hx : ¬ x.id = slot.id := by
      intro hx; apply h; simp [hx]
    have h' : ¬ xs.any (fun s => s.id = slot.id) = true := by
      intro h'; apply h; simp only [List.any_cons, h', Bool.or_true]
    simp [hx, ih h']

theorem getSlot_saveSlot (db : Db) (slot : Slot) :
    (db.saveSlot slot).getSlot slot.id = some slot := by
  unfold Db.saveSlot Db.getSlot
  split
  · next h => exact find_map_replace slot db.slots h
  · next h => exact find_append_new slot db.slots h

theorem saveToken_slots (db : Db) (t : Token) : (db.saveToken t).slots = db.slots := by
  unfold Db.saveToken; split <;> rfl

theorem getSlot_saveToken (db : Db) (t : Token) (id : String) :
    (db.saveToken t).getSlot id = db.getSlot id := by
  unfold Db.getSlot; rw [saveToken_slots]

/-! ## Slot counters -/

theorem slotService_getSlot_ok {db : Db} {id : String} {s : Slot}
    (h : db.getSlot id = some s) : slotService.getSlot db id = .ok s := by
  simp [slotService.getSlot, h]

theorem slotService_getSlot_error {db : Db} {id : String}
    (h : db.getSlot id = none) : slotService.getSlot db id = .error "Slot not found" := by
  simp [slotService.getSlot, h]

theorem updateSlotCapacity_found {db : Db} {id : String} {s : Slot} (inc : Bool)
    (h : db.getSlot id = some s) :
    slotService.updateSlotCapacity db id inc =
      (.ok (if inc then s.incrementCount else s.decrementCount),
       db.saveSlot (if inc then s.incrementCount else s.decrementCount)) := by
  simp [slotService.updateSlotCapacity, slotService_getSlot_ok h]

theorem updateSlotCapacity_missing {db : Db} {id : String} (inc : Bool)
    (h : db.getSlot id = none) :
    slotService.updateSlotCapacity db id inc = (.error "Slot not found", db) := by
  simp [slotService.updateSlotCapacity, slotService_getSlot_error h]

theorem incrementCount_within {s : Slot} (h : s.withinCapacity) (hnf : s.isFull = false) :
    s.incrementCount.withinCapacity := by
  simp only [Slot.isFull, decide_eq_false_iff_not, not_le] at hnf
  simp only [Slot.withinCapacity, Slot.incrementCount] at h ⊢
  omega

theorem decrementCount_within {s : Slot} (h : s.withinCapacity) :
    s.decrementCount.withinCapacity := by
  unfold Slot.decrementCount
  split
  · simp only [Slot.withinCapacity] at h ⊢; omega
  · exact h

theorem updateSlotCapacity_inc_capacityOk {db : Db} {id : String} {s : Slot}
    (h : db.capacityOk) (hs : db.getSlot id = some s) (hnf : s.isFull = false) :
    (slotService.updateSlotCapacity db id true).2.capacityOk := by
  rw [updateSlotCapacity_found true hs]
  exact saveSlot_capacityOk h (incrementCount_within (h s (getSlot_mem hs).1) hnf)

theorem updateSlotCapacity_dec_capacityOk {db : Db} (id : String) (h : db.capacityOk) :
    (slotService.updateSlotCapacity db id false).2.capacityOk := by
  cases hs : db.getSlot id with
  | none => rw [updateSlotCapacity_missing false hs]; exact h
  | some s =>
    rw [updateSlotCapacity_found false hs]
    exact saveSlot_capacityOk h (decrementCount_within (h s (getSlot_mem hs).1))

/-! ## Ranking of the new token -/

theorem setRank_slotId (i : Nat) (t : Token) : (tokenService.setRank i t).slotId = t.slotId := rfl

theorem setRank_id (i : Nat) (t : Token) : (tokenService.setRank i t).id = t.id := rfl

theorem insertStable_mem {α : Type} (after : α → α → Bool) (x : α) (l : List α) (y : α) :
    y ∈ insertStable after x l ↔ y = x ∨ y ∈ l := by
  induction l with
  | nil => simp [insertStable]
  | cons z zs ih =>
    unfold insertStable
    split
    · simp only [List.mem_cons, ih]; tauto
    · simp only [List.mem_cons]

theorem sortStable_mem {α : Type} (after : α → α → Bool) (l : List α) (y : α) :
    y ∈ sortStable after l ↔ y ∈ l := by
  induction l with
  | nil => simp [sortStable]
  | cons z zs ih => simp only [sortStable, insertStable_mem, ih, List.mem_cons]

theorem assignFrom_mem {k : Nat} {l : List (Bool × Token)} {e : Bool × Token}
    (h : e ∈ tokenService.assignFrom k l) :
    ∃ i e0, e0 ∈ l ∧ e = (e0.1, tokenService.setRank i e0.2) := by
  induction l generalizing k with
  | nil => simp [tokenService.assignFrom] at h
  | cons x xs ih =>
    simp only [tokenService.assignFrom, List.mem_cons] at h
    rcases h with rfl | h
    · exact ⟨k, x, List.mem_cons_self _ _, rfl⟩
    · obtain ⟨i, e0, he0, rfl⟩ := ih h
      exact ⟨i, e0, List.mem_cons_of_mem _ he0, rfl⟩

theorem assignFrom_flag (k : Nat) (l : List (Bool × Token)) :
    (tokenService.assignFrom k l).map (fun e => e.1) = l.map (fun e => e.1) := by
  induction l generalizing k with
  | nil => rfl
  | cons x xs ih => simp [tokenService.assignFrom, ih]

/-- The object `newToken` leaves `_assignTokenNumber` with some rank `i + 1`
and its display number; nothing else of it changes. -/
theorem assignTokenNumber_eq (db : Db) (newToken : Token) (slotId : String) :
    ∃ i, tokenService._assignTokenNumber db newToken slotId = tokenService.setRank i newToken := by
  unfold tokenService._assignTokenNumber
  cases hf : (tokenService.rankedWith db newToken slotId).find? (fun e => e.1) with
  | none =>
    exfalso
    rw [List.find?_eq_none] at hf
    have hmem : (true, newToken) ∈ sortStable (fun a b => byScoreDesc a.2 b.2)
        (((db.getTokensBySlot slotId).filter
          (fun t => t.status ≠ "CANCELLED" ∧ t.status ≠ "NO_SHOW")).map (fun t => (false, t))
          ++ [(true, newToken)]) := by
      rw [sortStable_mem]; simp
    have hflag := assignFrom_flag 0 (sortStable (fun a b => byScoreDesc a.2 b.2)
        (((db.getTokensBySlot slotId).filter
          (fun t => t.status ≠ "CANCELLED" ∧ t.status ≠ "NO_SHOW")).map (fun t => (false, t))
          ++ [(true, newToken)]))
    have h1 : true ∈ (tokenService.rankedWith db newToken slotId).map (fun e => e.1) := by
      unfold tokenService.rankedWith
      rw [hflag]
      exact List.mem_map.mpr ⟨_, hmem, rfl⟩
    obtain ⟨e, he, he1⟩ := List.mem_map.mp h1
    exact hf e he (by simpa using he1)
  | some e =>
    have hmem := List.mem_of_find?_eq_some hf
    have hflag : e.1 = true := by simpa using List.find?_some hf
    unfold tokenService.rankedWith at hmem
    obtain ⟨i, e0, he0, rfl⟩ := assignFrom_mem hmem
    rw [sortStable_mem] at he0
    simp only [List.mem_append, List.mem_map, List.mem_singleton] at he0
    rcases he0 with ⟨t, _, rfl⟩ | rfl
    · simp at hflag
    · exact ⟨i, rfl⟩

theorem assignTokenNumber_slotId (db : Db) (newToken : Token) (slotId : String) :
    (tokenService._assignTokenNumber db newToken slotId).slotId = newToken.slotId := by
  obtain ⟨i, h⟩ := assignTokenNumber_eq db newToken slotId
  rw [h]; rfl

theorem assignTokenNumber_id (db : Db) (newToken : Token) (slotId : String) :
    (tokenService._assignTokenNumber db newToken slotId).id = newToken.id := by
  obtain ⟨i, h⟩ := assignTokenNumber_eq db newToken slotId
  rw [h]; rfl

/-! ## Admission -/

theorem calculateEstimatedTime_found {db : Db} {t : Token} {s : Slot}
    (h : db.getSlot t.slotId = some s) :
    ∃ est, tokenService._calculateEstimatedTime db t = .ok { t with estimatedTime := est } := by
  unfold tokenService._calculateEstimatedTime
  rw [slotService_getSlot_ok h]
  exact ⟨_, rfl⟩

theorem calculateEstimatedTime_missing {db : Db} {t : Token}
    (h : db.getSlot t.slotId = none) :
    tokenService._calculateEstimatedTime db t = .error "Slot not found" := by
  unfold tokenService._calculateEstimatedTime
  rw [slotService_getSlot_error h]

theorem allocateToken_missing (cfg : PriorityConfig) {db : Db} (newId : String) (now : Nat)
    {slotId : String} (patientId patientName type : String) (phoneNumber : Option String)
    (h : db.getSlot slotId = none) :
    tokenService.allocateToken cfg db newId now slotId patientId patientName type phoneNumber
      = (.error "Slot not found", db) := by
  unfold tokenService.allocateToken
  rw [slotService_getSlot_error h]

theorem allocateToken_full (cfg : PriorityConfig) {db : Db} (newId : String) (now : Nat)
    {slotId : String} (patientId patientName type : String) (phoneNumber : Option String)
    {s : Slot} (h : db.getSlot slotId = some s) (hf : s.isFull = true) :
    tokenService.allocateToken cfg db newId now slotId patientId patientName type phoneNumber
      = (.error "Slot is full. Token cannot be allocated.", db) := by
  unfold tokenService.allocateToken
  rw [slotService_getSlot_ok h]
  simp [hf]

theorem allocateToken_admits (cfg : PriorityConfig) {db : Db} (newId : String) (now : Nat)
    {slotId : String} (patientId patientName type : String) (phoneNumber : Option String)
    {s : Slot} (h : db.getSlot slotId = some s) (hf : s.isFull = false) :
    ∃ tok, tokenService.allocateToken cfg db newId now slotId patientId patientName type
        phoneNumber = (.ok tok, (db.saveSlot s.incrementCount).saveToken tok)
      ∧ tok.id = newId ∧ tok.slotId = slotId := by
  unfold tokenService.allocateToken
  rw [slotService_getSlot_ok h]
  simp only [hf, Bool.false_eq_true, ↓reduceIte]
  rw [updateSlotCapacity_found true h]
  simp only [↓reduceIte]
  obtain ⟨i, hi⟩ := assignTokenNumber_eq db
    (Token.new cfg newId now slotId patientId patientName type phoneNumber) slotId
  have hid : s.incrementCount.id = slotId := (getSlot_mem h).2
  have hslot : (db.saveSlot s.incrementCount).getSlot
      (tokenService._assignTokenNumber db
        (Token.new cfg newId now slotId patientId patientName type phoneNumber) slotId).slotId
      = some s.incrementCount := by
    rw [assignTokenNumber_slotId]
    have := getSlot_saveSlot db s.incrementCount
    rw [hid] at this
    exact this
  obtain ⟨est, hest⟩ := calculateEstimatedTime_found hslot
  rw [hest]
  refine ⟨_, rfl, ?_, ?_⟩
  · rw [hi]; rfl
  · rw [hi]; rfl

/-! ## Re-ranking, promotion, release -/

theorem capacityOk_of_slots {db db1 : Db} (hs : db1.slots = db.slots) (h : db.capacityOk) :
    db1.capacityOk := by
  intro s hmem; rw [hs] at hmem; exact h s hmem

theorem reorderLoop_slots (db : Db) (k : Nat) (done ts : List Token) :
    (tokenService.reorderLoop db k done ts).2.slots = db.slots := by
  induction ts generalizing db k done with
  | nil => rfl
  | cons t rest ih =>
    unfold tokenService.reorderLoop
    split
    · rfl
    · rw [ih, saveToken_slots]

theorem reorderSlotTokens_slots (db : Db) (slotId : String) :
    (tokenService._reorderSlotTokens db slotId).2.slots = db.slots :=
  reorderLoop_slots db 0 [] _

theorem setWaitlistHead_slots (db : Db) (slotId : String) (t : Token) :
    (tokenService.setWaitlistHead db slotId t).slots = db.slots := rfl

theorem removeFromWaitlist_slots (db : Db) (slotId tokenId : String) :
    (db.removeFromWaitlist slotId tokenId).slots = db.slots := rfl

theorem promoteFromWaitlist_capacityOk {db : Db} (slotId : String) (h : db.capacityOk) :
    (tokenService._promoteFromWaitlist db slotId).2.capacityOk := by
  unfold tokenService._promoteFromWaitlist
  cases hs : db.getSlot slotId with
  | none => rw [slotService_getSlot_error hs]; exact h
  | some slot =>
    rw [slotService_getSlot_ok hs]
    simp only
    split
    · exact h
    · split
      · exact h
      · next hnf =>
        have hnf : slot.isFull = false := by simpa using hnf
        split
        · exact capacityOk_of_slots (setWaitlistHead_slots _ _ _) h
        · next tok _ =>
          have hslots : ((tokenService.setWaitlistHead db slotId tok).saveToken tok).slots
              = db.slots := by rw [saveToken_slots]; rfl
          have hget : ((tokenService.setWaitlistHead db slotId tok).saveToken tok).getSlot slotId
              = some slot := by
            unfold Db.getSlot; rw [hslots]; exact hs
          have hok := updateSlotCapacity_inc_capacityOk (capacityOk_of_slots hslots h) hget hnf
          split
          · next heq => rw [heq] at hok; exact hok
          · next heq =>
            rw [heq] at hok
            exact capacityOk_of_slots (removeFromWaitlist_slots _ _ _) hok

theorem releaseAndRerank_capacityOk {db : Db} (t : Token) (h : db.capacityOk) :
    (tokenService.releaseAndRerank db t).2.capacityOk := by
  unfold tokenService.releaseAndRerank
  have h1 := updateSlotCapacity_dec_capacityOk t.slotId h
  split
  · next heq => rw [heq] at h1; exact h1
  · next db1 heq =>
    rw [heq] at h1
    have h2 : (tokenService._reorderSlotTokens db1 t.slotId).2.capacityOk :=
      capacityOk_of_slots (reorderSlotTokens_slots db1 t.slotId) h1
    split
    · next heq2 => rw [heq2] at h2; exact h2
    · next db2 heq2 =>
      rw [heq2] at h2
      have h3 := promoteFromWaitlist_capacityOk t.slotId h2
      split
      · next heq3 => rw [heq3] at h3; exact h3
      · next heq3 => rw [heq3] at h3; exact h3

theorem cancelToken_capacityOk {db : Db} (tokenId : String) (h : db.capacityOk) :
    (tokenService.cancelToken db tokenId).2.capacityOk := by
  unfold tokenService.cancelToken
  split
  · exact h
  · split
    · exact h
    · split
      · exact h
      · split
        · exact h
        · exact releaseAndRerank_capacityOk _ (capacityOk_of_slots (saveToken_slots _ _) h)

theorem markNoShow_capacityOk {db : Db} (tokenId : String) (h : db.capacityOk) :
    (tokenService.markNoShow db tokenId).2.capacityOk := by
  unfold tokenService.markNoShow
  split
  · exact h
  · split
    · exact h
    · exact releaseAndRerank_capacityOk _ (capacityOk_of_slots (saveToken_slots _ _) h)

theorem allocateToken_capacityOk (cfg : PriorityConfig) {db : Db} (newId : String) (now : Nat)
    (slotId patientId patientName type : String) (phoneNumber : Option String)
    (h : db.capacityOk) :
    (tokenService.allocateToken cfg db newId now slotId patientId patientName type
      phoneNumber).2.capacityOk := by
  cases hs : db.getSlot slotId with
  | none => rw [allocateToken_missing cfg newId now patientId patientName type phoneNumber hs]; exact h
  | some s =>
    cases hf : s.isFull with
    | true =>
      rw [allocateToken_full cfg newId now patientId patientName type phoneNumber hs hf]; exact h
    | false =>
      obtain ⟨tok, heq, _, _⟩ :=
        allocateToken_admits cfg newId now patientId patientName type phoneNumber hs hf
      rw [heq]
      exact capacityOk_of_slots (saveToken_slots _ _)
        (saveSlot_capacityOk h (incrementCount_within (h s (getSlot_mem hs).1) hf))

theorem insertEmergencyToken_capacityOk (cfg : PriorityConfig) {db : Db} (newId : String)
    (nowId now : Nat) (slotId patientName : String) (phoneNumber : Option String)
    (h : db.capacityOk) :
    (tokenService.insertEmergencyToken cfg db newId nowId now slotId patientName
      phoneNumber).2.capacityOk := by
  unfold tokenService.insertEmergencyToken
  cases hs : db.getSlot slotId with
  | none => rw [slotService_getSlot_error hs]; exact h
  | some slot =>
    rw [slotService_getSlot_ok hs]
    simp only
    have hin := h slot (getSlot_mem hs).1
    have h1 : (if slot.isFull = true then
        db.saveSlot { slot with maxCapacity := slot.maxCapacity + 1 } else db).capacityOk := by
      split
      · apply saveSlot_capacityOk h
        simp only [Slot.withinCapacity] at hin ⊢
        omega
      · exact h
    have h2 := allocateToken_capacityOk cfg newId now slotId ("EMERGENCY-" ++ toString nowId)
      patientName "EMERGENCY" phoneNumber h1
    split
    · next heq => rw [heq] at h2; exact h2
    · next db2 heq =>
      rw [heq] at h2
      have h3 : (tokenService._reorderSlotTokens db2 slotId).2.capacityOk :=
        capacityOk_of_slots (reorderSlotTokens_slots db2 slotId) h2
      split
      · next heq3 => rw [heq3] at h3; exact h3
      · next heq3 => rw [heq3] at h3; exact h3

/-! ## The orderer -/

theorem scoreGt_irrefl (a : Option Int) : scoreGt a a = false := by
  cases a <;> simp [scoreGt]

theorem scoreGt_asymm {a b : Option Int} (h : scoreGt a b = true) : scoreGt b a = false := by
  cases a <;> cases b <;> simp_all [scoreGt]
  omega

theorem scoreGt_trans_not {a b c : Option Int} (ha : a.isSome) (hb : b.isSome) (hc : c.isSome)
    (h1 : scoreGt b a = false) (h2 : scoreGt c b = false) : scoreGt c a = false := by
  cases a <;> cases b <;> cases c <;> simp_all [scoreGt]
  omega

theorem pairwise_cases {α : Type} {S : α → α → Prop} {l : List α} (h : l.Pairwise S) :
    ∀ a ∈ l, ∀ b ∈ l, a = b ∨ S a b ∨ S b a := by
  induction h with
  | nil => intro a ha; simp at ha
  | cons hx _ ih =>
    intro a ha b hb
    rcases List.mem_cons.mp ha with ha1 | ha1 <;> rcases List.mem_cons.mp hb with hb1 | hb1
    · left; rw [ha1, hb1]
    · right; left; rw [ha1]; exact hx b hb1
    · right; right; rw [hb1]; exact hx a ha1
    · exact ih a ha1 b hb1

/-- A stable sort by a comparator that is asymmetric and whose "not after" is
transitive on the elements satisfying `P` leaves no element before one it
must come after. -/
theorem insertStable_pairwise {α : Type} (after : α → α → Bool) (P : α → Prop)
    (hasym : ∀ a b, P a → P b → after a b = true → after b a = false)
    (htrans : ∀ a b c, P a → P b → P c → after a b = false → after b c = false →
      after a c = false)
    (x : α) (ys : List α) (hx : P x) (hP : ∀ y ∈ ys, P y)
    (hys : ys.Pairwise (fun a b => after a b = false)) :
    (insertStable after x ys).Pairwise (fun a b => after a b = false) := by
  induction ys with
  | nil => simp [insertStable]
  | cons y ys ih =>
    have hy : P y := hP y (List.mem_cons_self _ _)
    have hP' : ∀ z ∈ ys, P z := fun z hz => hP z (List.mem_cons_of_mem _ hz)
    rw [List.pairwise_cons] at hys
    unfold insertStable
    cases hxy : after x y with
    | true =>
      simp only [↓reduceIte, List.pairwise_cons]
      refine ⟨?_, ih hP' hys.2⟩
      intro z hz
      rcases (insertStable_mem after x ys z).mp hz with rfl | hz
      · exact hasym _ _ hx hy hxy
      · exact hys.1 z hz
    | false =>
      simp only [Bool.false_eq_true, ↓reduceIte, List.pairwise_cons]
      refine ⟨?_, hys.1, hys.2⟩
      intro z hz
      rcases List.mem_cons.mp hz with rfl | hz
      · exact hxy
      · exact htrans _ _ _ hx hy (hP' z hz) hxy (hys.1 z hz)

theorem sortStable_pairwise {α : Type} (after : α → α → Bool) (P : α → Prop)
    (hasym : ∀ a b, P a → P b → after a b = true → after b a = false)
    (htrans : ∀ a b c, P a → P b → P c → after a b = false → after b c = false →
      after a c = false)
    (l : List α) (hP : ∀ y ∈ l, P y) :
    (sortStable after l).Pairwise (fun a b => after a b = false) := by
  induction l with
  | nil => simp [sortStable]
  | cons x xs ih =>
    unfold sortStable
    apply insertStable_pairwise after P hasym htrans
    · exact hP x (List.mem_cons_self _ _)
    · intro y hy
      exact hP y (List.mem_cons_of_mem _ ((sortStable_mem after xs y).mp hy))
    · exact ih (fun y hy => hP y (List.mem_cons_of_mem _ hy))

/-- Tokens that all carry a numeric score come out of the sort by descending
score. -/
theorem sortStable_byScore_sorted {α : Type} (tok : α → Token) (l : List α)
    (h : ∀ e ∈ l, (tok e).priorityScore.isSome) :
    (sortStable (fun a b => byScoreDesc (tok a) (tok b)) l).Pairwise
      (fun a b => scoreGt (tok b).priorityScore (tok a).priorityScore = false) := by
  have := sortStable_pairwise (fun a b => byScoreDesc (tok a) (tok b))
    (fun e => (tok e).priorityScore.isSome)
    (fun a b _ _ hab => scoreGt_asymm hab)
    (fun a b c ha hb hc h1 h2 => scoreGt_trans_not ha hb hc h1 h2) l h
  exact this

theorem assignFrom_ranked (k : Nat) (l : List (Bool × Token))
    (h : l.Pairwise (fun a b => scoreGt b.2.priorityScore a.2.priorityScore = false)) :
    (tokenService.assignFrom k l).Pairwise
        (fun a b => scoreGt b.2.priorityScore a.2.priorityScore = false ∧ rankedBefore a.2 b.2)
      ∧ ∀ a ∈ tokenService.assignFrom k l, ∃ p, a.2.position = some p ∧ k < p := by
  induction l generalizing k with
  | nil => simp [tokenService.assignFrom]
  | cons x xs ih =>
    rw [List.pairwise_cons] at h
    obtain ⟨ihp, ihpos⟩ := ih (k + 1) h.2
    simp only [tokenService.assignFrom, List.pairwise_cons, List.mem_cons]
    refine ⟨⟨?_, ihp⟩, ?_⟩
    · intro b hb
      obtain ⟨i, e0, he0, rfl⟩ := assignFrom_mem hb
      obtain ⟨p, hp, hkp⟩ := ihpos _ hb
      refine ⟨h.1 e0 he0, k + 1, p, rfl, hp, hkp⟩
    · intro a ha
      rcases ha with rfl | ha
      · exact ⟨k + 1, rfl, Nat.lt_succ_self k⟩
      · obtain ⟨p, hp, hkp⟩ := ihpos a ha
        exact ⟨p, hp, by omega⟩

theorem ranked_of_pairwise {α : Type} (tok : α → Token) {l : List α}
    (h : l.Pairwise (fun a b => scoreGt (tok b).priorityScore (tok a).priorityScore = false
      ∧ rankedBefore (tok a) (tok b))) :
    ∀ a ∈ l, ∀ b ∈ l, scoreGt (tok a).priorityScore (tok b).priorityScore = true →
      rankedBefore (tok a) (tok b) := by
  intro a ha b hb hgt
  rcases pairwise_cases h a ha b hb with rfl | hab | hba
  · rw [scoreGt_irrefl] at hgt; exact absurd hgt (by simp)
  · exact hab.2
  · rw [hba.1] at hgt; exact absurd hgt (by simp)

theorem calculateEstimatedTime_ok {db : Db} {t r : Token}
    (h : tokenService._calculateEstimatedTime db t = .ok r) :
    ∃ est, r = { t with estimatedTime := est } := by
  unfold tokenService._calculateEstimatedTime at h
  split at h
  · exact absurd h (by simp)
  · simp only [Except.ok.injEq] at h
    exact ⟨_, h.symm⟩

theorem reorderLoop_ranked (ts : List Token) (db : Db) (k : Nat) (done ranked : List Token)
    (db1 : Db)
    (hts : ts.Pairwise (fun a b => scoreGt b.priorityScore a.priorityScore = false))
    (h : tokenService.reorderLoop db k done ts = (.ok ranked, db1)) :
    ∃ new, ranked = done ++ new
      ∧ new.Pairwise (fun a b => scoreGt b.priorityScore a.priorityScore = false
          ∧ rankedBefore a b)
      ∧ ∀ a ∈ new, ∃ p, a.position = some p ∧ k < p
          ∧ ∃ t ∈ ts, a.priorityScore = t.priorityScore := by
  induction ts generalizing db k done with
  | nil =>
    simp only [tokenService.reorderLoop, Prod.mk.injEq, Except.ok.injEq] at h
    exact ⟨[], by simp [h.1], List.Pairwise.nil, by simp⟩
  | cons t rest ih =>
    rw [List.pairwise_cons] at hts
    unfold tokenService.reorderLoop at h
    split at h
    · simp at h
    · next tok hcalc =>
      obtain ⟨est, rfl⟩ := calculateEstimatedTime_ok hcalc
      obtain ⟨new, hnew, hpw, hpos⟩ := ih _ _ _ hts.2 h
      refine ⟨{ tokenService.setRank k t with estimatedTime := est } :: new,
        by rw [hnew]; simp, ?_, ?_⟩
      · rw [List.pairwise_cons]
        refine ⟨?_, hpw⟩
        intro b hb
        obtain ⟨p, hp, hkp, t1, ht1, hsc⟩ := hpos b hb
        refine ⟨?_, k + 1, p, rfl, hp, hkp⟩
        rw [hsc]
        exact hts.1 t1 ht1
      · intro a ha
        rcases List.mem_cons.mp ha with rfl | ha
        · exact ⟨k + 1, rfl, Nat.lt_succ_self k, t, List.mem_cons_self _ _, rfl⟩
        · obtain ⟨p, hp, hkp, t1, ht1, hsc⟩ := hpos a ha
          exact ⟨p, hp, by omega, t1, List.mem_cons_of_mem _ ht1, hsc⟩

theorem reorderLoop_succeeds (ts : List Token) (db : Db) (k : Nat) (done : List Token)
    (slotId : String) (s : Slot) (hs : db.getSlot slotId = some s)
    (hts : ∀ t ∈ ts, t.slotId = slotId) :
    ∃ ranked, (tokenService.reorderLoop db k done ts).1 = .ok ranked := by
  induction ts generalizing db k done with
  | nil => exact ⟨done, rfl⟩
  | cons t rest ih =>
    unfold tokenService.reorderLoop
    have hget : db.getSlot (tokenService.setRank k t).slotId = some s := by
      rw [setRank_slotId, hts t (List.mem_cons_self _ _)]; exact hs
    obtain ⟨est, hest⟩ := calculateEstimatedTime_found hget
    rw [hest]
    simp only
    apply ih
    · rw [getSlot_saveToken]; exact hs
    · exact fun t1 ht1 => hts t1 (List.mem_cons_of_mem _ ht1)

theorem getTokensBySlot_fields {db : Db} {slotId : String} {t : Token}
    (h : t ∈ db.getTokensBySlot slotId) :
    t.slotId = slotId ∧ t.priorityScore = none ∧ t.position = none ∧ t.hasMethods = false := by
  unfold Db.getTokensBySlot at h
  obtain ⟨d, hd, rfl⟩ := List.mem_map.mp h
  have := (List.mem_filter.mp hd).2
  exact ⟨by simpa [_convertDocToToken] using this, rfl, rfl, rfl⟩

theorem reorderList_fields {db : Db} {slotId : String} {t : Token}
    (h : t ∈ tokenService.reorderList db slotId) :
    t.slotId = slotId ∧ t.priorityScore = none := by
  unfold tokenService.reorderList at h
  rw [sortStable_mem] at h
  have := getTokensBySlot_fields (List.mem_filter.mp h).1
  exact ⟨this.1, this.2.1⟩

theorem reorderSlotTokens_succeeds {db : Db} {slotId : String} {s : Slot}
    (hs : db.getSlot slotId = some s) :
    ∃ ranked, (tokenService._reorderSlotTokens db slotId).1 = .ok ranked :=
  reorderLoop_succeeds _ db 0 [] slotId s hs (fun _ ht => (reorderList_fields ht).1)

/-! ## Reallocation -/

theorem reallocateLoop_plain (db : Db) (slotId nextSlotId : String) (acc ts : List Token)
    (h : ∀ t ∈ ts, t.hasMethods = false) :
    (tokenService.reallocateLoop db slotId nextSlotId acc ts).2 = db
      ∧ ∀ moved, (tokenService.reallocateLoop db slotId nextSlotId acc ts).1 = .ok moved →
          moved = acc ∧ ts = [] := by
  cases ts with
  | nil =>
    refine ⟨rfl, ?_⟩
    intro moved hm
    simp only [tokenService.reallocateLoop, Except.ok.injEq] at hm
    exact ⟨hm.symm, rfl⟩
  | cons t rest =>
    have ht : t.hasMethods = false := h t (List.mem_cons_self _ _)
    unfold tokenService.reallocateLoop
    simp [Token.relocate, ht]

theorem sliceFrom_mem {tokens : List Token} {start : Int} {t : Token}
    (h : t ∈ tokenService.sliceFrom tokens start) : t ∈ tokens := by
  unfold tokenService.sliceFrom at h
  split at h <;> exact List.mem_of_mem_drop h

/-- A call of `reallocateTokens` leaves the store as it found it, and when it
returns its list `reallocated` is empty: the tokens it reads from the store
have no method `relocate`. -/
theorem reallocateTokens_store (db : Db) (slotId : String) :
    (tokenService.reallocateTokens db slotId).2 = db
      ∧ ∀ moved, (tokenService.reallocateTokens db slotId).1 = .ok moved → moved = [] := by
  unfold tokenService.reallocateTokens
  simp only
  split
  · exact ⟨rfl, fun moved hm => by simpa using hm.symm⟩
  · split
    · exact ⟨rfl, fun moved hm => by simp at hm⟩
    · split
      · exact ⟨rfl, fun moved hm => by simp at hm⟩
      · next nextSlot _ =>
        have hplain : ∀ t ∈ tokenService.sliceFrom
            ((db.getTokensBySlot slotId).filter (fun t => t.status = "SCHEDULED"))
            nextSlot.availableCapacity, t.hasMethods = false := by
          intro t ht
          exact (getTokensBySlot_fields (List.mem_filter.mp (sliceFrom_mem ht)).1).2.2.2
        obtain ⟨h1, h2⟩ := reallocateLoop_plain db slotId nextSlot.id [] _ hplain
        exact ⟨h1, fun moved hm => (h2 moved hm).1⟩


open tokenService

/-! ## Capacity -/

/-- C1: from a store in which every slot has `0 ≤ currentCount ≤ maxCapacity`,
each of `allocateToken`, `insertEmergencyToken`, `cancelToken`, `markNoShow` and
`_promoteFromWaitlist`, whether it returns or throws, leaves a store in which
every slot has `0 ≤ currentCount ≤ maxCapacity` (with the capacity as the call
left it). -/
theorem capacity_invariant_preserved (cfg : PriorityConfig) (db : Db) (h : db.capacityOk)
    (newId : String) (nowId now : Nat) (slotId patientId patientName type tokenId : String)
    (phoneNumber : Option String) :
    (allocateToken cfg db newId now slotId patientId patientName type phoneNumber).2.capacityOk
      ∧ (insertEmergencyToken cfg db newId nowId now slotId patientName phoneNumber).2.capacityOk
      ∧ (cancelToken db tokenId).2.capacityOk
      ∧ (markNoShow db tokenId).2.capacityOk
      ∧ (_promoteFromWaitlist db slotId).2.capacityOk :=
  ⟨allocateToken_capacityOk cfg newId now slotId patientId patientName type phoneNumber h,
   insertEmergencyToken_capacityOk cfg newId nowId now slotId patientName phoneNumber h,
   cancelToken_capacityOk tokenId h, markNoShow_capacityOk tokenId h,
   promoteFromWaitlist_capacityOk slotId h⟩

/-- Witness for C1: the full slot of `sampleFull` under an emergency insertion. -/
theorem capacity_invariant_preserved_witness :
    sampleFull.capacityOk
      ∧ (insertEmergencyToken defaultPriority sampleFull "d" 4000 4000 "s1" "D"
          none).2.capacityOk :=
  ⟨by decide,
   (capacity_invariant_preserved defaultPriority sampleFull (by decide) "d" 4000 4000 "s1"
      "pD" "D" "WALKIN" "a" none).2.1⟩

/-- C2 (failing input): on the case of the specification (A, B, C SCHEDULED in
slot `s1`, one free unit in the later slot `s2` of capacity two)
`reallocateTokens` throws at `token.relocate` and leaves both slots as they
were: there is no successful call that moves a token.  Its loop has no test of
the destination's capacity either: run on B and C as objects of the class
`Token`, which have the method, it moves both and leaves `s2` counting three
tokens against a capacity of two. -/
theorem reallocation_throws_or_overfills :
    reallocateTokens sampleSpecCase "s1"
        = (.error "TypeError: token.relocate is not a function", sampleSpecCase)
      ∧ sampleSpecCase.slots.map (fun s => (s.id, s.currentCount, s.maxCapacity))
        = [("s1", 3, 3), ("s2", 1, 2)]
      ∧ (sliceFrom ((sampleSpecCase.getTokensBySlot "s1").filter
            (fun t => t.status = "SCHEDULED")) 1).map (fun t => (t.id, t.hasMethods))
        = [("b", false), ("c", false)]
      ∧ sampleMovers.map (fun t => (t.id, t.hasMethods)) = [("b", true), ("c", true)]
      ∧ (reallocateLoop sampleSpecCase "s1" "s2" [] sampleMovers).1.map
          (fun moved => moved.map (fun t => (t.patientName, t.slotId)))
        = .ok [("B", "s2"), ("C", "s2")]
      ∧ (reallocateLoop sampleSpecCase "s1" "s2" [] sampleMovers).2.slots.map
          (fun s => (s.id, s.currentCount, s.maxCapacity))
        = [("s1", 1, 3), ("s2", 3, 2)] := by
  refine ⟨?_, ?_, ?_, ?_, ?_, ?_⟩ <;> decide

/-- On the case of the specification (three SCHEDULED tokens in the source,
one free unit in the destination) `reallocateTokens` throws at the first
`token.relocate` and the store is as before. -/
theorem reallocate_spec_case_throws :
    reallocateTokens sampleSpecCase "s1"
      = (.error "TypeError: token.relocate is not a function", sampleSpecCase) := by
  decide


/-! ## Positions -/

/-- C3 (failing input): a first walk-in is admitted to an empty slot of capacity
two, and is returned with position 1 and number `T001`; the token that
`db.getTokensBySlot` returns afterwards has no position, and its stored
`queuePosition` is absent. -/
theorem allocate_stored_position_missing :
    (∃ tok, (allocateToken defaultPriority sampleEmpty "a" 1000 "s1" "pA" "A" "WALKIN" none).1
        = .ok tok ∧ tok.position = some 1 ∧ tok.tokenNumber = some "T001")
      ∧ (sampleOne.getTokensBySlot "s1").map (fun t => t.position) = [none]
      ∧ (sampleOne.getTokensBySlot "s1").map (fun t => t.queuePosition) = [none] := by
  refine ⟨⟨_, rfl, ?_, ?_⟩, ?_, ?_⟩ <;> decide

/-- C4 (failing input): walk-in A is booked into the empty sample slot at clock
reading 1000 and follow-up B at 2000.  The constructor gives A the score
`100 + 1000 / 10^9` and B the greater score `300 + 2000 / 10^9`, yet
`_assignTokenNumber` ranks A first and B second, and `_reorderSlotTokens` ranks
them so again: the objects read back from the store carry no score, no
comparison of the sort is positive, and the ranking is the order of the store. -/
theorem higher_score_ranked_behind :
    (∃ tokA tokB,
        allocateToken defaultPriority sampleEmpty "a" 1000 "s1" "pA" "A" "WALKIN" none
          = (.ok tokA, sampleOne)
        ∧ (allocateToken defaultPriority sampleOne "b" 2000 "s1" "pB" "B" "FOLLOWUP" none).1
          = .ok tokB
        ∧ tokA.priorityScore = some 100000001000 ∧ tokB.priorityScore = some 300000002000
        ∧ scoreGt tokB.priorityScore tokA.priorityScore = true
        ∧ tokA.position = some 1 ∧ tokB.position = some 2)
      ∧ (rankedWith sampleOne
            (Token.new defaultPriority "b" 2000 "s1" "pB" "B" "FOLLOWUP" none) "s1").map
          (fun e => (e.2.patientName, e.2.priorityScore, e.2.position))
        = [("A", none, some 1), ("B", some 300000002000, some 2)]
      ∧ ((_reorderSlotTokens (allocateToken defaultPriority sampleOne "b" 2000 "s1" "pB" "B"
            "FOLLOWUP" none).2 "s1").1.map
          (fun ranked => ranked.map (fun t => (t.patientName, t.priorityScore, t.position))))
        = .ok [("A", none, some 1), ("B", none, some 2)] := by
  refine ⟨⟨_, _, rfl, rfl, ?_, ?_, ?_, ?_, ?_⟩, ?_, ?_⟩ <;> decide

/-- C5 (failing input): in a slot with the three active tokens A, B, C,
`cancelToken` of A throws at `token.markCancelled` and leaves the store as it
was, A still SCHEDULED under number `T001`; and after `_reorderSlotTokens` on
that slot the tokens `db.getTokensBySlot` returns have no position (their
stored display numbers are `T001`, `T002`, `T003`). -/
theorem cancel_first_of_three :
    cancelToken sampleThree "a"
        = (.error "TypeError: token.markCancelled is not a function", sampleThree)
      ∧ (sampleThree.getTokensBySlot "s1").map (fun t => (t.id, t.status, t.tokenNumber))
        = [("a", "SCHEDULED", some "T001"), ("b", "SCHEDULED", some "T002"),
           ("c", "SCHEDULED", some "T003")]
      ∧ ((_reorderSlotTokens sampleThree "s1").2.getTokensBySlot "s1").map
          (fun t => (t.position, t.tokenNumber))
        = [(none, some "T001"), (none, some "T002"), (none, some "T003")] := by
  refine ⟨?_, ?_, ?_⟩ <;> decide


/-! ## Admission and rejection -/

/-- C6 (counterexample): `allocateToken` called with type EMERGENCY on the full
slot of `sampleFull` (two tokens, capacity two) throws the slot-full error. -/
theorem allocate_emergency_on_full_rejects :
    (∃ slot, sampleFull.getSlot "s1" = some slot ∧ slot.currentCount ≥ slot.maxCapacity)
      ∧ (allocateToken defaultPriority sampleFull "d" 4000 "s1" "pD" "D" "EMERGENCY" none).1
        = .error "Slot is full. Token cannot be allocated." := by
  refine ⟨⟨_, rfl, ?_⟩, ?_⟩ <;> decide

/-- C6 (amended): `allocateToken` on an existing slot throws the slot-full error
if and only if the slot has `currentCount ≥ maxCapacity`, whatever the requested
type. -/
theorem allocate_slot_full_iff (cfg : PriorityConfig) (db : Db) (newId : String) (now : Nat)
    (slotId patientId patientName type : String) (phoneNumber : Option String) (slot : Slot)
    (hs : db.getSlot slotId = some slot) :
    (allocateToken cfg db newId now slotId patientId patientName type phoneNumber).1
        = .error "Slot is full. Token cannot be allocated."
      ↔ slot.currentCount ≥ slot.maxCapacity := by
  cases hf : slot.isFull with
  | true =>
    rw [allocateToken_full cfg newId now patientId patientName type phoneNumber hs hf]
    simpa [Slot.isFull] using hf
  | false =>
    obtain ⟨tok, heq, _, _⟩ :=
      allocateToken_admits cfg newId now patientId patientName type phoneNumber hs hf
    rw [heq]
    have : ¬ slot.currentCount ≥ slot.maxCapacity := by simpa [Slot.isFull] using hf
    simp [this]

/-- Witness for C6: a walk-in for the full slot of `sampleFull`. -/
theorem allocate_slot_full_iff_witness :
    sampleFull.getSlot "s1" = some { sampleSlot with currentCount := 2 }
      ∧ ((allocateToken defaultPriority sampleFull "c" 3000 "s1" "pC" "C" "WALKIN" none).1
          = .error "Slot is full. Token cannot be allocated."
        ↔ ({ sampleSlot with currentCount := 2 } : Slot).currentCount
            ≥ ({ sampleSlot with currentCount := 2 } : Slot).maxCapacity) :=
  ⟨by decide,
   allocate_slot_full_iff defaultPriority sampleFull "c" 3000 "s1" "pC" "C" "WALKIN" none
     { sampleSlot with currentCount := 2 } (by decide)⟩

/-- C7: whenever `allocateToken` throws, it leaves the store exactly as it was:
the slots with their counts and capacities, the stored tokens with every field,
and the waitlists. -/
theorem allocate_throw_leaves_store (cfg : PriorityConfig) (db : Db) (newId : String)
    (now : Nat) (slotId patientId patientName type : String) (phoneNumber : Option String)
    (e : String)
    (h : (allocateToken cfg db newId now slotId patientId patientName type phoneNumber).1
      = .error e) :
    (allocateToken cfg db newId now slotId patientId patientName type phoneNumber).2 = db
      ∧ (e = "Slot not found" ∨ e = "Slot is full. Token cannot be allocated.") := by
  cases hs : db.getSlot slotId with
  | none =>
    rw [allocateToken_missing cfg newId now patientId patientName type phoneNumber hs] at h ⊢
    simp only [Except.error.injEq] at h
    exact ⟨rfl, Or.inl h.symm⟩
  | some s =>
    cases hf : s.isFull with
    | true =>
      rw [allocateToken_full cfg newId now patientId patientName type phoneNumber hs hf] at h ⊢
      simp only [Except.error.injEq] at h
      exact ⟨rfl, Or.inr h.symm⟩
    | false =>
      obtain ⟨tok, heq, _, _⟩ :=
        allocateToken_admits cfg newId now patientId patientName type phoneNumber hs hf
      rw [heq] at h
      simp at h

/-- Witness for C7: a walk-in rejected by the full slot of `sampleFull`. -/
theorem allocate_throw_leaves_store_witness :
    (allocateToken defaultPriority sampleFull "c" 3000 "s1" "pC" "C" "WALKIN" none).1
        = .error "Slot is full. Token cannot be allocated."
      ∧ (allocateToken defaultPriority sampleFull "c" 3000 "s1" "pC" "C" "WALKIN" none).2
        = sampleFull :=
  ⟨by decide,
   (allocate_throw_leaves_store defaultPriority sampleFull "c" 3000 "s1" "pC" "C" "WALKIN" none
      "Slot is full. Token cannot be allocated." (by decide)).1⟩

/-! ## Emergency insertion -/

/-- C8 (failing input): emergency D inserted into the full slot holding the
walk-ins A and B.  The call succeeds and the capacity becomes three, but D is
returned with position 3 and number `T003`, and the stored numbers are `T001`
for A, `T002` for B and `T003` for D. -/
theorem emergency_ranked_last :
    (∃ tok, (insertEmergencyToken defaultPriority sampleFull "d" 4000 4000 "s1" "D" none).1
        = .ok tok ∧ tok.type = "EMERGENCY" ∧ tok.position = some 3
          ∧ tok.tokenNumber = some "T003")
      ∧ ((insertEmergencyToken defaultPriority sampleFull "d" 4000 4000 "s1" "D"
            none).2.getTokensBySlot "s1").map (fun t => (t.patientName, t.tokenNumber))
        = [("A", some "T001"), ("B", some "T002"), ("D", some "T003")]
      ∧ ((insertEmergencyToken defaultPriority sampleFull "d" 4000 4000 "s1" "D"
            none).2.slots.map (fun s => (s.maxCapacity, s.currentCount))) = [(3, 3)] := by
  refine ⟨⟨_, rfl, ?_, ?_, ?_⟩, ?_, ?_⟩ <;> decide

/-- C9 (counterexample): on a slot that counts three tokens against a capacity
of two, `insertEmergencyToken` raises the capacity to three and then throws the
slot-full error; `currentCount` is still three. -/
theorem emergency_on_overfull_slot :
    (insertEmergencyToken defaultPriority sampleOverfull "d" 4000 4000 "s1" "D" none).1
        = .error "Slot is full. Token cannot be allocated."
      ∧ (insertEmergencyToken defaultPriority sampleOverfull "d" 4000 4000 "s1" "D"
          none).2.slots.map (fun s => (s.maxCapacity, s.currentCount)) = [(3, 3)] := by
  refine ⟨?_, ?_⟩ <;> decide

/-- C9 (amended): on a slot with `currentCount ≤ maxCapacity`,
`insertEmergencyToken` succeeds, raises `maxCapacity` by exactly 1 when the slot
is full at the call and leaves it unchanged when it is not, and in both cases
raises `currentCount` by exactly 1. -/
theorem emergency_capacity_bump (cfg : PriorityConfig) (db : Db) (newId : String)
    (nowId now : Nat) (slotId patientName : String) (phoneNumber : Option String) (slot : Slot)
    (hs : db.getSlot slotId = some slot) (hcap : slot.currentCount ≤ slot.maxCapacity) :
    ∃ tok slot1,
      (insertEmergencyToken cfg db newId nowId now slotId patientName phoneNumber).1 = .ok tok
      ∧ (insertEmergencyToken cfg db newId nowId now slotId patientName phoneNumber).2.getSlot
          slotId = some slot1
      ∧ slot1.maxCapacity = (if slot.currentCount ≥ slot.maxCapacity then slot.maxCapacity + 1
          else slot.maxCapacity)
      ∧ slot1.currentCount = slot.currentCount + 1 := by
  have hid : slot.id = slotId := (getSlot_mem hs).2
  -- the slot as `allocateToken` reads it
  obtain ⟨s1, db1, hdb1, hs1, hnf, hmax, hcount⟩ :
      ∃ s1 db1, db1 = (if slot.isFull = true then
            db.saveSlot { slot with maxCapacity := slot.maxCapacity + 1 } else db)
        ∧ db1.getSlot slotId = some s1 ∧ s1.isFull = false
        ∧ s1.maxCapacity = (if slot.currentCount ≥ slot.maxCapacity then slot.maxCapacity + 1
            else slot.maxCapacity)
        ∧ s1.currentCount = slot.currentCount := by
    cases hf : slot.isFull with
    | true =>
      have hge : slot.currentCount ≥ slot.maxCapacity := by simpa [Slot.isFull] using hf
      refine ⟨{ slot with maxCapacity := slot.maxCapacity + 1 }, _, rfl, ?_, ?_, ?_, rfl⟩
      · have := getSlot_saveSlot db { slot with maxCapacity := slot.maxCapacity + 1 }
        simp only [↓reduceIte]
        rw [← hid]; exact this
      · simp only [Slot.isFull, decide_eq_false_iff_not, not_le]; omega
      · simp [hge]
    | false =>
      have hlt : ¬ slot.currentCount ≥ slot.maxCapacity := by simpa [Slot.isFull] using hf
      refine ⟨slot, _, rfl, ?_, hf, ?_, rfl⟩
      · simpa using hs
      · simp [hlt]
  unfold insertEmergencyToken
  rw [slotService_getSlot_ok hs]
  simp only
  rw [← hdb1]
  obtain ⟨tok, heq, _, _⟩ := allocateToken_admits cfg newId now
    ("EMERGENCY-" ++ toString nowId) patientName "EMERGENCY" phoneNumber hs1 hnf
  rw [heq]
  simp only
  have hget2 : ((db1.saveSlot s1.incrementCount).saveToken tok).getSlot slotId
      = some s1.incrementCount := by
    rw [getSlot_saveToken]
    have := getSlot_saveSlot db1 s1.incrementCount
    have hid1 : s1.incrementCount.id = slotId := (getSlot_mem hs1).2
    rw [hid1] at this
    exact this
  obtain ⟨ranked, hranked⟩ := reorderSlotTokens_succeeds hget2
  have hslots := reorderSlotTokens_slots ((db1.saveSlot s1.incrementCount).saveToken tok) slotId
  cases hre : _reorderSlotTokens ((db1.saveSlot s1.incrementCount).saveToken tok) slotId with
  | mk r db3 =>
    rw [hre] at hranked hslots
    simp only at hranked hslots
    subst hranked
    refine ⟨tok, s1.incrementCount, rfl, ?_, ?_, ?_⟩
    · simp only [Db.getSlot] at hget2 ⊢
      rw [hslots]; exact hget2
    · exact hmax
    · simp [Slot.incrementCount, hcount]

/-- Witness for C9: an emergency inserted into the full slot of `sampleFull`. -/
theorem emergency_capacity_bump_witness :
    ∃ tok slot1,
      (insertEmergencyToken defaultPriority sampleFull "d" 4000 4000 "s1" "D" none).1 = .ok tok
      ∧ (insertEmergencyToken defaultPriority sampleFull "d" 4000 4000 "s1" "D" none).2.getSlot
          "s1" = some slot1
      ∧ slot1.maxCapacity = 3 ∧ slot1.currentCount = 3 :=
  emergency_capacity_bump defaultPriority sampleFull "d" 4000 4000 "s1" "D" none
    { sampleSlot with currentCount := 2 } (by decide) (by decide)

/-! ## Scores -/

/-- C10 (failing input): with the default configuration a token of type
PRIORITY booked at any instant scores exactly what a WALKIN token booked at that
instant scores, below a FOLLOWUP and an ONLINE token of that instant:
`config.priority` has the key `PAID`, not `PRIORITY`. -/
theorem priority_type_scores_as_walkin (now : Nat) :
    calculatePriorityScore defaultPriority "PRIORITY" now
        = calculatePriorityScore defaultPriority "WALKIN" now
      ∧ scoreGt (calculatePriorityScore defaultPriority "FOLLOWUP" now)
          (calculatePriorityScore defaultPriority "PRIORITY" now) = true
      ∧ scoreGt (calculatePriorityScore defaultPriority "ONLINE" now)
          (calculatePriorityScore defaultPriority "PRIORITY" now) = true
      ∧ scoreGt (calculatePriorityScore defaultPriority "PRIORITY" now)
          (calculatePriorityScore defaultPriority "FOLLOWUP" now) = false := by
  simp [calculatePriorityScore, PriorityConfig.lookup, defaultPriority, objectPrototypeKeys,
    scoreGt]

/-! ## Store order -/

theorem sortStable_of_no_after {α : Type} (after : α → α → Bool) (l : List α)
    (h : ∀ a ∈ l, ∀ b ∈ l, after a b = false) : sortStable after l = l := by
  induction l with
  | nil => rfl
  | cons x xs ih =>
    have ih' := ih (fun a ha b hb => h a (List.mem_cons_of_mem _ ha) b (List.mem_cons_of_mem _ hb))
    rw [sortStable, ih']
    cases xs with
    | nil => rfl
    | cons y ys =>
      have hxy := h x (List.mem_cons_self _ _) y (List.mem_cons_of_mem _ (List.mem_cons_self _ _))
      simp [insertStable, hxy]

theorem assignFrom_append (k : Nat) (l : List (Bool × Token)) (e : Bool × Token) :
    tokenService.assignFrom k (l ++ [e])
      = tokenService.assignFrom k l ++ [(e.1, tokenService.setRank (k + l.length) e.2)] := by
  induction l generalizing k with
  | nil => simp [tokenService.assignFrom]
  | cons x xs ih =>
    have h := ih (k + 1)
    have e1 : k + 1 + xs.length = k + (xs.length + 1) := by omega
    rw [e1] at h
    show (x.1, tokenService.setRank k x.2) :: tokenService.assignFrom (k + 1) (xs ++ [e])
      = (x.1, tokenService.setRank k x.2) :: (tokenService.assignFrom (k + 1) xs
          ++ [(e.1, tokenService.setRank (k + (xs.length + 1)) e.2)])
    rw [h]

theorem existingTokens_fields {db : Db} {slotId : String} {t : Token}
    (h : t ∈ tokenService.existingTokens db slotId) :
    t.slotId = slotId ∧ t.priorityScore = none ∧ t.position = none ∧ t.hasMethods = false :=
  getTokensBySlot_fields (List.mem_filter.mp h).1

/-- The list `_assignTokenNumber` ranks is the stored list in store order with
the new token behind it: no comparison of the sort is positive. -/
theorem rankedWith_store_order (db : Db) (newToken : Token) (slotId : String) :
    tokenService.rankedWith db newToken slotId
      = tokenService.assignFrom 0 ((tokenService.existingTokens db slotId).map
          (fun t => (false, t)) ++ [(true, newToken)]) := by
  have hsort : sortStable (fun a b : Bool × Token => byScoreDesc a.2 b.2)
      ((tokenService.existingTokens db slotId).map (fun t => (false, t)) ++ [(true, newToken)])
      = (tokenService.existingTokens db slotId).map (fun t => (false, t)) ++ [(true, newToken)] := by
    apply sortStable_of_no_after
    intro a ha b hb
    simp only [List.mem_append, List.mem_map, List.mem_singleton] at ha hb
    simp only [byScoreDesc]
    rcases ha with ⟨ta, hta, rfl⟩ | rfl
    · rw [(existingTokens_fields hta).2.1]
      cases b.2.priorityScore <;> rfl
    · rcases hb with ⟨tb, htb, rfl⟩ | rfl
      · rw [(existingTokens_fields htb).2.1]; rfl
      · exact scoreGt_irrefl _
  have : tokenService.rankedWith db newToken slotId
      = tokenService.assignFrom 0 (sortStable (fun a b : Bool × Token => byScoreDesc a.2 b.2)
          ((tokenService.existingTokens db slotId).map (fun t => (false, t))
            ++ [(true, newToken)])) := rfl
  rw [this, hsort]

theorem rankedWith_eq (db : Db) (newToken : Token) (slotId : String) :
    tokenService.rankedWith db newToken slotId
      = tokenService.assignFrom 0 ((tokenService.existingTokens db slotId).map (fun t => (false, t)))
        ++ [(true, tokenService.setRank (tokenService.existingTokens db slotId).length newToken)] := by
  rw [rankedWith_store_order, assignFrom_append]
  simp

theorem find_flag_append (l : List (Bool × Token)) (e : Bool × Token)
    (hl : ∀ x ∈ l, x.1 = false) (he : e.1 = true) :
    (l ++ [e]).find? (fun x => x.1) = some e := by
  induction l with
  | nil => simp [he]
  | cons x xs ih =>
    have hx : x.1 = false := hl x (List.mem_cons_self _ _)
    simp only [List.cons_append, List.find?_cons, hx]
    exact ih (fun y hy => hl y (List.mem_cons_of_mem _ hy))

/-- The new token leaves `_assignTokenNumber` ranked behind every stored token
of the slot that is neither CANCELLED nor NO_SHOW. -/
theorem assignTokenNumber_last (db : Db) (newToken : Token) (slotId : String) :
    tokenService._assignTokenNumber db newToken slotId
      = tokenService.setRank (tokenService.existingTokens db slotId).length newToken := by
  unfold tokenService._assignTokenNumber
  rw [rankedWith_eq, find_flag_append _ _ _ rfl]
  intro x hx
  have := assignFrom_flag 0 ((tokenService.existingTokens db slotId).map (fun t => (false, t)))
  have hx1 : x.1 ∈ (tokenService.assignFrom 0
      ((tokenService.existingTokens db slotId).map (fun t => (false, t)))).map (fun e => e.1) :=
    List.mem_map.mpr ⟨x, hx, rfl⟩
  rw [this] at hx1
  simp only [List.map_map, List.mem_map, Function.comp] at hx1
  obtain ⟨_, _, h⟩ := hx1
  exact h.symm
theorem saveSlot_tokens (db : Db) (s : Slot) : (db.saveSlot s).tokens = db.tokens := by
  unfold Db.saveSlot; split <;> rfl

theorem saveToken_fresh {db : Db} {t : Token} (h : ∀ d ∈ db.tokens, d._id ≠ t.id) :
    (db.saveToken t).tokens = db.tokens ++ [tokenData t] := by
  unfold Db.saveToken
  have : db.tokens.any (fun d => decide (d._id = t.id)) = false := by
    rw [List.any_eq_false]
    intro d hd
    simpa using h d hd
  simp [this]

theorem saveToken_keeps_other {db : Db} {t : Token} {d : TokenDoc} (hd : d ∈ db.tokens)
    (hne : d._id ≠ t.id) : d ∈ (db.saveToken t).tokens := by
  unfold Db.saveToken
  split
  · simp only [List.mem_map]
    exact ⟨d, hd, by simp [hne]⟩
  · simp only [List.mem_append]
    exact Or.inl hd

theorem existingTokens_of_tokens {db db1 : Db} (h : db1.tokens = db.tokens) (slotId : String) :
    tokenService.existingTokens db1 slotId = tokenService.existingTokens db slotId := by
  simp [tokenService.existingTokens, Db.getTokensBySlot, h]

theorem existingTokens_append {db db1 : Db} {d : TokenDoc} (slotId : String)
    (h : db1.tokens = db.tokens ++ [d]) (hslot : d.slotId = slotId)
    (hstatus : d.status = "SCHEDULED") :
    tokenService.existingTokens db1 slotId
      = tokenService.existingTokens db slotId ++ [_convertDocToToken d] := by
  simp [tokenService.existingTokens, Db.getTokensBySlot, h, List.filter_append, hslot,
    _convertDocToToken, hstatus]

/-- An admission in full: the new token is ranked behind the stored tokens of
the slot, gets its estimate, and is saved after the slot's count. -/
theorem allocateToken_admits_rank (cfg : PriorityConfig) {db : Db} (newId : String) (now : Nat)
    {slotId : String} (patientId patientName type : String) (phoneNumber : Option String)
    {s : Slot} (h : db.getSlot slotId = some s) (hf : s.isFull = false) :
    ∃ est, tokenService.allocateToken cfg db newId now slotId patientId patientName type
        phoneNumber
      = (.ok { tokenService.setRank (tokenService.existingTokens db slotId).length
                 (Token.new cfg newId now slotId patientId patientName type phoneNumber)
               with estimatedTime := est },
         (db.saveSlot s.incrementCount).saveToken
           { tokenService.setRank (tokenService.existingTokens db slotId).length
               (Token.new cfg newId now slotId patientId patientName type phoneNumber)
             with estimatedTime := est }) := by
  unfold tokenService.allocateToken
  rw [slotService_getSlot_ok h]
  simp only [hf, Bool.false_eq_true, ↓reduceIte]
  rw [updateSlotCapacity_found true h]
  simp only [↓reduceIte]
  rw [assignTokenNumber_last]
  have hid : s.incrementCount.id = slotId := (getSlot_mem h).2
  have hslot : (db.saveSlot s.incrementCount).getSlot
      (tokenService.setRank (tokenService.existingTokens db slotId).length
        (Token.new cfg newId now slotId patientId patientName type phoneNumber)).slotId
      = some s.incrementCount := by
    have := getSlot_saveSlot db s.incrementCount
    rw [hid] at this
    exact this
  obtain ⟨est, hest⟩ := calculateEstimatedTime_found hslot
  rw [hest]
  exact ⟨est, rfl⟩

theorem allocateToken_ok_inv (cfg : PriorityConfig) {db db1 : Db} {newId : String} {now : Nat}
    {slotId patientId patientName type : String} {phoneNumber : Option String} {tok : Token}
    (h : tokenService.allocateToken cfg db newId now slotId patientId patientName type
      phoneNumber = (.ok tok, db1)) :
    ∃ s est, db.getSlot slotId = some s ∧ s.isFull = false
      ∧ tok = { tokenService.setRank (tokenService.existingTokens db slotId).length
                  (Token.new cfg newId now slotId patientId patientName type phoneNumber)
                with estimatedTime := est }
      ∧ db1 = (db.saveSlot s.incrementCount).saveToken tok := by
  cases hs : db.getSlot slotId with
  | none =>
    rw [allocateToken_missing cfg newId now patientId patientName type phoneNumber hs] at h
    simp at h
  | some s =>
    cases hf : s.isFull with
    | true =>
      rw [allocateToken_full cfg newId now patientId patientName type phoneNumber hs hf] at h
      simp at h
    | false =>
      obtain ⟨est, heq⟩ :=
        allocateToken_admits_rank cfg newId now patientId patientName type phoneNumber hs hf
      rw [heq] at h
      simp only [Prod.mk.injEq, Except.ok.injEq] at h
      exact ⟨s, est, rfl, hf, h.1.symm, by rw [← h.2, ← h.1]⟩
theorem assignFrom_pos_bound (k : Nat) (l : List (Bool × Token)) :
    ∀ a ∈ tokenService.assignFrom k l, ∃ p, a.2.position = some p ∧ k < p ∧ p ≤ k + l.length := by
  induction l generalizing k with
  | nil => intro a ha; simp [tokenService.assignFrom] at ha
  | cons x xs ih =>
    intro a ha
    simp only [tokenService.assignFrom, List.mem_cons] at ha
    rcases ha with rfl | ha
    · exact ⟨k + 1, rfl, Nat.lt_succ_self k, by simp⟩
    · obtain ⟨p, hp, h1, h2⟩ := ih (k + 1) a ha
      exact ⟨p, hp, by omega, by simp only [List.length_cons]; omega⟩

/-- In the ranking of an admission every stored token precedes the new one. -/
theorem rankedWith_stored_first (db : Db) (newToken : Token) (slotId : String) :
    ∀ a ∈ tokenService.rankedWith db newToken slotId,
      ∀ b ∈ tokenService.rankedWith db newToken slotId,
        a.1 = false → b.1 = true → rankedBefore a.2 b.2 := by
  intro a ha b hb hfa hfb
  rw [rankedWith_eq] at ha hb
  have hflags : ∀ x ∈ tokenService.assignFrom 0
      ((tokenService.existingTokens db slotId).map (fun t => (false, t))), x.1 = false := by
    intro x hx
    have := assignFrom_flag 0 ((tokenService.existingTokens db slotId).map (fun t => (false, t)))
    have hx1 : x.1 ∈ (tokenService.assignFrom 0
        ((tokenService.existingTokens db slotId).map (fun t => (false, t)))).map (fun e => e.1) :=
      List.mem_map.mpr ⟨x, hx, rfl⟩
    rw [this] at hx1
    simp only [List.map_map, List.mem_map, Function.comp] at hx1
    obtain ⟨_, _, h⟩ := hx1
    exact h.symm
  simp only [List.mem_append, List.mem_singleton] at ha hb
  rcases hb with hb | rfl
  · rw [hflags b hb] at hfb; exact absurd hfb (by simp)
  · rcases ha with ha | rfl
    · obtain ⟨p, hp, _, h2⟩ := assignFrom_pos_bound 0 _ a ha
      refine ⟨p, (tokenService.existingTokens db slotId).length + 1, hp, rfl, ?_⟩
      simp only [List.length_map] at h2
      omega
    · simp at hfa
theorem assignFrom_ids (k : Nat) (l : List (Bool × Token)) :
    (tokenService.assignFrom k l).map (fun e => e.2.id) = l.map (fun e => e.2.id) := by
  induction l generalizing k with
  | nil => rfl
  | cons x xs ih => simp [tokenService.assignFrom, ih, tokenService.setRank]

theorem assignFrom_increasing (k : Nat) (l : List (Bool × Token)) :
    (tokenService.assignFrom k l).Pairwise (fun a b => rankedBefore a.2 b.2) := by
  induction l generalizing k with
  | nil => simp [tokenService.assignFrom]
  | cons x xs ih =>
    simp only [tokenService.assignFrom, List.pairwise_cons]
    refine ⟨?_, ih (k + 1)⟩
    intro b hb
    obtain ⟨p, hp, hlt, _⟩ := assignFrom_pos_bound (k + 1) xs b hb
    exact ⟨k + 1, p, rfl, hp, hlt⟩

theorem reorderList_eq (db : Db) (slotId : String) :
    tokenService.reorderList db slotId
      = (db.getTokensBySlot slotId).filter
          (fun t => t.status = "SCHEDULED" ∨ t.status = "WAITING") := by
  unfold tokenService.reorderList
  apply sortStable_of_no_after
  intro a ha b _
  simp only [byScoreDesc]
  rw [(getTokensBySlot_fields (List.mem_filter.mp ha).1).2.1]
  cases b.priorityScore <;> rfl

theorem reorderLoop_ids (ts : List Token) (db : Db) (k : Nat) (done ranked : List Token)
    (db1 : Db) (h : tokenService.reorderLoop db k done ts = (.ok ranked, db1)) :
    ranked.map (fun t => t.id) = done.map (fun t => t.id) ++ ts.map (fun t => t.id) := by
  induction ts generalizing db k done with
  | nil =>
    simp only [tokenService.reorderLoop, Prod.mk.injEq, Except.ok.injEq] at h
    simp [h.1]
  | cons t rest ih =>
    unfold tokenService.reorderLoop at h
    split at h
    · simp at h
    · next tok hcalc =>
      obtain ⟨est, rfl⟩ := calculateEstimatedTime_ok hcalc
      have := ih _ _ _ h
      rw [this]
      simp [tokenService.setRank]

/-- Both orderers number the tokens they rank in store order. -/
theorem reorderSlotTokens_store_order (db : Db) (slotId : String) (ranked : List Token)
    (db1 : Db) (h : tokenService._reorderSlotTokens db slotId = (.ok ranked, db1)) :
    ranked.map (fun t => t.id)
        = ((db.getTokensBySlot slotId).filter
            (fun t => t.status = "SCHEDULED" ∨ t.status = "WAITING")).map (fun t => t.id)
      ∧ ranked.Pairwise rankedBefore := by
  unfold tokenService._reorderSlotTokens at h
  constructor
  · have := reorderLoop_ids _ db 0 [] ranked db1 h
    rw [this, reorderList_eq]; rfl
  · have hsorted : (tokenService.reorderList db slotId).Pairwise
        (fun a b => scoreGt b.priorityScore a.priorityScore = false) := by
      rw [List.pairwise_iff_forall_sublist]
      intro x y hxy
      have hy : y ∈ tokenService.reorderList db slotId := hxy.subset (by simp)
      rw [(reorderList_fields hy).2]
      simp [scoreGt]
    obtain ⟨new, hnew, hpw, _⟩ := reorderLoop_ranked _ db 0 [] ranked db1 hsorted h
    rw [List.nil_append] at hnew
    rw [hnew]
    exact hpw.imp (fun hab => hab.2)

/-! ## Booking order -/

/-- C11: of two tokens booked one after the other into the same slot, the one
booked first is ranked ahead: it is returned with the smaller position, and the
ranking made at the second admission gives its stored copy that same position,
ahead of the new token.  An admission appends the new token to the store, and
both orderers number the tokens they rank in store order (the new token last),
so a token booked earlier stays ahead of one booked later.  This holds whatever
the two categories and clock readings are, so in particular for one category
and instants `t1 < t2`. -/
theorem earlier_booking_ranked_first (cfg : PriorityConfig) (db db1 db2 : Db)
    (idA idB : String) (t1 t2 : Nat) (slotId pA nameA typeA pB nameB typeB : String)
    (phoneA phoneB : Option String) (tokA tokB : Token)
    (hfresh : ∀ d ∈ db.tokens, d._id ≠ idA)
    (hA : allocateToken cfg db idA t1 slotId pA nameA typeA phoneA = (.ok tokA, db1))
    (hB : allocateToken cfg db1 idB t2 slotId pB nameB typeB phoneB = (.ok tokB, db2)) :
    rankedBefore tokA tokB
      ∧ (∃ n, tokA.position = some (n + 1) ∧ tokB.position = some (n + 2))
      ∧ db1.tokens = db.tokens ++ [tokenData tokA]
      ∧ (∃ a ∈ rankedWith db1 (Token.new cfg idB t2 slotId pB nameB typeB phoneB) slotId,
          a.1 = false ∧ a.2.id = idA ∧ a.2.position = tokA.position)
      ∧ (∀ (db3 : Db) (newToken : Token),
          (rankedWith db3 newToken slotId).map (fun e => e.2.id)
              = (existingTokens db3 slotId).map (fun t => t.id) ++ [newToken.id]
            ∧ (rankedWith db3 newToken slotId).Pairwise (fun a b => rankedBefore a.2 b.2))
      ∧ (∀ (db3 db4 : Db) (ranked : List Token),
          _reorderSlotTokens db3 slotId = (.ok ranked, db4) →
            ranked.map (fun t => t.id)
                = ((db3.getTokensBySlot slotId).filter
                    (fun t => t.status = "SCHEDULED" ∨ t.status = "WAITING")).map
                      (fun t => t.id)
              ∧ ranked.Pairwise rankedBefore) := by
  obtain ⟨sA, estA, _, _, htokA, hdb1⟩ := allocateToken_ok_inv cfg hA
  obtain ⟨sB, estB, _, _, htokB, _⟩ := allocateToken_ok_inv cfg hB
  have hidA : tokA.id = idA := by rw [htokA]; rfl
  have htokens : db1.tokens = db.tokens ++ [tokenData tokA] := by
    rw [hdb1]
    have hf : ∀ d ∈ (db.saveSlot sA.incrementCount).tokens, d._id ≠ tokA.id := by
      rw [saveSlot_tokens, hidA]; exact hfresh
    rw [saveToken_fresh hf, saveSlot_tokens]
  have hex : existingTokens db1 slotId
      = existingTokens db slotId ++ [_convertDocToToken (tokenData tokA)] :=
    existingTokens_append slotId htokens (by rw [htokA]; rfl) (by rw [htokA]; rfl)
  have hposA : tokA.position = some ((existingTokens db slotId).length + 1) := by
    rw [htokA]; rfl
  have hposB : tokB.position = some ((existingTokens db slotId).length + 2) := by
    rw [htokB, hex]; simp [setRank]
  refine ⟨⟨_, _, hposA, hposB, by omega⟩, ⟨_, hposA, hposB⟩, htokens, ?_, ?_, ?_⟩
  · refine ⟨(false, setRank (existingTokens db slotId).length
        (_convertDocToToken (tokenData tokA))), ?_, rfl, ?_, ?_⟩
    · rw [rankedWith_eq, hex]
      simp only [List.map_append, List.map_cons, List.map_nil, assignFrom_append,
        List.length_map, Nat.zero_add, List.mem_append, List.mem_singleton]
      left; right; trivial
    · simpa [setRank, _convertDocToToken, tokenData] using hidA
    · rw [hposA]; rfl
  · intro db3 newToken
    rw [rankedWith_store_order]
    refine ⟨?_, assignFrom_increasing 0 _⟩
    rw [assignFrom_ids]
    simp
  · intro db3 db4 ranked h
    exact reorderSlotTokens_store_order db3 slotId ranked db4 h

/-- Witness for C11: walk-in A booked at clock 1000, then walk-in B at clock 2000. -/
theorem earlier_booking_ranked_first_witness :
    ∃ tokA tokB,
      allocateToken defaultPriority sampleEmpty "a" 1000 "s1" "pA" "A" "WALKIN" none
          = (.ok tokA, sampleOne)
        ∧ allocateToken defaultPriority sampleOne "b" 2000 "s1" "pB" "B" "WALKIN" none
          = (.ok tokB, sampleFull)
        ∧ tokA.position = some 1 ∧ tokB.position = some 2 ∧ rankedBefore tokA tokB :=
  ⟨_, _, rfl, rfl, by decide, by decide,
    (earlier_booking_ranked_first defaultPriority sampleEmpty sampleOne sampleFull "a" "b"
      1000 2000 "s1" "pA" "A" "WALKIN" "pB" "B" "WALKIN" none none _ _ (by decide) rfl rfl).1⟩

/-! ## Scores and categories -/

theorem calculatePriorityScore_eq (cfg : PriorityConfig) (type : String) (now : Nat) :
    calculatePriorityScore cfg type now
      = (baseScore cfg type).map (fun b => b * 1000000000 + (now : Int)) := by
  unfold calculatePriorityScore baseScore
  cases cfg.lookup type with
  | some v => rfl
  | none => by_cases h : type ∈ objectPrototypeKeys <;> simp [h]

/-! ### Scores as the code computes them -/

theorem roundHalfEven_error (x : ℚ) : |(roundHalfEven x : ℚ) - x| ≤ 1 / 2 := by
  have h1 := Int.floor_le x
  have h2 := Int.lt_floor_add_one x
  unfold roundHalfEven
  split
  · rw [abs_le]; constructor <;> linarith
  · split
    · rw [abs_le]; push_cast; constructor <;> linarith
    · have he : x - ⌊x⌋ = 1 / 2 := by linarith
      split
      · rw [abs_le]; constructor <;> linarith
      · rw [abs_le]; push_cast; constructor <;> linarith

/-- A double is within half a unit in the last place of the number it rounds. -/
theorem toDouble_error (q : ℚ) :
    |toDouble q - q| ≤ (2 : ℚ) ^ (Int.log 2 |q| - 52) / 2 := by
  unfold toDouble
  have hs : (0 : ℚ) < (2 : ℚ) ^ (Int.log 2 |q| - 52) := by positivity
  generalize (2 : ℚ) ^ (Int.log 2 |q| - 52) = s at hs
  have h := roundHalfEven_error (q / s)
  have e : (roundHalfEven (q / s) : ℚ) * s - q = ((roundHalfEven (q / s) : ℚ) - q / s) * s := by
    field_simp
  rw [e, abs_mul, abs_of_pos hs]
  calc |(roundHalfEven (q / s) : ℚ) - q / s| * s ≤ 1 / 2 * s :=
        mul_le_mul_of_nonneg_right h hs.le
    _ = s / 2 := by ring

theorem log_le_of_abs_lt (q : ℚ) (e : ℤ) (he : 0 ≤ e) (h : |q| < (2 : ℚ) ^ (e + 1)) :
    Int.log 2 |q| ≤ e := by
  rcases (abs_nonneg q).eq_or_lt with h0 | h0
  · rw [← h0, Int.log_zero_right]; exact he
  · have := (@Int.lt_zpow_iff_log_lt ℚ _ _ 2 (by norm_num) (e + 1) |q| h0).mp
      (by exact_mod_cast h)
    omega

theorem toDouble_error_le (q : ℚ) (e : ℤ) (he : 0 ≤ e) (h : |q| < (2 : ℚ) ^ (e + 1)) :
    |toDouble q - q| ≤ (2 : ℚ) ^ (e - 52) / 2 := by
  have h1 := toDouble_error q
  have h2 := log_le_of_abs_lt q e he h
  have h3 : (2 : ℚ) ^ (Int.log 2 |q| - 52) ≤ (2 : ℚ) ^ (e - 52) :=
    zpow_le_zpow_right₀ (by norm_num) (by omega)
  linarith

/-- The two roundings of a score move it by less than half a millisecond's
worth: scores that differ exactly are ordered the same way as doubles. -/
theorem toDouble_order (b1 b2 : ℤ) (t1 t2 : ℕ) (hb1 : |b1| ≤ 8000) (hb2 : |b2| ≤ 8000)
    (ht1 : t1 < 8000000000000) (ht2 : t2 < 8000000000000)
    (h : b2 * 1000000000 + (t2 : ℤ) < b1 * 1000000000 + (t1 : ℤ)) :
    toDouble ((b2 : ℚ) + toDouble ((t2 : ℚ) / 1000000000))
      < toDouble ((b1 : ℚ) + toDouble ((t1 : ℚ) / 1000000000)) := by
  have p40 : (2 : ℚ) ^ ((12 : ℤ) - 52) = 1 / 1099511627776 := by norm_num [zpow_neg]
  have p39 : (2 : ℚ) ^ ((13 : ℤ) - 52) = 1 / 549755813888 := by norm_num [zpow_neg]
  have q13 : (2 : ℚ) ^ ((12 : ℤ) + 1) = 8192 := by norm_num
  have q14 : (2 : ℚ) ^ ((13 : ℤ) + 1) = 16384 := by norm_num
  have key : ∀ (b : ℤ) (t : ℕ), |b| ≤ 8000 → t < 8000000000000 →
      |toDouble ((b : ℚ) + toDouble ((t : ℚ) / 1000000000))
        - ((b : ℚ) + (t : ℚ) / 1000000000)| ≤ 3 / 2199023255552 := by
    intro b t hb ht
    have hx0 : (0 : ℚ) ≤ (t : ℚ) / 1000000000 := by positivity
    have hx1 : (t : ℚ) / 1000000000 < 8000 := by
      rw [div_lt_iff₀ (by norm_num)]
      have : (t : ℚ) < 8000000000000 := by exact_mod_cast ht
      linarith
    have e1 := toDouble_error_le ((t : ℚ) / 1000000000) 12 (by norm_num)
      (by rw [abs_of_nonneg hx0, q13]; linarith)
    rw [p40] at e1
    have hbq : |(b : ℚ)| ≤ 8000 := by exact_mod_cast hb
    have e1' := abs_le.mp e1
    have hb' := abs_le.mp hbq
    have e2 := toDouble_error_le ((b : ℚ) + toDouble ((t : ℚ) / 1000000000)) 13 (by norm_num)
      (by
        rw [q14, abs_lt]
        constructor <;> linarith [e1'.1, e1'.2, hb'.1, hb'.2])
    rw [p39] at e2
    have e2' := abs_le.mp e2
    rw [abs_le]
    constructor <;> linarith [e1'.1, e1'.2, e2'.1, e2'.2]
  have k1 := abs_le.mp (key b1 t1 hb1 ht1)
  have k2 := abs_le.mp (key b2 t2 hb2 ht2)
  have hz : b2 * 1000000000 + (t2 : ℤ) + 1 ≤ b1 * 1000000000 + (t1 : ℤ) := by omega
  have hq : (b2 : ℚ) * 1000000000 + (t2 : ℚ) + 1 ≤ (b1 : ℚ) * 1000000000 + (t1 : ℚ) := by
    exact_mod_cast hz
  have hd : ((b2 : ℚ) + (t2 : ℚ) / 1000000000) + 1 / 1000000000
      ≤ (b1 : ℚ) + (t1 : ℚ) / 1000000000 := by
    have e2 : ((b2 : ℚ) + (t2 : ℚ) / 1000000000) + 1 / 1000000000
        = ((b2 : ℚ) * 1000000000 + (t2 : ℚ) + 1) / 1000000000 := by ring
    have e1 : (b1 : ℚ) + (t1 : ℚ) / 1000000000
        = ((b1 : ℚ) * 1000000000 + (t1 : ℚ)) / 1000000000 := by ring
    rw [e2, e1]
    exact div_le_div_of_nonneg_right hq (by norm_num)
  linarith [k1.1, k1.2, k2.1, k2.2]

/-- The exact scores and the doubles of the code agree on every strict
comparison, for base values between -8000 and 8000 and instants below
`8 * 10^12` ms: if the exact score of `(c1, t1)` is greater than that of
`(c2, t2)`, so is the double. -/
theorem doubleScore_order (cfg : PriorityConfig) (c1 c2 : String) (b1 b2 : Int) (t1 t2 : Nat)
    (h1 : baseScore cfg c1 = some b1) (h2 : baseScore cfg c2 = some b2)
    (hb1 : -8000 ≤ b1 ∧ b1 ≤ 8000) (hb2 : -8000 ≤ b2 ∧ b2 ≤ 8000)
    (ht1 : t1 < 8000000000000) (ht2 : t2 < 8000000000000)
    (h : scoreGt (calculatePriorityScore cfg c1 t1) (calculatePriorityScore cfg c2 t2) = true) :
    doubleGt (doubleScore cfg c1 t1) (doubleScore cfg c2 t2) = true := by
  rw [calculatePriorityScore_eq, calculatePriorityScore_eq, h1, h2] at h
  simp only [Option.map_some', scoreGt, decide_eq_true_eq] at h
  unfold doubleScore
  rw [h1, h2]
  simp only [doubleGt, decide_eq_true_eq, gt_iff_lt]
  exact toDouble_order b1 b2 t1 t2 (abs_le.mpr hb1) (abs_le.mpr hb2) ht1 ht2 h

/-- The double of a positive number whose binary exponent and scaled floor are
known. -/
theorem toDouble_eval (q : ℚ) (e f : ℤ) (hq : 0 < q)
    (hlo : (2 : ℚ) ^ e ≤ q) (hhi : q < (2 : ℚ) ^ (e + 1))
    (hf1 : (f : ℚ) ≤ q / (2 : ℚ) ^ (e - 52)) (hf2 : q / (2 : ℚ) ^ (e - 52) < (f : ℚ) + 1) :
    toDouble q
      = (((if q / (2 : ℚ) ^ (e - 52) - f < 1 / 2 then f
          else if 1 / 2 < q / (2 : ℚ) ^ (e - 52) - f then f + 1
          else if f % 2 = 0 then f else f + 1 : ℤ) : ℚ)) * (2 : ℚ) ^ (e - 52) := by
  have hlog : Int.log 2 |q| = e := by
    rw [abs_of_pos hq]
    have h1 := (@Int.lt_zpow_iff_log_lt ℚ _ _ 2 (by norm_num) (e + 1) q hq).mp
      (by exact_mod_cast hhi)
    have h2 := (@Int.zpow_le_iff_le_log ℚ _ _ 2 (by norm_num) e q hq).mp
      (by exact_mod_cast hlo)
    omega
  have hfloor : ⌊q / (2 : ℚ) ^ (e - 52)⌋ = f := Int.floor_eq_iff.mpr ⟨hf1, hf2⟩
  unfold toDouble roundHalfEven
  rw [hlog, hfloor]

theorem double_emergency :
    toDouble ((1000 : ℚ) + toDouble ((1762300800009 : ℚ) / 1000000000))
      = 6074363698049686 / 2199023255552 := by
  have hx : toDouble ((1762300800009 : ℚ) / 1000000000) = 7750680884995371 / 4398046511104 := by
    rw [toDouble_eval ((1762300800009 : ℚ) / 1000000000) 10 7750680884995370 (by norm_num)
      (by norm_num) (by norm_num) (by norm_num [zpow_neg]) (by norm_num [zpow_neg])]
    norm_num [zpow_neg]
  rw [hx]
  rw [toDouble_eval ((1000 : ℚ) + 7750680884995371 / 4398046511104) 11 6074363698049685
    (by norm_num) (by norm_num) (by norm_num) (by norm_num [zpow_neg]) (by norm_num [zpow_neg])]
  norm_num [zpow_neg]

theorem double_followup :
    toDouble ((300 : ℚ) + toDouble ((2462300800009 : ℚ) / 1000000000))
      = 6074363698049685 / 2199023255552 := by
  have hx : toDouble ((2462300800009 : ℚ) / 1000000000) = 5414656721384085 / 2199023255552 := by
    rw [toDouble_eval ((2462300800009 : ℚ) / 1000000000) 11 5414656721384085 (by norm_num)
      (by norm_num) (by norm_num) (by norm_num [zpow_neg]) (by norm_num [zpow_neg])]
    norm_num [zpow_neg]
  rw [hx]
  rw [toDouble_eval ((300 : ℚ) + 5414656721384085 / 2199023255552) 11 6074363698049685
    (by norm_num) (by norm_num) (by norm_num) (by norm_num [zpow_neg]) (by norm_num [zpow_neg])]
  norm_num [zpow_neg]

/-- At a difference of exactly the gap the doubles decide by rounding: an
EMERGENCY token booked at 1762300800009 ms and a FOLLOWUP token booked
`700 * 10^9` ms later have the same exact score, and the code's double for the
EMERGENCY token is the greater one, by one unit in the last place. -/
theorem doubles_blur_equal_scores :
    calculatePriorityScore defaultPriority "EMERGENCY" 1762300800009 = some 2762300800009
      ∧ calculatePriorityScore defaultPriority "FOLLOWUP" 2462300800009 = some 2762300800009
      ∧ doubleScore defaultPriority "EMERGENCY" 1762300800009
        = some (6074363698049686 / 2199023255552)
      ∧ doubleScore defaultPriority "FOLLOWUP" 2462300800009
        = some (6074363698049685 / 2199023255552)
      ∧ doubleGt (doubleScore defaultPriority "EMERGENCY" 1762300800009)
          (doubleScore defaultPriority "FOLLOWUP" 2462300800009) = true := by
  have he : baseScore defaultPriority "EMERGENCY" = some 1000 := by decide
  have hf : baseScore defaultPriority "FOLLOWUP" = some 300 := by decide
  have h1 : doubleScore defaultPriority "EMERGENCY" 1762300800009
      = some (6074363698049686 / 2199023255552) := by
    unfold doubleScore
    rw [he]
    simp only [Option.some.injEq]
    rw [← double_emergency]
    norm_num
  have h2 : doubleScore defaultPriority "FOLLOWUP" 2462300800009
      = some (6074363698049685 / 2199023255552) := by
    unfold doubleScore
    rw [hf]
    simp only [Option.some.injEq]
    rw [← double_followup]
    norm_num
  refine ⟨by decide, by decide, h1, h2, ?_⟩
  rw [h1, h2]
  simp only [doubleGt, decide_eq_true_eq]
  norm_num

/-- C12 (counterexample): with the default configuration an ONLINE token booked
at 1600000000000 ms scores below a WALKIN token booked at 1750000000000 ms,
although the ONLINE base value 200 is above the WALKIN base value 100; so it
is for the exact scores and for the doubles the code computes. -/
theorem tie_break_crosses_category :
    baseScore defaultPriority "ONLINE" = some 200 ∧ baseScore defaultPriority "WALKIN" = some 100
      ∧ scoreGt (calculatePriorityScore defaultPriority "ONLINE" 1600000000000)
          (calculatePriorityScore defaultPriority "WALKIN" 1750000000000) = false
      ∧ scoreGt (calculatePriorityScore defaultPriority "WALKIN" 1750000000000)
          (calculatePriorityScore defaultPriority "ONLINE" 1600000000000) = true
      ∧ doubleGt (doubleScore defaultPriority "WALKIN" 1750000000000)
          (doubleScore defaultPriority "ONLINE" 1600000000000) = true := by
  refine ⟨by decide, by decide, by decide, by decide, ?_⟩
  exact doubleScore_order defaultPriority "WALKIN" "ONLINE" 100 200 1750000000000 1600000000000
    (by decide) (by decide) (by decide) (by decide) (by decide) (by decide) (by decide)

/-- C12 (amended): for categories with base values `b1 > b2` between -8000 and
8000 and booking instants below `8 * 10^12` ms, the score the code computes for
the first at instant `t1` is strictly greater than the score of the second at
instant `t2` whenever `t2 - t1 < (b1 - b2) * 10^9` milliseconds, in particular
whenever `t2 ≤ t1`, and strictly smaller whenever
`t2 - t1 > (b1 - b2) * 10^9`; the exact scores are ordered the same way. -/
theorem tie_break_within_gap (cfg : PriorityConfig) (c1 c2 : String) (b1 b2 : Int)
    (t1 t2 : Nat) (h1 : baseScore cfg c1 = some b1) (h2 : baseScore cfg c2 = some b2)
    (hb : b1 > b2) (hlow : -8000 ≤ b2) (hhigh : b1 ≤ 8000)
    (ht1 : t1 < 8000000000000) (ht2 : t2 < 8000000000000) :
    ((t2 : Int) - t1 < (b1 - b2) * 1000000000 →
        doubleGt (doubleScore cfg c1 t1) (doubleScore cfg c2 t2) = true
          ∧ scoreGt (calculatePriorityScore cfg c1 t1) (calculatePriorityScore cfg c2 t2) = true)
      ∧ ((b1 - b2) * 1000000000 < (t2 : Int) - t1 →
        doubleGt (doubleScore cfg c2 t2) (doubleScore cfg c1 t1) = true
          ∧ scoreGt (calculatePriorityScore cfg c2 t2) (calculatePriorityScore cfg c1 t1) = true)
      ∧ (t2 ≤ t1 → doubleGt (doubleScore cfg c1 t1) (doubleScore cfg c2 t2) = true) := by
  have hb1 : -8000 ≤ b1 ∧ b1 ≤ 8000 := ⟨by omega, hhigh⟩
  have hb2 : -8000 ≤ b2 ∧ b2 ≤ 8000 := ⟨hlow, by omega⟩
  have e1 : scoreGt (calculatePriorityScore cfg c1 t1) (calculatePriorityScore cfg c2 t2) = true
      ↔ (t2 : Int) - t1 < (b1 - b2) * 1000000000 := by
    rw [calculatePriorityScore_eq, calculatePriorityScore_eq, h1, h2]
    simp only [Option.map_some', scoreGt, decide_eq_true_eq]
    constructor <;> intro h <;> nlinarith
  have e2 : scoreGt (calculatePriorityScore cfg c2 t2) (calculatePriorityScore cfg c1 t1) = true
      ↔ (b1 - b2) * 1000000000 < (t2 : Int) - t1 := by
    rw [calculatePriorityScore_eq, calculatePriorityScore_eq, h1, h2]
    simp only [Option.map_some', scoreGt, decide_eq_true_eq]
    constructor <;> intro h <;> nlinarith
  refine ⟨?_, ?_, ?_⟩
  · intro h
    exact ⟨doubleScore_order cfg c1 c2 b1 b2 t1 t2 h1 h2 hb1 hb2 ht1 ht2 (e1.mpr h), e1.mpr h⟩
  · intro h
    exact ⟨doubleScore_order cfg c2 c1 b2 b1 t2 t1 h2 h1 hb2 hb1 ht2 ht1 (e2.mpr h), e2.mpr h⟩
  · intro h
    have h' : (t2 : Int) ≤ t1 := by exact_mod_cast h
    exact doubleScore_order cfg c1 c2 b1 b2 t1 t2 h1 h2 hb1 hb2 ht1 ht2
      (e1.mpr (by nlinarith))

/-- Witness for C12: ONLINE against WALKIN, booked one day apart. -/
theorem tie_break_within_gap_witness :
    doubleGt (doubleScore defaultPriority "ONLINE" 1750000000000)
        (doubleScore defaultPriority "WALKIN" 1750086400000) = true
      ∧ scoreGt (calculatePriorityScore defaultPriority "ONLINE" 1750000000000)
        (calculatePriorityScore defaultPriority "WALKIN" 1750086400000) = true :=
  (tie_break_within_gap defaultPriority "ONLINE" "WALKIN" 200 100 1750000000000 1750086400000
    (by decide) (by decide) (by decide) (by decide) (by decide) (by decide) (by decide)).1
    (by decide)

/-- The name `constructor` is not a key of `config.priority`, and a token of
that type would not score what a WALKIN token of the same instant scores:
`config.priority['constructor']` is the inherited function and the sum is not a
number.  No token has such a type: the service passes the five values of
`config.tokenTypes` only. -/
theorem inherited_name_not_walkin :
    defaultPriority.lookup "constructor" = none
      ∧ calculatePriorityScore defaultPriority "constructor" 1000 = none
      ∧ calculatePriorityScore defaultPriority "WALKIN" 1000 = some 100000001000 := by
  refine ⟨?_, ?_, ?_⟩ <;> decide

/-- The types the service gives its tokens are no inherited property names. -/
theorem tokenTypes_not_inherited : ∀ type ∈ tokenTypes, type ∉ objectPrototypeKeys := by
  decide

/-- C13: for every type string that is not a key of `config.priority` and that
names no property inherited from `Object.prototype` (so for every type of
`config.tokenTypes`, the only types the service passes), `calculatePriorityScore`
takes the WALKIN base value, and the token scores exactly what a WALKIN token
booked at the same instant scores, as an exact number and as the double of the
code. -/
theorem unknown_category_scores_as_walkin (cfg : PriorityConfig) (type : String) (now : Nat)
    (hkey : cfg.lookup type = none) (hproto : type ∉ objectPrototypeKeys) :
    baseScore cfg type = some cfg.WALKIN
      ∧ calculatePriorityScore cfg type now = some (cfg.WALKIN * 1000000000 + now)
      ∧ calculatePriorityScore cfg type now = calculatePriorityScore cfg "WALKIN" now
      ∧ doubleScore cfg type now = doubleScore cfg "WALKIN" now := by
  have hw : cfg.lookup "WALKIN" = some cfg.WALKIN := by
    simp [PriorityConfig.lookup]
  have hbase : baseScore cfg type = some cfg.WALKIN := by simp [baseScore, hkey, hproto]
  have hbw : baseScore cfg "WALKIN" = some cfg.WALKIN := by
    simp only [baseScore, hw]
    split <;> rfl
  refine ⟨hbase, ?_, ?_, ?_⟩
  · simp [calculatePriorityScore, hkey, hproto]
  · simp only [calculatePriorityScore, hkey, hproto, hw, ↓reduceIte]
    split <;> rfl
  · unfold doubleScore
    rw [hbase, hbw]

/-- Witness for C13: the type PRIORITY under the default configuration. -/
theorem unknown_category_scores_as_walkin_witness :
    defaultPriority.lookup "PRIORITY" = none ∧ "PRIORITY" ∈ tokenTypes
      ∧ calculatePriorityScore defaultPriority "PRIORITY" 1000
        = calculatePriorityScore defaultPriority "WALKIN" 1000 :=
  ⟨by decide, by decide,
   (unknown_category_scores_as_walkin defaultPriority "PRIORITY" 1000 (by decide)
      (tokenTypes_not_inherited "PRIORITY" (by decide))).2.2.1⟩

/-- The score grows with the booking instant: of two tokens of one category,
the one booked later has the greater score, and the sort of the orderer puts it
first when both objects carry their score. -/
theorem later_booking_scores_higher (cfg : PriorityConfig) (type : String) (b : Int)
    (t1 t2 : Nat) (hb : baseScore cfg type = some b) (ht : t1 < t2) :
    scoreGt (calculatePriorityScore cfg type t2) (calculatePriorityScore cfg type t1) = true
      ∧ (tokenService.assignFrom 0 (sortStable (fun a b => byScoreDesc a.2 b.2)
            [(false, Token.new defaultPriority "a" 1000 "s1" "pA" "A" "WALKIN" none),
             (true, Token.new defaultPriority "b" 2000 "s1" "pB" "B" "WALKIN" none)])).map
          (fun e => (e.2.patientName, e.2.position)) = [("B", some 1), ("A", some 2)] := by
  refine ⟨?_, by decide⟩
  rw [calculatePriorityScore_eq, calculatePriorityScore_eq, hb]
  simp only [Option.map_some', scoreGt, decide_eq_true_eq]
  have : (t1 : Int) < t2 := by exact_mod_cast ht
  omega

/-! ## Estimates -/

/-- For a token at position `p` in a stored slot whose start time reads `hh:mm`,
`_calculateEstimatedTime` sets the estimate to the `Date` of `slot.date` with
`60 * hh + mm + (p - 1) * 10` minutes set from local midnight, plus
`delayMinutes` when the slot is flagged delayed and plus nothing otherwise;
nothing else of the token changes. -/
theorem estimated_time_formula (db : Db) (token : Token) (slot : Slot) (hh mm p : Nat)
    (hs : db.getSlot token.slotId = some slot)
    (hstart : parseStartTime slot.startTime = some (hh, mm))
    (hp : token.position = some p) :
    _calculateEstimatedTime db token
      = .ok { token with estimatedTime := some (EstTime.mk slot.date
          (60 * (hh : Int) + mm + ((p : Int) - 1) * 10
            + (if slot.isDelayed then slot.delayMinutes else 0))) } := by
  unfold _calculateEstimatedTime
  rw [slotService_getSlot_ok hs]
  simp only [hstart, hp]
  congr 4
  cases slot.isDelayed <;> simp <;> ring

/-- Position 3 in the 09:00 slot gives 09:20 (560 minutes), and 09:35 (575
minutes) when the slot is delayed by 15 minutes. -/
theorem estimated_time_formula_witness :
    parseStartTime "09:00" = some (9, 0)
      ∧ _calculateEstimatedTime sampleEmpty sampleThird
        = .ok { sampleThird with estimatedTime := some (EstTime.mk "2024-01-15" 560) }
      ∧ _calculateEstimatedTime sampleDelayed sampleThird
        = .ok { sampleThird with estimatedTime := some (EstTime.mk "2024-01-15" 575) } :=
  ⟨by decide,
   estimated_time_formula sampleEmpty sampleThird sampleSlot 9 0 3 (by decide) (by decide)
      (by decide),
   estimated_time_formula sampleDelayed sampleThird
      { sampleSlot with isDelayed := true, delayMinutes := 15, status := "DELAYED" } 9 0 3
      (by decide) (by decide) (by decide)⟩

/-- C14 (failing input): on a server five hours behind UTC (offset -300, New
York in winter) the estimate for position 3 in the slot of 2024-01-15 at 09:00
is 09:20 on the day before the slot's date: `new Date('2024-01-15')` is
midnight UTC, 19:00 of 2024-01-14 in local time, and `setHours(9, 20)` sets
the local time on that local day.  So it is for every offset behind UTC; at
UTC and ahead of it the day is the slot's date. -/
theorem estimate_on_previous_day :
    _calculateEstimatedTime sampleEmpty sampleThird
        = .ok { sampleThird with estimatedTime := some (EstTime.mk "2024-01-15" 560) }
      ∧ (EstTime.mk "2024-01-15" 560).localDay (-300) = -1
      ∧ (EstTime.mk "2024-01-15" 560).localMinute = 9 * 60 + 20
      ∧ (EstTime.mk "2024-01-15" 560).localDay 0 = 0
      ∧ (EstTime.mk "2024-01-15" 560).localDay 330 = 0
      ∧ (∀ (e : EstTime) (tzOffset : Int), tzOffset < 0 → 0 ≤ e.minutes → e.minutes < 1440 →
          e.localDay tzOffset = -1) := by
  refine ⟨by decide, by decide, by decide, by decide, by decide, ?_⟩
  intro e tzOffset htz h0 h1
  unfold EstTime.localDay
  rw [if_pos htz, Int.ediv_eq_zero_of_lt h0 h1]
  rfl

/-- C15 (failing input): in `sampleGap` follow-up B is the only live token of the
slot and is stored under number `T002` with the estimate 09:10 (550 minutes).
Admitting walk-in C ranks B first and C second; C is stored under `T002` with
the estimate 09:10, and B is stored exactly as before, its estimate not
recomputed for rank 1.  In general `allocateToken` leaves every stored token
other than the one it admits as it was. -/
theorem admission_recomputes_only_new_token :
    (∀ (cfg : PriorityConfig) (db : Db) (newId : String) (now : Nat)
        (slotId patientId patientName type : String) (phoneNumber : Option String),
        ∀ d ∈ db.tokens, d._id ≠ newId →
          d ∈ (allocateToken cfg db newId now slotId patientId patientName type
            phoneNumber).2.tokens)
      ∧ (rankedWith sampleGap
            (Token.new defaultPriority "c" 3000 "s1" "pC" "C" "WALKIN" none) "s1").map
          (fun e => (e.2.patientName, e.2.position)) = [("B", some 1), ("C", some 2)]
      ∧ (∃ tok, (allocateToken defaultPriority sampleGap "c" 3000 "s1" "pC" "C" "WALKIN" none).1
          = .ok tok ∧ tok.position = some 2)
      ∧ ((allocateToken defaultPriority sampleGap "c" 3000 "s1" "pC" "C" "WALKIN"
            none).2.getTokensBySlot "s1").map
          (fun t => (t.patientName, t.status, t.tokenNumber, t.estimatedTime))
        = [("A", "CANCELLED", some "T001", some (EstTime.mk "2024-01-15" 540)),
           ("B", "SCHEDULED", some "T002", some (EstTime.mk "2024-01-15" 550)),
           ("C", "SCHEDULED", some "T002", some (EstTime.mk "2024-01-15" 550))] := by
  refine ⟨?_, by decide, ⟨_, rfl, by decide⟩, by decide⟩
  intro cfg db newId now slotId patientId patientName type phoneNumber d hd hne
  cases hs : db.getSlot slotId with
  | none =>
    rw [allocateToken_missing cfg newId now patientId patientName type phoneNumber hs]
    exact hd
  | some s =>
    cases hf : s.isFull with
    | true =>
      rw [allocateToken_full cfg newId now patientId patientName type phoneNumber hs hf]
      exact hd
    | false =>
      obtain ⟨tok, heq, hid, _⟩ :=
        allocateToken_admits cfg newId now patientId patientName type phoneNumber hs hf
      rw [heq]
      apply saveToken_keeps_other
      · rw [saveSlot_tokens]; exact hd
      · rw [hid]; exact hne

/-! ## Cancellation and no-show -/

/-- C16: when the token id is unknown, or the stored token is already CANCELLED
or already COMPLETED, `cancelToken` throws and leaves the store exactly as it
was: every token, every slot and every waitlist. -/
theorem cancel_rejects_without_mutating (db : Db) (tokenId : String)
    (h : db.getToken tokenId = none
      ∨ ∃ token, db.getToken tokenId = some token
          ∧ (token.status = "CANCELLED" ∨ token.status = "COMPLETED")) :
    (cancelToken db tokenId).2 = db
      ∧ ((cancelToken db tokenId).1 = .error "Token not found"
        ∨ (cancelToken db tokenId).1 = .error "Token already cancelled"
        ∨ (cancelToken db tokenId).1 = .error "Cannot cancel completed token") := by
  unfold cancelToken
  rcases h with h | ⟨token, h, hst⟩
  · rw [h]; exact ⟨rfl, Or.inl rfl⟩
  · rw [h]
    simp only
    by_cases hc : token.status = "CANCELLED"
    · simp [hc]
    · rcases hst with hst | hst
      · exact absurd hst hc
      · simp [hst]

/-- Witness for C16: the CANCELLED token A of `sampleGap`. -/
theorem cancel_rejects_without_mutating_witness :
    (∃ token, sampleGap.getToken "a" = some token ∧ token.status = "CANCELLED")
      ∧ (cancelToken sampleGap "a").2 = sampleGap :=
  ⟨⟨_, rfl, by decide⟩,
   (cancel_rejects_without_mutating sampleGap "a"
      (Or.inr ⟨_, rfl, Or.inl (by decide)⟩)).1⟩

/-- A token read from the store has none of the methods of the class. -/
theorem getToken_plain {db : Db} {tokenId : String} {token : Token}
    (h : db.getToken tokenId = some token) : token.hasMethods = false := by
  unfold Db.getToken at h
  cases hf : db.tokens.find? (fun d => d._id = tokenId) with
  | none => rw [hf] at h; simp at h
  | some d =>
    rw [hf] at h
    simp only [Option.map_some', Option.some.injEq] at h
    rw [← h]; rfl

/-- C17 (failing input): no call of `cancelToken` returns, and every call leaves
the slots as they were; on the slot of `sampleThree` (three SCHEDULED tokens,
`currentCount` 3) cancelling A throws at `token.markCancelled` and the count is
still 3. -/
theorem cancel_never_frees_a_unit :
    (∀ (db : Db) (tokenId : String) (tok : Token), (cancelToken db tokenId).1 ≠ .ok tok)
      ∧ (∀ (db : Db) (tokenId : String), (cancelToken db tokenId).2 = db)
      ∧ (cancelToken sampleThree "a").1
          = .error "TypeError: token.markCancelled is not a function"
      ∧ sampleThree.slots.map (fun s => s.currentCount) = [3]
      ∧ (cancelToken sampleThree "a").2.slots.map (fun s => s.currentCount) = [3] := by
  have key : ∀ (db : Db) (tokenId : String),
      (cancelToken db tokenId).2 = db ∧ ∀ tok, (cancelToken db tokenId).1 ≠ .ok tok := by
    intro db tokenId
    unfold cancelToken
    cases h : db.getToken tokenId with
    | none => exact ⟨rfl, fun tok => by simp⟩
    | some token =>
      simp only
      split
      · exact ⟨rfl, fun tok => by simp⟩
      · split
        · exact ⟨rfl, fun tok => by simp⟩
        · simp [Token.markCancelled, getToken_plain h]
  exact ⟨fun db tokenId tok => (key db tokenId).2 tok, fun db tokenId => (key db tokenId).1,
    by decide, by decide, by decide⟩

/-- C18: `markNoShow` on a stored token throws before it writes anything and
leaves the store exactly as it was, whatever the status of the token, so in
particular when the status is CANCELLED, COMPLETED or NO_SHOW: the token keeps
its status and the slot its `currentCount`. -/
theorem noShow_on_terminal_rejects (db : Db) (tokenId : String) (token : Token)
    (h : db.getToken tokenId = some token) :
    markNoShow db tokenId = (.error "TypeError: token.markNoShow is not a function", db)
      ∧ (markNoShow db tokenId).2.getToken tokenId = some token
      ∧ (markNoShow db tokenId).2.slots = db.slots := by
  have hm : markNoShow db tokenId
      = (.error "TypeError: token.markNoShow is not a function", db) := by
    unfold markNoShow
    rw [h]
    simp [Token.markNoShow, getToken_plain h]
  rw [hm]
  exact ⟨rfl, h, rfl⟩

/-- Witness for C18: the CANCELLED token A of `sampleGap`. -/
theorem noShow_on_terminal_rejects_witness :
    (∃ token, sampleGap.getToken "a" = some token ∧ token.status = "CANCELLED")
      ∧ (markNoShow sampleGap "a").2 = sampleGap :=
  ⟨⟨_, rfl, by decide⟩,
   congrArg Prod.snd (noShow_on_terminal_rejects sampleGap "a" _ rfl).1⟩

/-! ## Reallocation of tokens -/

/-- C19 (failing input): on the case of the specification (A, B, C SCHEDULED in
slot `s1`, one free unit in the later slot `s2`, so n = 3 and k = 1)
`reallocateTokens` selects B and C, throws at `token.relocate` for B and moves
nothing: A, B and C are all still in `s1` and `s2` holds no token. -/
theorem reallocate_moves_nothing :
    (slotService.getNextAvailableSlot sampleSpecCase "d1" "2024-01-15" "09:00").map
        (fun s => (s.id, s.availableCapacity)) = some ("s2", 1)
      ∧ (sliceFrom ((sampleSpecCase.getTokensBySlot "s1").filter
            (fun t => t.status = "SCHEDULED")) 1).map (fun t => t.patientName) = ["B", "C"]
      ∧ (reallocateTokens sampleSpecCase "s1").1
          = .error "TypeError: token.relocate is not a function"
      ∧ ((reallocateTokens sampleSpecCase "s1").2.getTokensBySlot "s1").map
          (fun t => t.patientName) = ["A", "B", "C"]
      ∧ (reallocateTokens sampleSpecCase "s1").2.getTokensBySlot "s2" = [] := by
  refine ⟨?_, ?_, ?_, ?_, ?_⟩ <;> decide

/-- C20 (failing input): on the case of the specification (source `s1` counting
3, destination `s2` counting 1) `reallocateTokens` throws at `token.relocate`
for B; the counts are 3 and 1 as before and no list `reallocated` is returned.
In general a call leaves the store as it was, and a call that returns returns
the empty list: no count ever drops or rises by a number of moved tokens. -/
theorem reallocation_changes_no_count :
    (reallocateTokens sampleSpecCase "s1").1
        = .error "TypeError: token.relocate is not a function"
      ∧ sampleSpecCase.slots.map (fun s => (s.id, s.currentCount)) = [("s1", 3), ("s2", 1)]
      ∧ (reallocateTokens sampleSpecCase "s1").2.slots.map (fun s => (s.id, s.currentCount))
        = [("s1", 3), ("s2", 1)]
      ∧ (∀ (db : Db) (slotId : String), (reallocateTokens db slotId).2 = db)
      ∧ (∀ (db : Db) (slotId : String) (moved : List Token),
          (reallocateTokens db slotId).1 = .ok moved → moved = []) :=
  ⟨by decide, by decide, by decide,
   fun db slotId => (reallocateTokens_store db slotId).1,
   fun db slotId => (reallocateTokens_store db slotId).2⟩

/-! ## The order of dates and times -/

theorem char_toNat_inj {a b : Char} (h : a.toNat = b.toNat) : a = b := by
  rw [← Char.ofNat_toNat a, ← Char.ofNat_toNat b, h]

theorem codesLt_irrefl (a : List Char) : codesLt a a = false := by
  induction a with
  | nil => rfl
  | cons x xs ih => simp [codesLt, ih]

theorem codesLt_trans {a b c : List Char} (h1 : codesLt a b = true) (h2 : codesLt b c = true) :
    codesLt a c = true := by
  induction a generalizing b c with
  | nil =>
    cases c with
    | nil => cases b <;> simp [codesLt] at h2
    | cons z zs => rfl
  | cons x xs ih =>
    cases b with
    | nil => simp [codesLt] at h1
    | cons y ys =>
      cases c with
      | nil => simp [codesLt] at h2
      | cons z zs =>
        simp only [codesLt] at h1 h2 ⊢
        by_cases hxy : x.toNat < y.toNat
        · by_cases hyz : y.toNat < z.toNat
          · have : x.toNat < z.toNat := by omega
            simp [this]
          · by_cases hzy : z.toNat < y.toNat
            · simp [hyz, hzy] at h2
            · have : x.toNat < z.toNat := by omega
              simp [this]
        · by_cases hyx : y.toNat < x.toNat
          · simp [hxy, hyx] at h1
          · simp only [hxy, hyx, ↓reduceIte] at h1
            by_cases hyz : y.toNat < z.toNat
            · have : x.toNat < z.toNat := by omega
              simp [this]
            · by_cases hzy : z.toNat < y.toNat
              · simp [hyz, hzy] at h2
              · simp only [hyz, hzy, ↓reduceIte] at h2
                have h3 : ¬ x.toNat < z.toNat := by omega
                have h4 : ¬ z.toNat < x.toNat := by omega
                simp only [h3, h4, ↓reduceIte]
                exact ih h1 h2

theorem codesLt_total {a b : List Char} (h1 : codesLt a b = false) (h2 : codesLt b a = false) :
    a = b := by
  induction a generalizing b with
  | nil =>
    cases b with
    | nil => rfl
    | cons y ys => simp [codesLt] at h1
  | cons x xs ih =>
    cases b with
    | nil => simp [codesLt] at h2
    | cons y ys =>
      simp only [codesLt] at h1 h2
      by_cases hxy : x.toNat < y.toNat
      · simp [hxy] at h1
      · by_cases hyx : y.toNat < x.toNat
        · simp [hyx] at h2
        · simp only [hxy, hyx, ↓reduceIte] at h1 h2
          have hc : x = y := char_toNat_inj (by omega)
          rw [hc, ih h1 h2]

theorem jsStringLt_irrefl (a : String) : jsStringLt a a = false := codesLt_irrefl _

theorem jsStringLt_trans {a b c : String} (h1 : jsStringLt a b = true)
    (h2 : jsStringLt b c = true) : jsStringLt a c = true := codesLt_trans h1 h2

theorem jsStringLt_total {a b : String} (h1 : jsStringLt a b = false)
    (h2 : jsStringLt b a = false) : a = b := by
  have := codesLt_total h1 h2
  cases a; cases b; simp_all

theorem jsStringLt_asymm {a b : String} (h : jsStringLt a b = true) : jsStringLt b a = false := by
  cases hba : jsStringLt b a with
  | false => rfl
  | true => have := jsStringLt_trans h hba; rw [jsStringLt_irrefl] at this; exact absurd this (by simp)

/-- The comparator of `getNextAvailableSlot` is positive exactly when its second
argument lies before its first. -/
theorem bySlotTime_eq (a b : Slot) : slotService.bySlotTime a b = slotBefore b a := by
  unfold slotService.bySlotTime slotBefore
  by_cases h : a.date = b.date
  · simp [h, jsStringLt_irrefl]
  · have h' : ¬ b.date = a.date := fun e => h e.symm
    simp [h, h']

theorem slotBefore_irrefl (a : Slot) : slotBefore a a = false := by
  simp [slotBefore, jsStringLt_irrefl]

theorem slotBefore_asymm {a b : Slot} (h : slotBefore a b = true) : slotBefore b a = false := by
  unfold slotBefore at h ⊢
  simp only [Bool.or_eq_true, Bool.and_eq_true, decide_eq_true_eq] at h
  simp only [Bool.or_eq_false_iff, Bool.and_eq_false_iff, decide_eq_false_iff_not]
  rcases h with h | ⟨he, h⟩
  · refine ⟨jsStringLt_asymm h, Or.inl ?_⟩
    intro e; rw [e, jsStringLt_irrefl] at h; exact absurd h (by simp)
  · refine ⟨by rw [he]; exact jsStringLt_irrefl _, Or.inr (jsStringLt_asymm h)⟩

/-- Not being before is transitive: the order of `(date, startTime)` is total. -/
theorem slotBefore_neg_trans {a b c : Slot} (h1 : slotBefore b a = false)
    (h2 : slotBefore c b = false) : slotBefore c a = false := by
  unfold slotBefore at h1 h2 ⊢
  simp only [Bool.or_eq_false_iff, Bool.and_eq_false_iff, decide_eq_false_iff_not] at h1 h2 ⊢
  obtain ⟨h1d, h1t⟩ := h1
  obtain ⟨h2d, h2t⟩ := h2
  -- dates: a.date ≤ b.date ≤ c.date
  have hd : jsStringLt c.date a.date = false := by
    cases hca : jsStringLt c.date a.date with
    | false => rfl
    | true =>
      exfalso
      cases hab : jsStringLt a.date b.date with
      | true =>
        have := jsStringLt_trans hca hab
        rw [h2d] at this; exact absurd this (by simp)
      | false =>
        have e : a.date = b.date := jsStringLt_total hab h1d
        rw [e, h2d] at hca; exact absurd hca (by simp)
  refine ⟨hd, ?_⟩
  by_cases hca : c.date = a.date
  · right
    -- then b.date equals both
    have hcb : jsStringLt b.date c.date = false := by
      rw [hca]; exact h1d
    have e1 : c.date = b.date := jsStringLt_total h2d hcb
    have e2 : b.date = a.date := by rw [← e1, hca]
    have t1 : jsStringLt b.startTime a.startTime = false := by
      rcases h1t with h | h
      · exact absurd e2 h
      · exact h
    have t2 : jsStringLt c.startTime b.startTime = false := by
      rcases h2t with h | h
      · exact absurd e1 h
      · exact h
    cases hct : jsStringLt c.startTime a.startTime with
    | false => rfl
    | true =>
      exfalso
      cases hab : jsStringLt a.startTime b.startTime with
      | true =>
        have := jsStringLt_trans hct hab
        rw [t2] at this; exact absurd this (by simp)
      | false =>
        have e : a.startTime = b.startTime := jsStringLt_total hab t1
        rw [e, t2] at hct; exact absurd hct (by simp)
  · left; exact hca

/-! ## Next available slot -/

theorem nextSlot_filter_iff (db : Db) (doctorId afterDate afterTime : String) (s : Slot) :
    s ∈ (db.getSlotsByDoctor doctorId).filter (fun slot =>
        if slot.isFull || slot.status ≠ "ACTIVE" then false
        else if jsStringLt afterDate slot.date then true
        else if slot.date = afterDate ∧ jsStringLt afterTime slot.startTime then true
        else false)
      ↔ s ∈ db.slots ∧ nextSlotCandidate doctorId afterDate afterTime s := by
  simp only [Db.getSlotsByDoctor, List.mem_filter, nextSlotCandidate, Slot.isFull,
    decide_eq_true_eq]
  by_cases hfull : s.currentCount ≥ s.maxCapacity
  · have : ¬ s.currentCount < s.maxCapacity := by omega
    simp [hfull, this]
  · have hlt : s.currentCount < s.maxCapacity := by omega
    by_cases hact : s.status = "ACTIVE"
    · by_cases hd : jsStringLt afterDate s.date = true
      · simp [hfull, hlt, hact, hd]
      · by_cases ht : s.date = afterDate ∧ jsStringLt afterTime s.startTime = true
        · simp [hfull, hlt, hact, hd, ht]
        · simp only [hfull, hlt, hact, hd, ht]
          simp
    · simp [hfull, hact]

theorem sortStable_bySlotTime_sorted (l : List Slot) :
    (sortStable slotService.bySlotTime l).Pairwise
      (fun a b => slotService.bySlotTime a b = false) :=
  sortStable_pairwise slotService.bySlotTime (fun _ => True)
    (fun a b _ _ h => by
      rw [bySlotTime_eq] at h ⊢
      exact slotBefore_asymm h)
    (fun a b c _ _ _ h1 h2 => by
      rw [bySlotTime_eq] at h1 h2 ⊢
      exact slotBefore_neg_trans h1 h2)
    l (fun _ _ => trivial)

theorem sortStable_eq_nil {α : Type} (after : α → α → Bool) (l : List α) :
    sortStable after l = [] ↔ l = [] := by
  constructor
  · intro h
    cases l with
    | nil => rfl
    | cons x xs =>
      have : x ∈ sortStable after (x :: xs) := (sortStable_mem after _ x).mpr (List.mem_cons_self _ _)
      rw [h] at this
      simp at this
  · intro h; rw [h]; rfl

/-- The lookup `getNextAvailableSlot` returns `null` exactly when no stored slot
is a candidate. -/
theorem getNextAvailableSlot_none_iff (db : Db) (doctorId afterDate afterTime : String) :
    slotService.getNextAvailableSlot db doctorId afterDate afterTime = none
      ↔ ∀ c ∈ db.slots, ¬ nextSlotCandidate doctorId afterDate afterTime c := by
  unfold slotService.getNextAvailableSlot
  simp only
  rw [List.head?_eq_none_iff, sortStable_eq_nil, List.eq_nil_iff_forall_not_mem]
  constructor
  · intro h c hc hcand
    exact h c ((nextSlot_filter_iff db doctorId afterDate afterTime c).mpr ⟨hc, hcand⟩)
  · intro h c hc
    have := (nextSlot_filter_iff db doctorId afterDate afterTime c).mp hc
    exact h c this.1 this.2

/-- C22: `getNextAvailableSlot(doctorId, afterDate, afterTime)` returns a stored
slot of that doctor with status ACTIVE, `currentCount < maxCapacity` and
`(date, startTime)` lexicographically strictly greater than
`(afterDate, afterTime)`, such that no slot meeting these conditions has a
smaller `(date, startTime)`; and it returns `null` if and only if no stored
slot meets them. -/
theorem getNextAvailableSlot_spec (db : Db) (doctorId afterDate afterTime : String) :
    (∀ s, slotService.getNextAvailableSlot db doctorId afterDate afterTime = some s →
        s ∈ db.slots ∧ nextSlotCandidate doctorId afterDate afterTime s
          ∧ ∀ c ∈ db.slots, nextSlotCandidate doctorId afterDate afterTime c →
              slotBefore c s = false)
      ∧ (slotService.getNextAvailableSlot db doctorId afterDate afterTime = none
          ↔ ∀ c ∈ db.slots, ¬ nextSlotCandidate doctorId afterDate afterTime c) := by
  refine ⟨?_, getNextAvailableSlot_none_iff db doctorId afterDate afterTime⟩
  unfold slotService.getNextAvailableSlot
  simp only
  intro s hs
  have hsorted := sortStable_bySlotTime_sorted ((db.getSlotsByDoctor doctorId).filter
    (fun slot =>
      if slot.isFull || slot.status ≠ "ACTIVE" then false
      else if jsStringLt afterDate slot.date then true
      else if slot.date = afterDate ∧ jsStringLt afterTime slot.startTime then true
      else false))
  generalize hl : sortStable slotService.bySlotTime ((db.getSlotsByDoctor doctorId).filter
    (fun slot =>
      if slot.isFull || slot.status ≠ "ACTIVE" then false
      else if jsStringLt afterDate slot.date then true
      else if slot.date = afterDate ∧ jsStringLt afterTime slot.startTime then true
      else false)) = sorted at hs hsorted
  cases sorted with
  | nil => simp at hs
  | cons x xs =>
    simp only [List.head?_cons, Option.some.injEq] at hs
    subst hs
    have hx : x ∈ sortStable slotService.bySlotTime ((db.getSlotsByDoctor doctorId).filter
        (fun slot =>
          if slot.isFull || slot.status ≠ "ACTIVE" then false
          else if jsStringLt afterDate slot.date then true
          else if slot.date = afterDate ∧ jsStringLt afterTime slot.startTime then true
          else false)) := by rw [hl]; exact List.mem_cons_self _ _
    rw [sortStable_mem, nextSlot_filter_iff] at hx
    refine ⟨hx.1, hx.2, ?_⟩
    intro c hc hcand
    have hcm : c ∈ x :: xs := by
      rw [← hl, sortStable_mem, nextSlot_filter_iff]
      exact ⟨hc, hcand⟩
    rw [List.pairwise_cons] at hsorted
    rcases List.mem_cons.mp hcm with rfl | hcx
    · exact slotBefore_irrefl _
    · have := hsorted.1 c hcx
      rw [bySlotTime_eq] at this
      exact this

/-- Witness for C22: after the 09:00 slot of `sampleRoomy` the next slot of doctor
`d1` is the 09:10 slot `s2`. -/
theorem getNextAvailableSlot_spec_witness :
    slotService.getNextAvailableSlot sampleRoomy "d1" "2024-01-15" "09:00" = some (laterSlot 0)
      ∧ nextSlotCandidate "d1" "2024-01-15" "09:00" (laterSlot 0) :=
  ⟨by decide,
   ((getNextAvailableSlot_spec sampleRoomy "d1" "2024-01-15" "09:00").1 (laterSlot 0)
      (by decide)).2.1⟩

/-- C21: on a stored slot holding at least one SCHEDULED token, `reallocateTokens`
throws `No available slots for reallocation` exactly when no stored slot of the
slot's doctor is ACTIVE, not full and strictly later than it; the call leaves
the store as it was, so no token's `slotId`, position or relocation fields
and no slot's `currentCount` change. -/
theorem reallocate_no_destination (db : Db) (slotId : String) (slot : Slot) (t : Token)
    (hslot : db.getSlot slotId = some slot)
    (ht : t ∈ db.getTokensBySlot slotId) (hst : t.status = "SCHEDULED") :
    ((reallocateTokens db slotId).1 = .error "No available slots for reallocation"
        ↔ ∀ c ∈ db.slots, ¬ nextSlotCandidate slot.doctorId slot.date slot.startTime c)
      ∧ (reallocateTokens db slotId).2 = db := by
  refine ⟨?_, (reallocateTokens_store db slotId).1⟩
  rw [← getNextAvailableSlot_none_iff db slot.doctorId slot.date slot.startTime]
  have hne : ¬ ((db.getTokensBySlot slotId).filter (fun t => t.status = "SCHEDULED")).length = 0 := by
    intro h0
    have hmem : t ∈ (db.getTokensBySlot slotId).filter (fun t => t.status = "SCHEDULED") :=
      List.mem_filter.mpr ⟨ht, by simpa using hst⟩
    rw [List.length_eq_zero] at h0
    rw [h0] at hmem
    simp at hmem
  unfold reallocateTokens
  simp only [hne, ↓reduceIte, slotService_getSlot_ok hslot]
  cases hnext : slotService.getNextAvailableSlot db slot.doctorId slot.date slot.startTime with
  | none => simp
  | some nextSlot =>
    simp only
    have hplain : ∀ t ∈ sliceFrom
        ((db.getTokensBySlot slotId).filter (fun t => t.status = "SCHEDULED"))
        nextSlot.availableCapacity, t.hasMethods = false := by
      intro t ht
      exact (getTokensBySlot_fields (List.mem_filter.mp (sliceFrom_mem ht)).1).2.2.2
    cases hts : sliceFrom ((db.getTokensBySlot slotId).filter
        (fun t => t.status = "SCHEDULED")) nextSlot.availableCapacity with
    | nil => simp [reallocateLoop]
    | cons t1 rest =>
      have h1 : t1.hasMethods = false := hplain t1 (by rw [hts]; exact List.mem_cons_self _ _)
      simp [reallocateLoop, Token.relocate, h1]

/-- Witness for C21: the only slot of `sampleFull` holds two SCHEDULED tokens and
its doctor has no later slot. -/
theorem reallocate_no_destination_witness :
    (reallocateTokens sampleFull "s1").1 = .error "No available slots for reallocation"
      ∧ (reallocateTokens sampleFull "s1").2 = sampleFull := by
  have h := reallocate_no_destination sampleFull "s1" { sampleSlot with currentCount := 2 }
    (_convertDocToToken (tokenData
      { setRank 0 (Token.new defaultPriority "a" 1000 "s1" "pA" "A" "WALKIN" none)
        with estimatedTime := some (EstTime.mk "2024-01-15" 540) }))
    (by decide) (by decide) (by decide)
  exact ⟨by decide, h.2⟩

/-! ## Relocation record -/

/-- A token created with the empty string as its slot id and relocated to `x`
and then to `y` would end with `originalSlotId = x`: the first record `''` is
falsy and the second call overwrites it.  No token is created so: the
constructor runs after `getSlot(slotId)` has found the slot, and the id of a
slot is a uuid. -/
theorem relocate_empty_origin_overwritten :
    (relocateAll (Token.new defaultPriority "a" 1000 "" "pA" "A" "WALKIN" none) ["x"]).map
        (fun t => t.originalSlotId) = .ok (some "")
      ∧ (relocateAll (Token.new defaultPriority "a" 1000 "" "pA" "A" "WALKIN" none)
          ["x", "y"]).map (fun t => (t.originalSlotId, t.slotId)) = .ok (some "x", "y") := by
  refine ⟨?_, ?_⟩ <;> decide

theorem relocate_keeps_record (t : Token) (s0 dest : String) (hm : t.hasMethods = true)
    (ho : t.originalSlotId = some s0) (hs0 : s0 ≠ "") :
    ∃ t1, t.relocate dest = .ok t1 ∧ t1.hasMethods = true ∧ t1.originalSlotId = some s0
      ∧ t1.isRelocated = true ∧ t1.slotId = dest := by
  refine ⟨{ t with originalSlotId := some s0, slotId := dest, isRelocated := true },
    ?_, hm, rfl, rfl, rfl⟩
  unfold Token.relocate
  simp [hm, ho, hs0]

theorem relocateAll_keeps_record (dests : List String) (t : Token) (s0 : String)
    (hm : t.hasMethods = true) (ho : t.originalSlotId = some s0) (hs0 : s0 ≠ "")
    (hr : t.isRelocated = true) :
    ∃ t1, relocateAll t dests = .ok t1 ∧ t1.originalSlotId = some s0
      ∧ t1.isRelocated = true ∧ t1.slotId = dests.getLastD t.slotId := by
  induction dests generalizing t with
  | nil => exact ⟨t, rfl, ho, hr, rfl⟩
  | cons d ds ih =>
    obtain ⟨t1, h1, hm1, ho1, hr1, hs1⟩ := relocate_keeps_record t s0 d hm ho hs0
    obtain ⟨t2, h2, ho2, hr2, hs2⟩ := ih t1 hm1 ho1 hr1
    refine ⟨t2, by simp only [relocateAll, h1, h2], ho2, hr2, ?_⟩
    rw [hs2, hs1]
    cases ds <;> simp [List.getLastD]

/-- C23: for every token created by the constructor in a slot `s0` (the id of
a slot is a uuid, not the empty string), after every non-empty sequence of
`relocate` calls (to `dest`, then to the slots of `dests`) `originalSlotId` is
`s0`, set by the first call and kept by the later ones, `isRelocated` is true
and `slotId` is the destination of the last call. -/
theorem relocate_permanent_record (cfg : PriorityConfig) (id : String) (now : Nat)
    (s0 patientId patientName type : String) (phoneNumber : Option String)
    (dest : String) (dests : List String) (hs0 : s0 ≠ "") :
    ∃ t1, relocateAll (Token.new cfg id now s0 patientId patientName type phoneNumber)
        (dest :: dests) = .ok t1
      ∧ t1.originalSlotId = some s0 ∧ t1.isRelocated = true
      ∧ t1.slotId = dests.getLastD dest := by
  have hfirst : (Token.new cfg id now s0 patientId patientName type phoneNumber).relocate dest
      = .ok { Token.new cfg id now s0 patientId patientName type phoneNumber with
              originalSlotId := some s0, slotId := dest, isRelocated := true } := rfl
  obtain ⟨t1, h1, ho, hr, hs⟩ := relocateAll_keeps_record dests
    { Token.new cfg id now s0 patientId patientName type phoneNumber with
      originalSlotId := some s0, slotId := dest, isRelocated := true } s0 rfl rfl hs0 rfl
  exact ⟨t1, by simp only [relocateAll, hfirst, h1], ho, hr, hs⟩

/-- Witness for C23: a token created in `s1`, moved to `s2` and then to `s3`. -/
theorem relocate_permanent_record_witness :
    ∃ t1, relocateAll (Token.new defaultPriority "a" 1000 "s1" "pA" "A" "WALKIN" none)
        ["s2", "s3"] = .ok t1
      ∧ t1.originalSlotId = some "s1" ∧ t1.isRelocated = true ∧ t1.slotId = "s3" :=
  relocate_permanent_record defaultPriority "a" 1000 "s1" "pA" "A" "WALKIN" none "s2" ["s3"]
    (by decide)

/-! ## The waitlist -/

theorem find_waitlist_map (l : List (String × List Token)) (slotId : String)
    (f : List Token → List Token) :
    (l.map (fun e => if e.1 = slotId then (e.1, f e.2) else e)).find? (fun e => e.1 = slotId)
      = (l.find? (fun e => e.1 = slotId)).map (fun e => (e.1, f e.2)) := by
  induction l with
  | nil => rfl
  | cons x xs ih =>
    by_cases hx : x.1 = slotId
    · simp [hx]
    · simp [hx, ih]

theorem find_waitlist_map_other (l : List (String × List Token)) (slotId other : String)
    (f : List Token → List Token) (h : other ≠ slotId) :
    (l.map (fun e => if e.1 = slotId then (e.1, f e.2) else e)).find? (fun e => e.1 = other)
      = l.find? (fun e => e.1 = other) := by
  induction l with
  | nil => rfl
  | cons x xs ih =>
    rw [List.map_cons, List.find?_cons, List.find?_cons, ih]
    by_cases hx : x.1 = slotId
    · have hno : ¬ x.1 = other := fun e => h (e.symm.trans hx)
      rw [if_pos hx]
      simp [hno]
    · rw [if_neg hx]

theorem getWaitlist_addToWaitlist (db : Db) (slotId : String) (t : Token) :
    (db.addToWaitlist slotId t).getWaitlist slotId = db.getWaitlist slotId ++ [t] := by
  unfold Db.addToWaitlist Db.getWaitlist
  by_cases h : db.waitlist.any (fun e => e.1 = slotId) = true
  · rw [if_pos h]
    simp only
    rw [find_waitlist_map db.waitlist slotId (fun l => l ++ [t])]
    cases hf : db.waitlist.find? (fun e => e.1 = slotId) with
    | some e => rfl
    | none =>
      exfalso
      rw [List.find?_eq_none] at hf
      rw [List.any_eq_true] at h
      obtain ⟨x, hx, hx1⟩ := h
      exact hf x hx hx1
  · rw [if_neg h]
    have hnone : db.waitlist.find? (fun e => e.1 = slotId) = none := by
      rw [List.find?_eq_none]
      intro x hx hx1
      exact h (List.any_eq_true.mpr ⟨x, hx, hx1⟩)
    simp only
    rw [List.find?_append, hnone]
    simp

theorem getWaitlist_setWaitlistHead (db : Db) (slotId : String) (t first : Token)
    (rest : List Token) (h : db.getWaitlist slotId = first :: rest) :
    (setWaitlistHead db slotId t).getWaitlist slotId = t :: rest := by
  unfold Db.getWaitlist at h ⊢
  unfold setWaitlistHead
  simp only
  rw [find_waitlist_map db.waitlist slotId (fun l => t :: l.tail)]
  cases hf : db.waitlist.find? (fun e => e.1 = slotId) with
  | some e =>
    rw [hf] at h
    simp only at h
    simp [h]
  | none => rw [hf] at h; simp at h

theorem getWaitlist_removeFromWaitlist (db : Db) (slotId tokenId : String) :
    (db.removeFromWaitlist slotId tokenId).getWaitlist slotId
      = removeFirstById tokenId (db.getWaitlist slotId) := by
  unfold Db.getWaitlist Db.removeFromWaitlist
  simp only
  rw [find_waitlist_map db.waitlist slotId (removeFirstById tokenId)]
  cases db.waitlist.find? (fun e => e.1 = slotId) with
  | some e => rfl
  | none => rfl

theorem saveToken_waitlist (db : Db) (t : Token) : (db.saveToken t).waitlist = db.waitlist := by
  unfold Db.saveToken; split <;> rfl

theorem saveSlot_waitlist (db : Db) (s : Slot) : (db.saveSlot s).waitlist = db.waitlist := by
  unfold Db.saveSlot; split <;> rfl

theorem getWaitlist_of_waitlist {db db1 : Db} (h : db1.waitlist = db.waitlist) (slotId : String) :
    db1.getWaitlist slotId = db.getWaitlist slotId := by
  unfold Db.getWaitlist; rw [h]

theorem saveToken_stores (db : Db) (t : Token) :
    ∃ d ∈ (db.saveToken t).tokens, d._id = t.id ∧ d.status = t.status ∧ d.slotId = t.slotId := by
  unfold Db.saveToken
  by_cases h : db.tokens.any (fun d => d._id = t.id) = true
  · simp only [h, ↓reduceIte]
    rw [List.any_eq_true] at h
    obtain ⟨x, hx, hx1⟩ := h
    have hx1 : x._id = t.id := by simpa using hx1
    refine ⟨x.update (tokenData t), ?_, rfl, rfl, rfl⟩
    exact List.mem_map.mpr ⟨x, hx, by simp [hx1]⟩
  · simp only [h, ↓reduceIte]
    exact ⟨tokenData t, by simp, rfl, rfl, rfl⟩

/-- C24: the waitlist of a slot is first in, first out.  `addToWaitlist` puts
the token behind the entries already waiting; a `_promoteFromWaitlist` that
promotes takes the first entry, stores it as SCHEDULED and leaves the others
in their order, whatever the categories and scores of the entries. -/
theorem waitlist_fifo (db db1 : Db) (slotId : String) (slot : Slot) (first : Token)
    (rest : List Token) (added : Token)
    (hslot : db.getSlot slotId = some slot) (hnf : slot.isFull = false)
    (hw : db.getWaitlist slotId = first :: rest)
    (hp : _promoteFromWaitlist db slotId = (.ok (), db1)) :
    db1.getWaitlist slotId = rest
      ∧ (∃ d ∈ db1.tokens, d._id = first.id ∧ d.status = "SCHEDULED")
      ∧ (db.addToWaitlist slotId added).getWaitlist slotId = first :: rest ++ [added]
      ∧ (db1.addToWaitlist slotId added).getWaitlist slotId = rest ++ [added] := by
  have hmain : db1.getWaitlist slotId = rest
      ∧ ∃ d ∈ db1.tokens, d._id = first.id ∧ d.status = "SCHEDULED" := by
    unfold _promoteFromWaitlist at hp
    rw [slotService_getSlot_ok hslot, hw] at hp
    simp only [hnf, Bool.false_eq_true, ↓reduceIte] at hp
    obtain ⟨i, hi⟩ := assignTokenNumber_eq db { first with status := "SCHEDULED" } slotId
    rw [hi] at hp
    split at hp
    · simp at hp
    · next pt hcalc =>
      obtain ⟨est, rfl⟩ := calculateEstimatedTime_ok hcalc
      split at hp
      · simp at hp
      · next slot1 db2 hupd =>
        simp only [Prod.mk.injEq, true_and] at hp
        -- the store after the capacity update
        have hdb2 : db2 = ((setWaitlistHead db slotId
            { setRank i { first with status := "SCHEDULED" } with estimatedTime := est }).saveToken
            { setRank i { first with status := "SCHEDULED" } with estimatedTime := est }).saveSlot
              slot1 := by
          have hg : ((setWaitlistHead db slotId
              { setRank i { first with status := "SCHEDULED" } with estimatedTime := est }).saveToken
              { setRank i { first with status := "SCHEDULED" } with estimatedTime := est }).getSlot
                slotId = some slot := by
            rw [getSlot_saveToken]; exact hslot
          rw [updateSlotCapacity_found true hg] at hupd
          simp only [↓reduceIte, Prod.mk.injEq, Except.ok.injEq] at hupd
          rw [← hupd.2, hupd.1]
        rw [← hp, hdb2]
        constructor
        · rw [getWaitlist_removeFromWaitlist,
            getWaitlist_of_waitlist ((saveSlot_waitlist _ _).trans (saveToken_waitlist _ _)),
            getWaitlist_setWaitlistHead db slotId _ first rest hw]
          simp [removeFirstById, setRank]
        · obtain ⟨d, hd, hid, hst, _⟩ := saveToken_stores (setWaitlistHead db slotId
            { setRank i { first with status := "SCHEDULED" } with estimatedTime := est })
            { setRank i { first with status := "SCHEDULED" } with estimatedTime := est }
          refine ⟨d, ?_, hid, hst⟩
          show d ∈ (Db.saveSlot _ slot1).tokens
          rw [saveSlot_tokens]
          exact hd
  refine ⟨hmain.1, hmain.2, ?_, ?_⟩
  · rw [getWaitlist_addToWaitlist, hw]
  · rw [getWaitlist_addToWaitlist, hmain.1]

/-- Witness for C24: with emergency X and walk-in Y waiting in that order, a
promotion takes X and leaves Y. -/
theorem waitlist_fifo_witness :
    (sampleWaiting.getWaitlist "s1").map (fun t => t.patientName) = ["X", "Y"]
      ∧ ((_promoteFromWaitlist sampleWaiting "s1").2.getWaitlist "s1").map
          (fun t => t.patientName) = ["Y"] := by
  refine ⟨by decide, ?_⟩
  have h := (waitlist_fifo sampleWaiting (_promoteFromWaitlist sampleWaiting "s1").2 "s1"
    { sampleSlot with currentCount := 1 }
    { Token.new defaultPriority "x" 5000 "s1" "pX" "X" "EMERGENCY" none with status := "WAITING" }
    [{ Token.new defaultPriority "y" 6000 "s1" "pY" "Y" "WALKIN" none with status := "WAITING" }]
    { Token.new defaultPriority "z" 7000 "s1" "pZ" "Z" "WALKIN" none with status := "WAITING" }
    (by decide) (by decide) (by decide) (by decide)).1
  rw [h]
  decide

/-! ## What an admission ranks and what it stores -/

/-- C25 (failing input): the slot of `sampleCompleted` holds one token, follow-up
A, COMPLETED under `T001`, and no SCHEDULED or WAITING token.  The admission of
walk-in B ranks A first and B second: B is returned and stored with position 2
and number `T002`, where `_reorderSlotTokens` on the same store ranks B alone, at
position 1.  In general the position of an admitted token is 1 plus the number
of stored tokens of the slot that are neither CANCELLED nor NO_SHOW, IN_PROGRESS
and COMPLETED ones included. -/
theorem admission_ranks_completed_tokens :
    (∀ (cfg : PriorityConfig) (db db1 : Db) (newId : String) (now : Nat)
        (slotId patientId patientName type : String) (phoneNumber : Option String)
        (tok : Token),
        allocateToken cfg db newId now slotId patientId patientName type phoneNumber
            = (.ok tok, db1) →
          tok.position = some (((db.getTokensBySlot slotId).filter
            (fun t => t.status ≠ "CANCELLED" ∧ t.status ≠ "NO_SHOW")).length + 1))
      ∧ (rankedWith sampleCompleted
            (Token.new defaultPriority "b" 2000 "s1" "pB" "B" "WALKIN" none) "s1").map
          (fun e => (e.2.patientName, e.2.status, e.2.position))
        = [("A", "COMPLETED", some 1), ("B", "SCHEDULED", some 2)]
      ∧ (∃ tok, (allocateToken defaultPriority sampleCompleted "b" 2000 "s1" "pB" "B" "WALKIN"
            none).1 = .ok tok ∧ tok.position = some 2 ∧ tok.tokenNumber = some "T002")
      ∧ ((_reorderSlotTokens (allocateToken defaultPriority sampleCompleted "b" 2000 "s1" "pB"
            "B" "WALKIN" none).2 "s1").1.map
          (fun ranked => ranked.map (fun t => (t.patientName, t.position))))
        = .ok [("B", some 1)] := by
  refine ⟨?_, by decide, ⟨_, rfl, by decide, by decide⟩, by decide⟩
  intro cfg db db1 newId now slotId patientId patientName type phoneNumber tok h
  obtain ⟨s, est, _, _, htok, _⟩ := allocateToken_ok_inv cfg h
  rw [htok]
  rfl

/-- C27 (failing input): the record `db.saveToken` writes for a token built by
the constructor and ranked carries neither the score nor the position: its
`priority` and `queuePosition` are absent whatever `priorityScore` and
`position` the token has, and every token `db.getTokensBySlot` returns has no
`priorityScore` and no `position`.  For walk-in A admitted to the empty sample
slot the token has score `100 + 1000 / 10^9` and position 1, the record none. -/
theorem saved_record_lacks_rank_and_score :
    (∀ (cfg : PriorityConfig) (id : String) (now : Nat)
        (slotId patientId patientName type : String) (phoneNumber : Option String)
        (index : Nat) (est : Option EstTime),
        (tokenData { setRank index
              (Token.new cfg id now slotId patientId patientName type phoneNumber)
            with estimatedTime := est }).priority = none
          ∧ (tokenData { setRank index
              (Token.new cfg id now slotId patientId patientName type phoneNumber)
            with estimatedTime := est }).queuePosition = none)
      ∧ (∀ (db : Db) (slotId : String), ∀ t ∈ db.getTokensBySlot slotId,
          t.priorityScore = none ∧ t.position = none)
      ∧ (∃ tok, (allocateToken defaultPriority sampleEmpty "a" 1000 "s1" "pA" "A" "WALKIN" none).1
            = .ok tok ∧ tok.priorityScore = some 100000001000 ∧ tok.position = some 1)
      ∧ sampleOne.tokens.map (fun d => (d.priority, d.queuePosition)) = [(none, none)]
      ∧ (sampleOne.getTokensBySlot "s1").map (fun t => (t.priorityScore, t.position))
        = [(none, none)] := by
  refine ⟨fun _ _ _ _ _ _ _ _ _ _ => ⟨rfl, rfl⟩, ?_, ⟨_, rfl, by decide, by decide⟩,
    by decide, by decide⟩
  intro db slotId t ht
  exact ⟨(getTokensBySlot_fields ht).2.1, (getTokensBySlot_fields ht).2.2.1⟩

/-! ## The display number -/

/-- One step of reading a numeral: the fold of `digitsValue`. -/
theorem digitsValue_eq_foldl (cs : List Char) :
    digitsValue cs = cs.foldl (fun acc c =>
      match acc with
      | some n => if c.isDigit then some (n * 10 + (c.toNat - 48)) else none
      | none => none) (some 0) := by
  cases cs <;> rfl

theorem digitChar_reads (d : Nat) (h : d < 10) :
    (Nat.digitChar d).isDigit = true ∧ (Nat.digitChar d).toNat - 48 = d := by
  interval_cases d <;> exact ⟨by decide, by decide⟩

theorem foldl_toDigitsCore (fuel n : Nat) (ds : List Char) (h : n < fuel) :
    (Nat.toDigitsCore 10 fuel n ds).foldl (fun acc c =>
      match acc with
      | some n => if c.isDigit then some (n * 10 + (c.toNat - 48)) else none
      | none => none) (some 0)
      = ds.foldl (fun acc c =>
      match acc with
      | some n => if c.isDigit then some (n * 10 + (c.toNat - 48)) else none
      | none => none) (some n) := by
  induction fuel generalizing n ds with
  | zero => omega
  | succ fuel ih =>
    unfold Nat.toDigitsCore
    obtain ⟨hd, hv⟩ := digitChar_reads (n % 10) (Nat.mod_lt _ (by decide))
    by_cases h0 : n / 10 = 0
    · simp only [h0, ↓reduceIte, List.foldl_cons, hd, hv]
      have : n % 10 = n := by omega
      simp [this]
    · simp only [h0, ↓reduceIte]
      rw [ih (n / 10) _ (by omega)]
      simp only [List.foldl_cons, hd, ↓reduceIte, hv]
      have : n / 10 * 10 + n % 10 = n := by omega
      rw [this]

theorem digitsValue_repr (p : Nat) : digitsValue (toString p).data = some p := by
  rw [digitsValue_eq_foldl]
  show List.foldl _ (some 0) (Nat.toDigitsCore 10 (p + 1) p []) = some p
  rw [foldl_toDigitsCore (p + 1) p [] (Nat.lt_succ_self p)]
  rfl

theorem digitsValue_zeros (k : Nat) (cs : List Char) :
    digitsValue (List.replicate k '0' ++ cs) = digitsValue cs := by
  rw [digitsValue_eq_foldl, digitsValue_eq_foldl]
  induction k with
  | zero => rfl
  | succ k ih =>
    rw [List.replicate_succ, List.cons_append, List.foldl_cons]
    exact ih

theorem tokenNumberOf_data (p : Nat) :
    (tokenNumberOf p).data
      = 'T' :: (List.replicate (3 - (toString p).length) '0' ++ (toString p).data) := rfl

theorem toString_length_le (p : Nat) (h : p ≤ 999) : (toString p).length ≤ 3 :=
  Nat.repr_length p 3 (by decide) (by omega)

/-- C26 (counterexample): the token ranked at list index 999 gets position 1000
and the display number `T1000`, five characters wide, where the token at
index 0 gets `T001`, four characters wide. -/
theorem display_number_of_rank_1000 :
    (setRank 999 (Token.new defaultPriority "a" 1000 "s1" "pA" "A" "WALKIN" none)).position
        = some 1000
      ∧ (setRank 999 (Token.new defaultPriority "a" 1000 "s1" "pA" "A" "WALKIN" none)).tokenNumber
        = some "T1000"
      ∧ ("T1000" : String).length = 5
      ∧ (setRank 0 (Token.new defaultPriority "a" 1000 "s1" "pA" "A" "WALKIN" none)).tokenNumber
        = some "T001"
      ∧ ("T001" : String).length = 4 := by
  refine ⟨rfl, ?_, by decide, ?_, by decide⟩
  · show some (tokenNumberOf 1000) = some "T1000"
    exact congrArg some (by decide)
  · show some (tokenNumberOf 1) = some "T001"
    exact congrArg some (by decide)

/-- C26 amended: a ranking step gives a token the position `p = index + 1` and
the display number `T` followed by the decimal digits of `p` left-padded with
zeros to three digits; reading the digits back yields `p`, and for `p ≤ 999`
the display number is four characters wide. -/
theorem display_number_renders_position (index : Nat) (token : Token)
    (h : index + 1 ≤ 999) :
    (setRank index token).position = some (index + 1)
      ∧ ∃ num, (setRank index token).tokenNumber = some num
          ∧ num.data = 'T' :: (List.replicate (3 - (toString (index + 1)).length) '0'
              ++ (toString (index + 1)).data)
          ∧ 3 ≤ num.data.tail.length
          ∧ digitsValue num.data.tail = some (index + 1)
          ∧ num.length = 4 := by
  refine ⟨rfl, tokenNumberOf (index + 1), rfl, tokenNumberOf_data _, ?_, ?_, ?_⟩
  · rw [tokenNumberOf_data]
    simp only [List.tail_cons, List.length_append, List.length_replicate]
    have : (toString (index + 1)).data.length = (toString (index + 1)).length := rfl
    omega
  · rw [tokenNumberOf_data, List.tail_cons, digitsValue_zeros, digitsValue_repr]
  · have hl := toString_length_le (index + 1) h
    show (tokenNumberOf (index + 1)).data.length = 4
    rw [tokenNumberOf_data]
    simp only [List.length_cons, List.length_append, List.length_replicate]
    have : (toString (index + 1)).data.length = (toString (index + 1)).length := rfl
    omega

/-- Witness for C26: the twelfth token of a ranking gets position 12 and a
display number of four characters whose digits read back as 12. -/
theorem display_number_renders_position_witness :
    (11 + 1 ≤ 999)
      ∧ (setRank 11 (Token.new defaultPriority "a" 1000 "s1" "p1" "A" "WALKIN" none)).position
          = some (11 + 1)
      ∧ ∃ num, (setRank 11
            (Token.new defaultPriority "a" 1000 "s1" "p1" "A" "WALKIN" none)).tokenNumber = some num
          ∧ num.data = 'T' :: (List.replicate (3 - (toString (11 + 1)).length) '0'
              ++ (toString (11 + 1)).data)
          ∧ 3 ≤ num.data.tail.length
          ∧ digitsValue num.data.tail = some (11 + 1)
          ∧ num.length = 4 :=
  ⟨by decide, display_number_renders_position 11
    (Token.new defaultPriority "a" 1000 "s1" "p1" "A" "WALKIN" none) (by decide)⟩

/-- Whatever the index, the digits of the display number read back as the
position. -/
theorem display_number_reads_back (index : Nat) (token : Token) :
    ∃ num, (setRank index token).tokenNumber = some num
      ∧ digitsValue num.data.tail = some (index + 1) :=
  ⟨tokenNumberOf (index + 1), rfl, by
    rw [tokenNumberOf_data, List.tail_cons, digitsValue_zeros, digitsValue_repr]⟩

/-! ## The loop of `_reorderSlotTokens`, described -/

theorem rerankStep_eq (db : Db) (k : Nat) (t : Token) :
    ∃ est, rerankStep db k t = { setRank k t with estimatedTime := est } := by
  unfold rerankStep
  cases h : _calculateEstimatedTime db (setRank k t) with
  | error e => exact ⟨(setRank k t).estimatedTime, rfl⟩
  | ok r => exact calculateEstimatedTime_ok h

theorem rerankStep_id (db : Db) (k : Nat) (t : Token) : (rerankStep db k t).id = t.id := by
  obtain ⟨est, h⟩ := rerankStep_eq db k t
  rw [h]; rfl

theorem rerankStep_rankOf (db : Db) (k : Nat) (t : Token) :
    rankOf (rerankStep db k t) = rankOf (setRank k t) := by
  obtain ⟨est, h⟩ := rerankStep_eq db k t
  rw [h]; rfl

theorem rerankStep_of_ok {db : Db} {k : Nat} {t r : Token}
    (h : _calculateEstimatedTime db (setRank k t) = .ok r) : rerankStep db k t = r := by
  unfold rerankStep; rw [h]

theorem calculateEstimatedTime_slots {db db1 : Db} (h : db1.slots = db.slots) (t : Token) :
    _calculateEstimatedTime db1 t = _calculateEstimatedTime db t := by
  unfold _calculateEstimatedTime slotService.getSlot Db.getSlot
  rw [h]

theorem rerankStep_slots {db db1 : Db} (h : db1.slots = db.slots) (k : Nat) (t : Token) :
    rerankStep db1 k t = rerankStep db k t := by
  unfold rerankStep
  rw [calculateEstimatedTime_slots h]

theorem rerankFrom_slots {db db1 : Db} (h : db1.slots = db.slots) (k : Nat) (ts : List Token) :
    rerankFrom db1 k ts = rerankFrom db k ts := by
  induction ts generalizing k with
  | nil => rfl
  | cons t rest ih => simp only [rerankFrom, rerankStep_slots h, ih]

theorem rerankFrom_ids (db : Db) (k : Nat) (ts : List Token) :
    (rerankFrom db k ts).map (fun t => t.id) = ts.map (fun t => t.id) := by
  induction ts generalizing k with
  | nil => rfl
  | cons t rest ih => simp only [rerankFrom, List.map_cons, rerankStep_id, ih]

theorem rerankFrom_rankOf (db : Db) (k : Nat) (ts : List Token) :
    (rerankFrom db k ts).map rankOf
      = (assignFrom k (ts.map (fun t => (false, t)))).map (fun e => rankOf e.2) := by
  induction ts generalizing k with
  | nil => rfl
  | cons t rest ih =>
    simp only [rerankFrom, List.map_cons, assignFrom, rerankStep_rankOf, ih]

theorem saveToken_present {db : Db} {t : Token} (h : ∃ d ∈ db.tokens, d._id = t.id) :
    db.saveToken t
      = { db with tokens := db.tokens.map (fun d =>
            if d._id = t.id then d.update (tokenData t) else d) } := by
  unfold Db.saveToken
  have : db.tokens.any (fun d => decide (d._id = t.id)) = true := by
    rw [List.any_eq_true]
    obtain ⟨d, hd, hid⟩ := h
    exact ⟨d, hd, by simpa using hid⟩
  rw [if_pos this]

theorem saveToken_id_present {db : Db} (t : Token) {x : String}
    (h : ∃ d ∈ db.tokens, d._id = x) : ∃ d ∈ (db.saveToken t).tokens, d._id = x := by
  obtain ⟨d, hd, hid⟩ := h
  by_cases hx : d._id = t.id
  · rw [saveToken_present ⟨d, hd, hx⟩]
    refine ⟨d.update (tokenData t), List.mem_map.mpr ⟨d, hd, if_pos hx⟩, ?_⟩
    show t.id = x
    rw [← hx, hid]
  · exact ⟨d, saveToken_keeps_other hd hx, hid⟩

theorem applyRanked_nil (d : TokenDoc) : applyRanked [] d = d := rfl

theorem applyRanked_id (ranked : List Token) (d : TokenDoc) :
    (applyRanked ranked d)._id = d._id := by
  unfold applyRanked
  cases h : ranked.find? (fun t => t.id = d._id) with
  | none => rfl
  | some t =>
    have := List.find?_some h
    show t.id = d._id
    simpa using this

theorem applyRanked_cons (t : Token) (rest : List Token) (d : TokenDoc)
    (hn : ∀ r ∈ rest, r.id ≠ t.id) :
    applyRanked rest (if d._id = t.id then d.update (tokenData t) else d)
      = applyRanked (t :: rest) d := by
  by_cases hd : d._id = t.id
  · rw [if_pos hd]
    have h1 : rest.find? (fun r => r.id = (d.update (tokenData t))._id) = none := by
      rw [List.find?_eq_none]
      intro r hr
      have : (d.update (tokenData t))._id = t.id := rfl
      rw [this]
      simpa using hn r hr
    have h2 : (t :: rest).find? (fun r => r.id = d._id) = some t := by
      rw [List.find?_cons]
      simp [hd]
    unfold applyRanked
    rw [h1, h2]
  · rw [if_neg hd]
    have h2 : (t :: rest).find? (fun r => r.id = d._id) = rest.find? (fun r => r.id = d._id) := by
      rw [List.find?_cons]
      have : ¬ t.id = d._id := fun e => hd e.symm
      simp [this]
    unfold applyRanked
    rw [h2]

/-- The loop of `_reorderSlotTokens` in closed form: on tokens of a slot that
exists, with distinct ids that are all in the store, it returns the ranked
objects and leaves each stored document updated from the ranked object with
its id. -/
theorem reorderLoop_desc (slotId : String) (s : Slot) (ts : List Token) (db : Db) (k : Nat)
    (done : List Token) (hs : db.getSlot slotId = some s)
    (hts : ∀ t ∈ ts, t.slotId = slotId) (hnd : (ts.map (fun t => t.id)).Nodup)
    (hin : ∀ t ∈ ts, ∃ d ∈ db.tokens, d._id = t.id) :
    reorderLoop db k done ts
      = (.ok (done ++ rerankFrom db k ts),
          { db with tokens := db.tokens.map (applyRanked (rerankFrom db k ts)) }) := by
  induction ts generalizing db k done with
  | nil =>
    simp only [reorderLoop, rerankFrom, List.append_nil]
    have : db.tokens.map (applyRanked []) = db.tokens := by
      rw [List.map_congr_left (fun d _ => applyRanked_nil d)]
      exact List.map_id _
    rw [this]
  | cons t rest ih =>
    have hslot : db.getSlot (setRank k t).slotId = some s := by
      show db.getSlot t.slotId = some s
      rw [hts t (List.mem_cons_self _ _)]; exact hs
    obtain ⟨est, hcalc⟩ := calculateEstimatedTime_found hslot
    have hstep : rerankStep db k t = { setRank k t with estimatedTime := est } :=
      rerankStep_of_ok hcalc
    unfold reorderLoop
    rw [hcalc]
    simp only
    rw [← hstep]
    have hpres : ∃ d ∈ db.tokens, d._id = (rerankStep db k t).id := by
      rw [rerankStep_id]; exact hin t (List.mem_cons_self _ _)
    rw [List.map_cons, List.nodup_cons] at hnd
    rw [ih (db.saveToken (rerankStep db k t)) (k + 1) (done ++ [rerankStep db k t])
      (by rw [getSlot_saveToken]; exact hs)
      (fun x hx => hts x (List.mem_cons_of_mem _ hx)) hnd.2
      (fun x hx => saveToken_id_present _ (hin x (List.mem_cons_of_mem _ hx)))]
    rw [rerankFrom_slots (saveToken_slots db _)]
    have hn : ∀ r ∈ rerankFrom db (k + 1) rest, r.id ≠ (rerankStep db k t).id := by
      intro r hr he
      rw [rerankStep_id] at he
      apply hnd.1
      rw [← he, ← rerankFrom_ids db (k + 1) rest]
      exact List.mem_map.mpr ⟨r, hr, rfl⟩
    rw [saveToken_present hpres]
    simp only [rerankFrom, List.append_assoc, List.singleton_append, List.map_map]
    congr 2
    apply List.map_congr_left
    intro d _
    exact applyRanked_cons _ _ d hn

/-! ## Re-ranking twice -/

theorem reorderList_docs (db : Db) (slotId : String) :
    reorderList db slotId
      = (db.tokens.filter (rankedDoc slotId)).map _convertDocToToken := by
  rw [reorderList_eq]
  unfold Db.getTokensBySlot
  rw [List.filter_map, List.filter_filter]
  congr 1
  apply List.filter_congr
  intro d _
  simp [rankedDoc, _convertDocToToken, Bool.and_comm]

theorem nodup_map_inj {α β : Type} {f : α → β} {l : List α} (h : (l.map f).Nodup)
    {a b : α} (ha : a ∈ l) (hb : b ∈ l) (hab : f a = f b) : a = b :=
  List.inj_on_of_nodup_map h ha hb hab

theorem rerankFrom_mem {db : Db} {k : Nat} {ts : List Token} {t : Token}
    (h : t ∈ rerankFrom db k ts) : ∃ i, ∃ t0 ∈ ts, t = rerankStep db i t0 := by
  induction ts generalizing k with
  | nil => simp [rerankFrom] at h
  | cons x xs ih =>
    simp only [rerankFrom, List.mem_cons] at h
    rcases h with h | h
    · exact ⟨k, x, List.mem_cons_self _ _, h⟩
    · obtain ⟨i, t0, ht0, he⟩ := ih h
      exact ⟨i, t0, List.mem_cons_of_mem _ ht0, he⟩

theorem update_rerank (d : TokenDoc) (k : Nat) (est : Option EstTime) :
    d.update (tokenData { setRank k (_convertDocToToken d) with estimatedTime := est })
      = { d with tokenNumber := some (tokenNumberOf (k + 1)),
                 estimatedTime := est <|> d.estimatedTime } := by
  cases d with
  | mk i tn pid pn sid ty pr qp et st =>
    cases pr <;> cases qp <;> rfl

theorem update_idem (d u : TokenDoc) : (d.update u).update u = d.update u := by
  cases u with
  | mk i tn pid pn sid ty pr qp et st =>
    cases tn <;> cases pr <;> cases qp <;> cases et <;> rfl

/-- With distinct ids in the store, a stored document changes at most in its
display number and its estimate when the ranked objects are saved. -/
theorem applyRanked_fields (db : Db) (slotId : String)
    (hnd : (db.tokens.map (fun d => d._id)).Nodup) (k : Nat) (d : TokenDoc)
    (hd : d ∈ db.tokens) :
    ∃ tn est, applyRanked (rerankFrom db k
        ((db.tokens.filter (rankedDoc slotId)).map _convertDocToToken)) d
      = { d with tokenNumber := tn, estimatedTime := est } := by
  unfold applyRanked
  cases h : (rerankFrom db k
      ((db.tokens.filter (rankedDoc slotId)).map _convertDocToToken)).find?
        (fun t => t.id = d._id) with
  | none => exact ⟨d.tokenNumber, d.estimatedTime, rfl⟩
  | some t =>
    have hid : t.id = d._id := by simpa using List.find?_some h
    obtain ⟨i, t0, ht0, he⟩ := rerankFrom_mem (List.mem_of_find?_eq_some h)
    obtain ⟨d0, hd0, rfl⟩ := List.mem_map.mp ht0
    have hd0 := (List.mem_filter.mp hd0).1
    have : d0 = d := by
      apply nodup_map_inj hnd hd0 hd
      show d0._id = d._id
      rw [← hid, he, rerankStep_id]
      rfl
    subst this
    obtain ⟨est, hest⟩ := rerankStep_eq db i (_convertDocToToken d0)
    rw [he, hest]
    exact ⟨_, _, update_rerank d0 i est⟩

theorem rerankStep_forget {db : Db} {s : Slot} (k : Nat) (d : TokenDoc)
    (tn : Option String) (est : Option EstTime) (hs : db.getSlot d.slotId = some s) :
    rerankStep db k (_convertDocToToken { d with tokenNumber := tn, estimatedTime := est })
      = rerankStep db k (_convertDocToToken d) := by
  have h1 : db.getSlot (setRank k (_convertDocToToken
      { d with tokenNumber := tn, estimatedTime := est })).slotId = some s := hs
  have h2 : db.getSlot (setRank k (_convertDocToToken d)).slotId = some s := hs
  unfold rerankStep _calculateEstimatedTime
  rw [slotService_getSlot_ok h1, slotService_getSlot_ok h2]
  rfl

theorem rerankFrom_congr (db : Db) (f g : TokenDoc → Token) (l : List TokenDoc)
    (h : ∀ d ∈ l, ∀ k, rerankStep db k (f d) = rerankStep db k (g d)) (k : Nat) :
    rerankFrom db k (l.map f) = rerankFrom db k (l.map g) := by
  induction l generalizing k with
  | nil => rfl
  | cons x xs ih =>
    simp only [List.map_cons, rerankFrom]
    rw [h x (List.mem_cons_self _ _) k,
      ih (fun d hd => h d (List.mem_cons_of_mem _ hd)) (k + 1)]

theorem applyRanked_idem (ranked : List Token) (d : TokenDoc) :
    applyRanked ranked (applyRanked ranked d) = applyRanked ranked d := by
  have hid := applyRanked_id ranked d
  generalize hx : applyRanked ranked d = x at hid
  unfold applyRanked at hx ⊢
  rw [hid]
  cases h : ranked.find? (fun t => t.id = d._id) with
  | none => rw [h] at hx
  | some t =>
    rw [h] at hx
    simp only at hx ⊢
    rw [← hx, update_idem]

/-- The closed form of `_reorderSlotTokens` on a slot that exists, in a store
with distinct ids. -/
theorem reorderSlotTokens_desc (db : Db) (slotId : String) (s : Slot)
    (hs : db.getSlot slotId = some s) (hnd : (db.tokens.map (fun d => d._id)).Nodup) :
    _reorderSlotTokens db slotId
      = (.ok (rerankFrom db 0 ((db.tokens.filter (rankedDoc slotId)).map _convertDocToToken)),
          { db with tokens := db.tokens.map (applyRanked (rerankFrom db 0
              ((db.tokens.filter (rankedDoc slotId)).map _convertDocToToken))) }) := by
  unfold _reorderSlotTokens
  have hts : ∀ t ∈ reorderList db slotId, t.slotId = slotId :=
    fun t ht => (reorderList_fields ht).1
  rw [reorderList_docs] at hts ⊢
  have h := reorderLoop_desc slotId s _ db 0 [] hs hts
    (by
      rw [List.map_map]
      exact List.Nodup.sublist (List.Sublist.map _ (List.filter_sublist _)) hnd)
    (by
      intro t ht
      obtain ⟨d, hd, rfl⟩ := List.mem_map.mp ht
      exact ⟨d, (List.mem_filter.mp hd).1, rfl⟩)
  rw [h, List.nil_append]

theorem reorderSlotTokens_missing (db : Db) (slotId : String) (h : db.getSlot slotId = none) :
    (_reorderSlotTokens db slotId).2 = db := by
  unfold _reorderSlotTokens
  have hts : ∀ t ∈ reorderList db slotId, t.slotId = slotId :=
    fun t ht => (reorderList_fields ht).1
  cases hl : reorderList db slotId with
  | nil => rfl
  | cons t rest =>
    rw [hl] at hts
    unfold reorderLoop
    have hm : db.getSlot (setRank 0 t).slotId = none := by
      show db.getSlot t.slotId = none
      rw [hts t (List.mem_cons_self _ _)]; exact h
    rw [calculateEstimatedTime_missing hm]

/-! ## Occupancy and live tokens -/

theorem cancelToken_store (db : Db) (tokenId : String) : (cancelToken db tokenId).2 = db := by
  unfold cancelToken
  cases h : db.getToken tokenId with
  | none => rfl
  | some token =>
    simp only
    split
    · rfl
    · split
      · rfl
      · simp [Token.markCancelled, getToken_plain h]

theorem markNoShow_store (db : Db) (tokenId : String) : (markNoShow db tokenId).2 = db := by
  unfold markNoShow
  cases h : db.getToken tokenId with
  | none => rfl
  | some token => simp [Token.markNoShow, getToken_plain h]

theorem liveCount_map (db db1 : Db) (g : TokenDoc → TokenDoc)
    (ht : db1.tokens = db.tokens.map g)
    (hg : ∀ d ∈ db.tokens, (g d).slotId = d.slotId
      ∧ ((g d).status ≠ "CANCELLED" ∧ (g d).status ≠ "NO_SHOW"
          ↔ d.status ≠ "CANCELLED" ∧ d.status ≠ "NO_SHOW"))
    (slotId : String) : db1.liveCount slotId = db.liveCount slotId := by
  unfold Db.liveCount
  rw [ht, List.filter_map, List.length_map]
  congr 1
  apply List.filter_congr
  intro d hd
  obtain ⟨h1, h2⟩ := hg d hd
  simp only [Function.comp, h1, decide_eq_decide]
  constructor
  · intro h; exact ⟨h.1, h2.mp h.2⟩
  · intro h; exact ⟨h.1, h2.mpr h.2⟩

/-- A write that keeps the slots and, on every stored token, the id and the
slot, and leaves no token CANCELLED or NO_SHOW, keeps the store steady. -/
theorem steady_map {db db1 : Db} (g : TokenDoc → TokenDoc) (h : db.steady)
    (hs : db1.slots = db.slots) (ht : db1.tokens = db.tokens.map g)
    (hg : ∀ d ∈ db.tokens, (g d)._id = d._id ∧ (g d).slotId = d.slotId
      ∧ (g d).status ≠ "CANCELLED" ∧ (g d).status ≠ "NO_SHOW") : db1.steady := by
  obtain ⟨hnd, hterm, hocc⟩ := h
  refine ⟨?_, ?_, ?_⟩
  · rw [ht, List.map_map]
    have : db.tokens.map ((fun d => d._id) ∘ g) = db.tokens.map (fun d => d._id) :=
      List.map_congr_left (fun d hd => (hg d hd).1)
    rw [this]; exact hnd
  · intro d hd
    rw [ht] at hd
    obtain ⟨x, hx, rfl⟩ := List.mem_map.mp hd
    exact (hg x hx).2.2
  · intro s hsl
    rw [hs] at hsl
    rw [hocc s hsl, liveCount_map db db1 g ht
      (fun d hd => ⟨(hg d hd).2.1, ⟨fun _ => hterm d hd, fun _ => (hg d hd).2.2⟩⟩)]

/-- Saving an object whose id and slot are those of a stored token, with a
status that is not CANCELLED or NO_SHOW, keeps the store steady. -/
theorem steady_saveToken_existing {db : Db} {t : Token} {d0 : TokenDoc} (h : db.steady)
    (hd0 : d0 ∈ db.tokens) (hid : d0._id = t.id) (hslot : d0.slotId = t.slotId)
    (hst : t.status ≠ "CANCELLED" ∧ t.status ≠ "NO_SHOW") : (db.saveToken t).steady := by
  have hp := saveToken_present ⟨d0, hd0, hid⟩
  apply steady_map (fun d => if d._id = t.id then d.update (tokenData t) else d) h
  · exact saveToken_slots db t
  · rw [hp]
  · intro d hd
    by_cases hx : d._id = t.id
    · have : d = d0 := nodup_map_inj h.1 hd hd0 (hx.trans hid.symm)
      subst this
      rw [if_pos hx]
      exact ⟨hx.symm, hslot.symm, hst⟩
    · beta_reduce
      rw [if_neg hx]
      exact ⟨rfl, rfl, h.2.1 d hd⟩

theorem steady_updateStatus {db : Db} (id status : String) (h : db.steady)
    (hst : status ≠ "CANCELLED" ∧ status ≠ "NO_SHOW") : (db.updateStatus id status).steady := by
  apply @steady_map db (db.updateStatus id status)
    (fun d => if d._id = id then { d with status := status } else d) h rfl rfl
  intro d hd
  by_cases hx : d._id = id
  · beta_reduce
    rw [if_pos hx]
    exact ⟨rfl, rfl, hst⟩
  · beta_reduce
    rw [if_neg hx]
    exact ⟨rfl, rfl, h.2.1 d hd⟩

theorem saveSlot_mem_ne {db : Db} {slot s : Slot} (h : s ∈ (db.saveSlot slot).slots) :
    s = slot ∨ (s ∈ db.slots ∧ s.id ≠ slot.id) := by
  unfold Db.saveSlot at h
  split at h
  · simp only [List.mem_map] at h
    obtain ⟨x, hx, rfl⟩ := h
    by_cases hid : x.id = slot.id
    · left; simp [hid]
    · right; simp only [hid, ↓reduceIte]; exact ⟨hx, hid⟩
  · next hany =>
    simp only [List.mem_append, List.mem_singleton] at h
    rcases h with h | h
    · right
      refine ⟨h, ?_⟩
      intro hid
      apply hany
      rw [List.any_eq_true]
      exact ⟨s, h, by simpa using hid⟩
    · left; exact h

/-- Writing back a slot with the count it had keeps the store steady. -/
theorem steady_saveSlot_same {db : Db} {s slot : Slot} (h : db.steady) (hs : s ∈ db.slots)
    (hid : slot.id = s.id) (hc : slot.currentCount = s.currentCount) :
    (db.saveSlot slot).steady := by
  obtain ⟨hnd, hterm, hocc⟩ := h
  refine ⟨by rw [saveSlot_tokens]; exact hnd, by rw [saveSlot_tokens]; exact hterm, ?_⟩
  intro x hx
  have hl : ∀ i, (db.saveSlot slot).liveCount i = db.liveCount i := by
    intro i; unfold Db.liveCount; rw [saveSlot_tokens]
  rw [hl]
  rcases saveSlot_mem_ne hx with rfl | ⟨hx, _⟩
  · rw [hc, hid]; exact hocc s hs
  · exact hocc x hx

theorem liveCount_append (db db1 : Db) (d : TokenDoc) (h : db1.tokens = db.tokens ++ [d])
    (hst : d.status ≠ "CANCELLED" ∧ d.status ≠ "NO_SHOW") (slotId : String) :
    db1.liveCount slotId = db.liveCount slotId + (if d.slotId = slotId then 1 else 0) := by
  unfold Db.liveCount
  rw [h, List.filter_append, List.length_append]
  congr 1
  by_cases hs : d.slotId = slotId
  · simp [hs, hst.1, hst.2]
  · simp [hs]

/-- An admission keeps the store steady when the uuid of the new token is
fresh. -/
theorem steady_allocateToken (cfg : PriorityConfig) {db : Db} (newId : String) (now : Nat)
    (slotId patientId patientName type : String) (phoneNumber : Option String)
    (h : db.steady) (hfresh : ∀ d ∈ db.tokens, d._id ≠ newId) :
    (allocateToken cfg db newId now slotId patientId patientName type phoneNumber).2.steady := by
  cases hs : db.getSlot slotId with
  | none => rw [allocateToken_missing cfg newId now patientId patientName type phoneNumber hs]
            exact h
  | some s =>
    cases hf : s.isFull with
    | true => rw [allocateToken_full cfg newId now patientId patientName type phoneNumber hs hf]
              exact h
    | false =>
      obtain ⟨est, he⟩ := allocateToken_admits_rank cfg newId now patientId patientName type
        phoneNumber hs hf
      generalize htk : ({ setRank (existingTokens db slotId).length
        (Token.new cfg newId now slotId patientId patientName type phoneNumber)
        with estimatedTime := est } : Token) = tok at he
      have hid : tok.id = newId := by rw [← htk]; rfl
      have hsl : (tokenData tok).slotId = slotId := by rw [← htk]; rfl
      have hstt : (tokenData tok).status = "SCHEDULED" := by rw [← htk]; rfl
      have hlive : (tokenData tok).status ≠ "CANCELLED" ∧ (tokenData tok).status ≠ "NO_SHOW" := by
        rw [hstt]; exact ⟨by decide, by decide⟩
      rw [he]
      simp only
      obtain ⟨hnd, hterm, hocc⟩ := h
      obtain ⟨hsm, hsid⟩ := getSlot_mem hs
      have hfr : ∀ d ∈ (db.saveSlot s.incrementCount).tokens, d._id ≠ tok.id := by
        rw [saveSlot_tokens, hid]; exact hfresh
      have htok := saveToken_fresh hfr
      rw [saveSlot_tokens] at htok
      refine ⟨?_, ?_, ?_⟩
      · rw [htok, List.map_append, List.nodup_append]
        refine ⟨hnd, by simp, ?_⟩
        intro a ha hb
        simp only [List.map_cons, List.map_nil, List.mem_singleton] at hb
        obtain ⟨d, hd, rfl⟩ := List.mem_map.mp ha
        exact hfresh d hd (hb.trans hid)
      · intro d hd
        rw [htok, List.mem_append, List.mem_singleton] at hd
        rcases hd with hd | rfl
        · exact hterm d hd
        · exact hlive
      · intro x hx
        rw [saveToken_slots] at hx
        have hl := liveCount_append db _ _ htok hlive x.id
        rw [hl, hsl]
        rcases saveSlot_mem_ne hx with rfl | ⟨hx, hne⟩
        · have : s.incrementCount.id = s.id := rfl
          rw [this, hsid]
          simp only [↓reduceIte, Nat.cast_add, Nat.cast_one]
          show s.currentCount + 1 = _
          rw [hocc s hsm, hsid]
        · have hne2 : ¬ slotId = x.id := by
            intro e; apply hne; rw [← e]; exact hsid.symm
          simp only [hne2, ↓reduceIte, add_zero]
          exact hocc x hx

/-- Re-ranking keeps the store steady. -/
theorem steady_reorderSlotTokens {db : Db} (slotId : String) (h : db.steady) :
    (_reorderSlotTokens db slotId).2.steady := by
  cases hs : db.getSlot slotId with
  | none => rw [reorderSlotTokens_missing db slotId hs]; exact h
  | some s =>
    rw [reorderSlotTokens_desc db slotId s hs h.1]
    apply @steady_map db
      { db with tokens := db.tokens.map (applyRanked (rerankFrom db 0
          ((db.tokens.filter (rankedDoc slotId)).map _convertDocToToken))) }
      (applyRanked (rerankFrom db 0
        ((db.tokens.filter (rankedDoc slotId)).map _convertDocToToken))) h rfl rfl
    intro d hd
    obtain ⟨tn, est, he⟩ := applyRanked_fields db slotId h.1 0 d hd
    rw [he]
    exact ⟨rfl, rfl, h.2.1 d hd⟩

theorem steady_insertEmergencyToken (cfg : PriorityConfig) {db : Db} (newId : String)
    (nowId now : Nat) (slotId patientName : String) (phoneNumber : Option String)
    (h : db.steady) (hfresh : ∀ d ∈ db.tokens, d._id ≠ newId) :
    (insertEmergencyToken cfg db newId nowId now slotId patientName phoneNumber).2.steady := by
  unfold insertEmergencyToken
  cases hs : db.getSlot slotId with
  | none => rw [slotService_getSlot_error hs]; exact h
  | some slot =>
    rw [slotService_getSlot_ok hs]
    simp only
    have h1 : (if slot.isFull = true then
        db.saveSlot { slot with maxCapacity := slot.maxCapacity + 1 } else db).steady := by
      split
      · exact steady_saveSlot_same h (getSlot_mem hs).1 rfl rfl
      · exact h
    have hf1 : ∀ d ∈ (if slot.isFull = true then
        db.saveSlot { slot with maxCapacity := slot.maxCapacity + 1 } else db).tokens,
        d._id ≠ newId := by
      split
      · rw [saveSlot_tokens]; exact hfresh
      · exact hfresh
    have h2 := steady_allocateToken cfg newId now slotId ("EMERGENCY-" ++ toString nowId)
      patientName "EMERGENCY" phoneNumber h1 hf1
    split
    · next hq => rw [hq] at h2; exact h2
    · next tok db2 hq =>
      rw [hq] at h2
      have h3 := steady_reorderSlotTokens slotId h2
      split
      · next hr => rw [hr] at h3; exact h3
      · next hr => rw [hr] at h3; exact h3

theorem getToken_doc {db : Db} {tokenId : String} {token : Token}
    (h : db.getToken tokenId = some token) :
    ∃ d ∈ db.tokens, d._id = tokenId ∧ token = _convertDocToToken d := by
  unfold Db.getToken at h
  cases hf : db.tokens.find? (fun d => d._id = tokenId) with
  | none => rw [hf] at h; simp at h
  | some d =>
    rw [hf] at h
    simp only [Option.map_some', Option.some.injEq] at h
    exact ⟨d, List.mem_of_find?_eq_some hf, by simpa using List.find?_some hf, h.symm⟩

theorem steady_updateTokenStatus {db : Db} (tokenId status : String) (statusWriteLast : Bool)
    (h : db.steady) : (updateTokenStatus db tokenId status statusWriteLast).2.steady := by
  unfold updateTokenStatus
  cases hg : db.getToken tokenId with
  | none => exact h
  | some token =>
    obtain ⟨d, hd, hid, rfl⟩ := getToken_doc hg
    simp only
    split
    · exact h
    · split
      · exact h
      · split
        · rw [cancelToken_store]; exact h
        · split
          · rw [markNoShow_store]; exact h
          · next h1 h2 h3 h4 =>
            have hst : status ≠ "CANCELLED" ∧ status ≠ "NO_SHOW" := ⟨h3, h4⟩
            have hplain : (_convertDocToToken d).hasMethods = false := rfl
            simp only [hplain, Bool.false_eq_true, ↓reduceIte]
            split
            · exact steady_updateStatus _ _
                (steady_saveToken_existing h hd rfl rfl (h.2.1 d hd)) hst
            · have hu := steady_updateStatus d._id status h hst
              have hmem : (if d._id = d._id then { d with status := status } else d)
                  ∈ (db.updateStatus d._id status).tokens :=
                List.mem_map.mpr ⟨d, hd, rfl⟩
              rw [if_pos rfl] at hmem
              exact steady_saveToken_existing hu hmem rfl rfl (h.2.1 d hd)

theorem steady_run (cfg : PriorityConfig) {db : Db} (c : Call) (h : db.steady)
    (hf : c.freshId db = true) : (c.run cfg db).steady := by
  cases c with
  | allocateToken newId now slotId patientId patientName type phoneNumber =>
    apply steady_allocateToken cfg newId now slotId patientId patientName type phoneNumber h
    intro d hd
    simp only [Call.freshId, List.all_eq_true, decide_eq_true_eq] at hf
    exact hf d hd
  | insertEmergencyToken newId nowId now slotId patientName phoneNumber =>
    apply steady_insertEmergencyToken cfg newId nowId now slotId patientName phoneNumber h
    intro d hd
    simp only [Call.freshId, List.all_eq_true, decide_eq_true_eq] at hf
    exact hf d hd
  | cancelToken tokenId => show (cancelToken db tokenId).2.steady; rw [cancelToken_store]; exact h
  | markNoShow tokenId => show (markNoShow db tokenId).2.steady; rw [markNoShow_store]; exact h
  | updateTokenStatus tokenId status statusWriteLast =>
    exact steady_updateTokenStatus tokenId status statusWriteLast h

theorem steady_runCalls (cfg : PriorityConfig) (calls : List Call) {db : Db} (h : db.steady)
    (hf : freshIds cfg db calls = true) : (runCalls cfg db calls).steady := by
  induction calls generalizing db with
  | nil => exact h
  | cons c cs ih =>
    simp only [freshIds, Bool.and_eq_true] at hf
    exact ih (steady_run cfg c h hf.1) hf.2

/-- From a store without tokens in which every slot counts zero, after any sequence of `allocateToken`,
`insertEmergencyToken`, `cancelToken`, `markNoShow` and `updateTokenStatus` calls
(returning or throwing, each new token with a fresh uuid) every slot's
`currentCount` is the number of its stored tokens that are neither CANCELLED nor
NO_SHOW, and no stored token is CANCELLED or NO_SHOW. -/
theorem occupancy_counts_live_tokens (cfg : PriorityConfig) (db0 : Db) (calls : List Call)
    (htokens : db0.tokens = []) (hcount : ∀ s ∈ db0.slots, s.currentCount = 0)
    (hfresh : freshIds cfg db0 calls = true) :
    (∀ s ∈ (runCalls cfg db0 calls).slots,
        s.currentCount = ((runCalls cfg db0 calls).liveCount s.id : Int))
      ∧ ∀ d ∈ (runCalls cfg db0 calls).tokens, d.status ≠ "CANCELLED" ∧ d.status ≠ "NO_SHOW" := by
  have h0 : db0.steady := by
    refine ⟨by rw [htokens]; exact List.nodup_nil, by rw [htokens]; simp, ?_⟩
    intro s hs
    rw [hcount s hs]
    unfold Db.liveCount
    rw [htokens]
    rfl
  have h := steady_runCalls cfg calls h0 hfresh
  exact ⟨h.2.2, h.2.1⟩

/-- After `sampleCalls` the slot counts three tokens and holds three live ones;
the no-show and cancel calls on A released nothing. -/
theorem occupancy_counts_live_tokens_witness :
    sampleEmpty.tokens = []
      ∧ freshIds defaultPriority sampleEmpty sampleCalls = true
      ∧ (runCalls defaultPriority sampleEmpty sampleCalls).slots.map
          (fun s => (s.currentCount,
            (runCalls defaultPriority sampleEmpty sampleCalls).liveCount s.id)) = [(3, 3)]
      ∧ (∀ s ∈ (runCalls defaultPriority sampleEmpty sampleCalls).slots,
          s.currentCount
            = ((runCalls defaultPriority sampleEmpty sampleCalls).liveCount s.id : Int)) :=
  ⟨rfl, by decide, by decide,
   (occupancy_counts_live_tokens defaultPriority sampleEmpty sampleCalls rfl (by decide)
      (by decide)).1⟩

/-- The function `markNoShow` is the lookup followed by `markNoShowOn`. -/
theorem markNoShow_eq_on (db : Db) (tokenId : String) :
    markNoShow db tokenId
      = match db.getToken tokenId with
        | none => (.error "Token not found", db)
        | some token => markNoShowOn db token := by
  unfold markNoShow markNoShowOn
  cases db.getToken tokenId <;> rfl

/-- C28 (failing input): in the full slot of `sampleFull` (A and B SCHEDULED,
`currentCount` 2 of 2) `markNoShow` on A throws at `token.markNoShow`, and so do
`cancelToken` on A and `updateTokenStatus` with NO_SHOW: A stays SCHEDULED and
counted, and no call of the two ever changes a store, so no token releases its
unit.  The statements that follow the lookup have no test of the status: run
on A of `sampleGap` as an object of the class `Token`, CANCELLED with its unit
released, they mark it NO_SHOW and release a second unit, and the slot counts
0 tokens while it holds the live token B. -/
theorem no_show_releases_nothing_or_twice :
    markNoShow sampleFull "a"
        = (.error "TypeError: token.markNoShow is not a function", sampleFull)
      ∧ cancelToken sampleFull "a"
        = (.error "TypeError: token.markCancelled is not a function", sampleFull)
      ∧ updateTokenStatus sampleFull "a" "NO_SHOW" true
        = (.error "TypeError: token.markNoShow is not a function", sampleFull)
      ∧ sampleFull.slots.map (fun s => (s.currentCount, s.maxCapacity)) = [(2, 2)]
      ∧ (sampleFull.getTokensBySlot "s1").map (fun t => (t.patientName, t.status))
        = [("A", "SCHEDULED"), ("B", "SCHEDULED")]
      ∧ (∀ (db : Db) (tokenId : String),
          (markNoShow db tokenId).2 = db ∧ (cancelToken db tokenId).2 = db)
      ∧ sampleGap.slots.map (fun s => (s.currentCount, sampleGap.liveCount s.id)) = [(1, 1)]
      ∧ (sampleCancelledObject.hasMethods, sampleCancelledObject.status) = (true, "CANCELLED")
      ∧ (markNoShowOn sampleGap sampleCancelledObject).1.map (fun t => t.status)
        = .ok "NO_SHOW"
      ∧ (markNoShowOn sampleGap sampleCancelledObject).2.slots.map
          (fun s => (s.currentCount,
            (markNoShowOn sampleGap sampleCancelledObject).2.liveCount s.id)) = [(0, 1)] := by
  refine ⟨by decide, by decide, by decide, by decide, by decide, ?_, by decide, by decide,
    by decide, by decide⟩
  intro db tokenId
  exact ⟨markNoShow_store db tokenId, cancelToken_store db tokenId⟩

/-! ## The two orderers side by side -/

theorem reorderLoop_rankOf (ts : List Token) (db : Db) (k : Nat) (done ranked : List Token)
    (db1 : Db) (h : reorderLoop db k done ts = (.ok ranked, db1)) :
    ranked.map rankOf
      = done.map rankOf
        ++ (assignFrom k (ts.map (fun t => (false, t)))).map (fun e => rankOf e.2) := by
  induction ts generalizing db k done with
  | nil =>
    simp only [reorderLoop, Prod.mk.injEq, Except.ok.injEq] at h
    simp [h.1, assignFrom]
  | cons t rest ih =>
    unfold reorderLoop at h
    split at h
    · simp at h
    · next r hcalc =>
      obtain ⟨est, rfl⟩ := calculateEstimatedTime_ok hcalc
      rw [ih _ _ _ h]
      simp [assignFrom, rankOf]

theorem live_filter_eq (db : Db) (slotId : String)
    (hlive : ∀ t ∈ db.getTokensBySlot slotId, t.status ≠ "CANCELLED" → t.status ≠ "NO_SHOW" →
      t.status = "SCHEDULED" ∨ t.status = "WAITING") :
    (db.getTokensBySlot slotId).filter (fun t => t.status = "SCHEDULED" ∨ t.status = "WAITING")
      = existingTokens db slotId := by
  unfold existingTokens
  apply List.filter_congr
  intro t ht
  by_cases h : t.status = "SCHEDULED" ∨ t.status = "WAITING"
  · have : t.status ≠ "CANCELLED" ∧ t.status ≠ "NO_SHOW" := by
      rcases h with h | h <;> rw [h] <;> decide
    simp [h, this]
  · have : ¬ (t.status ≠ "CANCELLED" ∧ t.status ≠ "NO_SHOW") :=
      fun hc => h (hlive t ht hc.1 hc.2)
    simp only [h, this]

/-- C29: the two orderers agree.  In a slot whose stored tokens other than the
CANCELLED and NO_SHOW ones are all SCHEDULED or WAITING, the positions and
display numbers `_assignTokenNumber` computes for the stored tokens plus a new
token are those `_reorderSlotTokens` computes once the new token is stored. -/
theorem orderers_agree (db : Db) (newToken : Token) (slotId : String) (s : Slot)
    (hs : db.getSlot slotId = some s)
    (hfresh : ∀ d ∈ db.tokens, d._id ≠ newToken.id)
    (hslot : newToken.slotId = slotId)
    (hstatus : newToken.status = "SCHEDULED" ∨ newToken.status = "WAITING")
    (hlive : ∀ t ∈ db.getTokensBySlot slotId, t.status ≠ "CANCELLED" → t.status ≠ "NO_SHOW" →
      t.status = "SCHEDULED" ∨ t.status = "WAITING") :
    ∃ ranked db1, _reorderSlotTokens (db.saveToken newToken) slotId = (.ok ranked, db1)
      ∧ ranked.map rankOf = (rankedWith db newToken slotId).map (fun e => rankOf e.2) := by
  have hs1 : (db.saveToken newToken).getSlot slotId = some s := by
    rw [getSlot_saveToken]; exact hs
  obtain ⟨ranked, hr⟩ := reorderSlotTokens_succeeds hs1
  refine ⟨ranked, (_reorderSlotTokens (db.saveToken newToken) slotId).2, ?_, ?_⟩
  · rw [← hr]
  · have hrun : reorderLoop (db.saveToken newToken) 0 [] (reorderList (db.saveToken newToken) slotId)
        = (.ok ranked, (_reorderSlotTokens (db.saveToken newToken) slotId).2) := by
      show _reorderSlotTokens (db.saveToken newToken) slotId = _
      rw [← hr]
    have hlist : reorderList (db.saveToken newToken) slotId
        = existingTokens db slotId ++ [_convertDocToToken (tokenData newToken)] := by
      rw [reorderList_eq, ← live_filter_eq db slotId hlive]
      unfold Db.getTokensBySlot
      rw [saveToken_fresh hfresh, List.filter_append, List.map_append, List.filter_append]
      congr 1
      have h1 : (tokenData newToken).slotId = slotId := hslot
      have h2 : (_convertDocToToken (tokenData newToken)).status = "SCHEDULED"
          ∨ (_convertDocToToken (tokenData newToken)).status = "WAITING" := hstatus
      simp [h1, h2]
    rw [hlist] at hrun
    rw [reorderLoop_rankOf _ _ _ _ _ _ hrun, rankedWith_eq, List.map_append, List.map_singleton,
      assignFrom_append]
    simp [rankOf, setRank, tokenData, _convertDocToToken]

/-- Witness for C29: walk-in B against the slot holding A; both orderers give A
rank 1 and B rank 2. -/
theorem orderers_agree_witness :
    ((_reorderSlotTokens (sampleOne.saveToken
        (Token.new defaultPriority "b" 2000 "s1" "pB" "B" "WALKIN" none)) "s1").1.toOption.map
          (fun ranked => ranked.map rankOf))
      = some [("a", some 1, some "T001"), ("b", some 2, some "T002")]
      ∧ (rankedWith sampleOne (Token.new defaultPriority "b" 2000 "s1" "pB" "B" "WALKIN" none)
          "s1").map (fun e => rankOf e.2)
        = [("a", some 1, some "T001"), ("b", some 2, some "T002")] := by
  obtain ⟨ranked, db1, hrun, hrank⟩ := orderers_agree sampleOne
    (Token.new defaultPriority "b" 2000 "s1" "pB" "B" "WALKIN" none) "s1"
    { sampleSlot with currentCount := 1 } (by decide) (by decide) (by decide) (by decide)
    (by decide)
  have h2 : (rankedWith sampleOne (Token.new defaultPriority "b" 2000 "s1" "pB" "B" "WALKIN" none)
      "s1").map (fun e => rankOf e.2)
        = [("a", some 1, some "T001"), ("b", some 2, some "T002")] := by decide
  refine ⟨?_, h2⟩
  rw [hrun]
  show some (ranked.map rankOf) = _
  rw [hrank, h2]

/-! ## Re-ranking is idempotent -/

/-- C30: re-ranking is idempotent.  In a store with distinct ids, running
`_reorderSlotTokens` on the store its first run left gives the same outcome and
the same ranked objects (so the same position, tokenNumber and estimatedTime for
every token) and leaves the store as the first run left it. -/
theorem reorder_twice_same (db : Db) (slotId : String)
    (hnd : (db.tokens.map (fun d => d._id)).Nodup) :
    _reorderSlotTokens (_reorderSlotTokens db slotId).2 slotId
      = _reorderSlotTokens db slotId := by
  cases hs : db.getSlot slotId with
  | none => rw [reorderSlotTokens_missing db slotId hs]
  | some s =>
    rw [reorderSlotTokens_desc db slotId s hs hnd]
    simp only
    have hid : ∀ (R : List Token), (db.tokens.map (applyRanked R)).map (fun d => d._id)
        = db.tokens.map (fun d => d._id) := by
      intro R
      rw [List.map_map]
      apply List.map_congr_left
      intro d _
      exact applyRanked_id R d
    generalize hR : rerankFrom db 0
      ((db.tokens.filter (rankedDoc slotId)).map _convertDocToToken) = R
    have hfields : ∀ d ∈ db.tokens, ∃ tn est,
        applyRanked R d = { d with tokenNumber := tn, estimatedTime := est } := by
      intro d hd
      rw [← hR]
      exact applyRanked_fields db slotId hnd 0 d hd
    have hs1 : Db.getSlot { db with tokens := db.tokens.map (applyRanked R) } slotId
        = some s := hs
    have hnd1 : ((Db.tokens { db with tokens := db.tokens.map (applyRanked R) }).map
        (fun d => d._id)).Nodup := by
      show ((db.tokens.map (applyRanked R)).map (fun d => d._id)).Nodup
      rw [hid]; exact hnd
    rw [reorderSlotTokens_desc _ slotId s hs1 hnd1]
    simp only
    -- the list the second run ranks gives the same ranked objects
    have hL : rerankFrom { db with tokens := db.tokens.map (applyRanked R) } 0
        (((db.tokens.map (applyRanked R)).filter (rankedDoc slotId)).map _convertDocToToken)
        = R := by
      rw [@rerankFrom_slots db { db with tokens := db.tokens.map (applyRanked R) } rfl 0 _,
        List.filter_map, List.map_map]
      have hf : db.tokens.filter (rankedDoc slotId ∘ applyRanked R)
          = db.tokens.filter (rankedDoc slotId) := by
        apply List.filter_congr
        intro d hd
        obtain ⟨tn, est, he⟩ := hfields d hd
        simp only [Function.comp, he]
        rfl
      rw [hf, ← hR]
      apply rerankFrom_congr
      intro d hd k
      have hdm := List.mem_filter.mp hd
      obtain ⟨tn, est, he⟩ := hfields d hdm.1
      simp only [Function.comp, hR, he]
      apply @rerankStep_forget db s k d tn est
      have : d.slotId = slotId := by
        have := hdm.2
        simp only [rankedDoc, Bool.and_eq_true, decide_eq_true_eq] at this
        exact this.1
      rw [this]; exact hs
    rw [hL]
    congr 2
    rw [List.map_map]
    apply List.map_congr_left
    intro d _
    exact applyRanked_idem _ d

/-- Witness for C30: the slot holding A, B and C, re-ranked twice. -/
theorem reorder_twice_same_witness :
    (sampleThree.tokens.map (fun d => d._id)).Nodup
      ∧ _reorderSlotTokens (_reorderSlotTokens sampleThree "s1").2 "s1"
          = _reorderSlotTokens sampleThree "s1" :=
  ⟨by decide, reorder_twice_same sampleThree "s1" (by decide)⟩

end OPD
